import Mathlib

/-!
# flux agent: instance reconciliation

A shallow embedding of the agent's two reconcilers
(`agent/sync_instances.go`, `agent/set_instances.go`) and theorems about them.

Conventions of the embedding

* A Go `string` is a Lean `String`; the byte-indexed operations of the source
  (`strings.LastIndex`, slicing, `strings.SplitN`, `strings.Split`) only ever cut
  at ASCII separators, so they are written over the character list.
* A Go `map` is an `AList` (finite map with unique keys); a map that may be `nil`
  and is written to is an `Option (AList _)`, `none` being the nil map.
  `range` over a map visits `entries` in list order; the theorems hold for every
  such order.
* A pointer to a mutable `service` is passed by value and the updated value is
  written back under the key where the pointer was found.
* A run-time panic is a `Fault`; a function that can panic returns `Except Fault _`.
* Calls to the store client thread an explicit `Store` state that also logs the
  calls and decides which of them fail.
-/

set_option autoImplicit false
set_option linter.dupNamespace false

namespace Flux

/-! ## Go run-time and standard library -/

/-- Run-time panics of the embedded code. -/
inductive Fault where
  | indexOutOfRange
  | nilMapWrite
  | nilDereference
  deriving DecidableEq, Repr

/-- A `net.IP`: a byte slice, `[]` being the nil IP. -/
abbrev IP := List Nat

/-- The Go standard library functions the agent calls and whose source is not part
of the repository: `net.ParseIP` (`none` is the nil result), `net.IP.Equal` and
`strconv.Atoi` (`none` is a non-nil error), with the one fact about them that is
used: the empty string is not an IP address. -/
structure GoLib where
  ParseIP : String → Option IP
  IPEqual : IP → IP → Bool
  Atoi : String → Option Int
  ParseIP_empty : ParseIP "" = none

namespace strings

/-- Position of the last occurrence of `sep` in a character list, `-1` when there is none. -/
def lastIndexChars (sep : Char) : List Char → Int
  | [] => -1
  | c :: cs =>
    let r := lastIndexChars sep cs
    if r ≠ -1 then r + 1 else if c = sep then 0 else -1

/-- The call `strings.LastIndex(s, sep)` for a one-character separator. -/
def LastIndex (s : String) (sep : Char) : Int :=
  lastIndexChars sep s.data

/-- The slice `s[i:]`. -/
def sliceFrom (s : String) (i : Int) : String :=
  ⟨s.data.drop i.toNat⟩

/-- The slice `s[:i]`. -/
def sliceTo (s : String) (i : Int) : String :=
  ⟨s.data.take i.toNat⟩

/-- Pieces of a character list between occurrences of `sep`. -/
def splitChars (sep : Char) : List Char → List (List Char)
  | [] => [[]]
  | c :: cs =>
    if c = sep then [] :: splitChars sep cs
    else
      match splitChars sep cs with
      | [] => [[c]]
      | p :: ps => (c :: p) :: ps

/-- The call `strings.Split(s, sep)` for a one-character separator. -/
def Split (s : String) (sep : Char) : List String :=
  (splitChars sep s.data).map String.mk

/-- Pieces of a character list cut at the first occurrence of `sep` only. -/
def splitFirstChars (sep : Char) : List Char → List (List Char)
  | [] => [[]]
  | c :: cs =>
    if c = sep then [[], cs]
    else
      match splitFirstChars sep cs with
      | [p] => [c :: p]
      | p :: q :: _ => [c :: p, q]
      | [] => [[c]]

/-- The call `strings.SplitN(s, sep, 2)` for a one-character separator. -/
def SplitN2 (s : String) (sep : Char) : List String :=
  (splitFirstChars sep s.data).map String.mk

end strings

/-! ## Data model (docker client and store types, as the agent uses them) -/

/-- A `docker.PortBinding`. -/
structure PortBinding where
  HostIP : String
  HostPort : String
  deriving DecidableEq, Repr

/-- The fields of `docker.NetworkSettings` the agent reads. -/
structure NetworkSettings where
  IPAddress : String
  Ports : AList (fun _ : String => List PortBinding)

/-- The fields of `docker.HostConfig` the agent reads. -/
structure HostConfig where
  NetworkMode : String

/-- The fields of `docker.Config` the agent reads. -/
structure Config where
  Image : String
  Labels : AList (fun _ : String => String)
  Env : List String

/-- A `docker.Container` as inspected: its three parts are present. -/
structure Container where
  ID : String
  Config : Config
  HostConfig : HostConfig
  NetworkSettings : NetworkSettings

/-- A `netutil.IPPort`. -/
structure IPPort where
  IP : IP
  Port : Int
  deriving DecidableEq, Repr

/-- A `store.Host`. -/
structure Host where
  IP : IP
  deriving DecidableEq, Repr

/-- A `store.Instance`; `Address = none` is the nil pointer. -/
structure Instance where
  ContainerRule : String
  Address : Option IPPort
  Labels : AList (fun _ : String => String)
  Host : Host
  deriving DecidableEq

/-- The zero value `var inst store.Instance`. -/
def Instance.zero : Instance :=
  { ContainerRule := "", Address := none, Labels := ∅, Host := ⟨[]⟩ }

/-- A `store.Service`: the field the agent reads. -/
structure Service where
  InstancePort : Int
  deriving DecidableEq, Repr

/-- The capability `Label(name) string` a rule predicate is evaluated against. -/
abbrev Labeled := String → Except Fault String

/-- A `store.ContainerRule`. Its method `Includes` is declared outside the given
sources, so the predicate is a parameter: any function of the label view. -/
structure ContainerRule where
  Includes : Labeled → Except Fault Bool

/-- A `store.ContainerRuleInfo`: a named rule. -/
structure ContainerRuleInfo where
  Name : String
  ContainerRule : ContainerRule

/-- A `store.InstanceInfo`: a named instance. -/
structure InstanceInfo where
  Name : String
  Instance : Instance
  deriving DecidableEq

/-- A `store.ServiceInfo`. -/
structure ServiceInfo where
  Name : String
  Service : Service
  Instances : List InstanceInfo
  ContainerRules : List ContainerRuleInfo

/-! ## Image reference and label view -/

/-- Go `imageTag`. -/
def imageTag (image : String) : String :=
  let colon := strings.LastIndex image ':'
  if colon = -1 then "latest" else strings.sliceFrom image (colon + 1)

/-- Go `imageName`. -/
def imageName (image : String) : String :=
  let colon := strings.LastIndex image ':'
  if colon = -1 then image else strings.sliceTo image colon

/-- Go `envValue`: `keyval[1]` is out of range when the entry holds no `=`. -/
def envValue (env : List String) (key : String) : Except Fault String :=
  match env with
  | [] => .ok ""
  | entry :: rest =>
    let keyval := strings.Split entry '='
    match keyval[0]? with
    | none => .error .indexOutOfRange
    | some k0 =>
      if k0 = key then
        match keyval[1]? with
        | none => .error .indexOutOfRange
        | some v => .ok v
      else envValue rest key

/-- Go `containerLabels.Label`; the view of a nil container dereferences nil.
The test `len(label) > 4 && label[:4] == "env."` counts bytes; since the four bytes
compared are ASCII it agrees with the same test on characters. -/
def containerLabels.Label (container : Option Container) (label : String) : Except Fault String :=
  match container with
  | none => .error .nilDereference
  | some c =>
    if label = "image" then .ok (imageName c.Config.Image)
    else if label = "tag" then .ok (imageTag c.Config.Image)
    else if label.length > 4 && strings.sliceTo label 4 = "env." then
      envValue c.Config.Env (strings.sliceFrom label 4)
    else .ok ((c.Config.Labels.lookup label).getD "")

/-! ## The store client -/

/-- A call issued to the store client. -/
inductive StoreCall where
  | GetAllServices
  | GetService (name : String)
  | AddInstance (serviceName instanceName : String) (inst : Instance)
  | RemoveInstance (serviceName instanceName : String)
  deriving DecidableEq

/-- A non-nil `error` returned by the store client. -/
inductive StoreError where
  | failed (call : StoreCall)
  | notFound (name : String)
  deriving DecidableEq

/-- Modelled from the spec: the store client `store.Store` (package `common/store`
is not among the given sources). §6 gives its contract: `GetAllServices` and
`GetService` return services with their instances, `GetService` fails if the
service is not found, `AddInstance` is an upsert, `RemoveInstance` is idempotent,
and any call can fail with a store error. The state holds the instance records per
service, the log of the calls issued so far (oldest first) and `failing`, which
says whether the call issued after `n` earlier calls fails. -/
structure Store where
  services : AList (fun _ : String => AList (fun _ : String => Instance))
  calls : List StoreCall
  failing : Nat → StoreCall → Bool

namespace Store

/-- The record stored under `(serviceName, instanceName)`, if any. -/
def record (st : Store) (serviceName instanceName : String) : Option Instance :=
  (st.services.lookup serviceName).bind (fun tbl => tbl.lookup instanceName)

/-- Log a call; the boolean says whether this call fails. -/
def issue (st : Store) (call : StoreCall) : Store × Bool :=
  ({ st with calls := st.calls ++ [call] }, st.failing st.calls.length call)

/-- The instances of a table as the `Instances` slice of a `ServiceInfo`. -/
def instanceInfos (tbl : AList (fun _ : String => Instance)) : List InstanceInfo :=
  tbl.entries.map (fun e => { Name := e.1, Instance := e.2 })

/-- Modelled from the spec: `GetAllServices` with instances. The reconcilers read
only `Name` and `Instances` of the result. -/
def GetAllServices (st : Store) : Store × Except StoreError (List ServiceInfo) :=
  match st.issue .GetAllServices with
  | (st1, true) => (st1, .error (.failed .GetAllServices))
  | (st1, false) =>
    (st1, .ok (st.services.entries.map (fun e =>
      { Name := e.1, Service := ⟨0⟩, Instances := instanceInfos e.2, ContainerRules := [] })))

/-- Modelled from the spec: `GetService` with instances; fails if not found. -/
def GetService (st : Store) (name : String) : Store × Except StoreError ServiceInfo :=
  match st.issue (.GetService name) with
  | (st1, true) => (st1, .error (.failed (.GetService name)))
  | (st1, false) =>
    match st.services.lookup name with
    | none => (st1, .error (.notFound name))
    | some tbl =>
      (st1, .ok { Name := name, Service := ⟨0⟩, Instances := instanceInfos tbl, ContainerRules := [] })

/-- Modelled from the spec: `AddInstance`, an upsert of the record. -/
def AddInstance (st : Store) (serviceName instanceName : String) (inst : Instance) :
    Store × Option StoreError :=
  match st.issue (.AddInstance serviceName instanceName inst) with
  | (st1, true) => (st1, some (.failed (.AddInstance serviceName instanceName inst)))
  | (st1, false) =>
    let tbl := (st.services.lookup serviceName).getD ∅
    ({ st1 with services := st.services.insert serviceName (tbl.insert instanceName inst) }, none)

/-- Modelled from the spec: `RemoveInstance`; removing an absent record is not an error. -/
def RemoveInstance (st : Store) (serviceName instanceName : String) : Store × Option StoreError :=
  match st.issue (.RemoveInstance serviceName instanceName) with
  | (st1, true) => (st1, some (.failed (.RemoveInstance serviceName instanceName)))
  | (st1, false) =>
    match st.services.lookup serviceName with
    | none => (st1, none)
    | some tbl => ({ st1 with services := st.services.insert serviceName (tbl.erase instanceName) }, none)

end Store

/-- Modelled from the spec: the error sink `daemon.ErrorSink` as the list of errors
posted so far; `Post` of a nil error is a no-op (§6). -/
def Post (errs : List StoreError) (err : Option StoreError) : List StoreError :=
  match err with
  | none => errs
  | some e => errs ++ [e]

/-! ## Container-driven reconciler (`agent/sync_instances.go`) -/

/-- Go `instanceSet`, a `map[string]struct{}`. -/
abbrev instanceSet := Finset String

/-- Go constant `GLOBAL`. -/
def GLOBAL : String := "global"

/-- Go constant `LOCAL`. -/
def LOCAL : String := "local"

/-- Go `IsValidNetworkMode`. -/
def IsValidNetworkMode (mode : String) : Bool :=
  mode = GLOBAL || mode = LOCAL

/-- Go `service`: the embedded `*store.ServiceInfo` and the cached matched set
(`none` is the nil map of a fresh `&service{}`). -/
structure service where
  ServiceInfo : ServiceInfo
  localInstances : Option instanceSet

/-- The promoted field `svc.Name`. -/
def service.Name (svc : service) : String :=
  svc.ServiceInfo.Name

/-- Go `service.includes`; reading a nil map finds nothing. -/
def service.includes (svc : service) (instanceName : String) : Bool :=
  match svc.localInstances with
  | none => false
  | some set => decide (instanceName ∈ set)

/-- Go `ContainerUpdate` (declared outside the given sources; §6 of the spec):
`Containers` maps an ID to a container or to nil, and may itself be nil. -/
structure ContainerUpdate where
  Reset : Bool
  Containers : Option (AList (fun _ : String => Option Container))

/-- Go `store.ServiceUpdate` (declared outside the given sources; §6 of the spec).
The map is only ranged over, so a nil map is the empty one. -/
structure ServiceUpdate where
  Reset : Bool
  Services : AList (fun _ : String => Option ServiceInfo)

/-- Go `syncInstances` with its embedded `syncInstancesConfig`: `store` is the state
behind the store client, `errs` the errors posted to the sink, and `services`,
`containers` are nil (`none`) until assigned. The channels are not part of the state. -/
structure syncInstances where
  hostIP : IP
  network : String
  store : Store
  errs : List StoreError
  services : Option (AList (fun _ : String => service))
  containers : Option (AList (fun _ : String => Option Container))

/-- Result of a method that mutates the reconciler and one `*service` and returns an `error`. -/
abbrev SyncResult := Except Fault (syncInstances × service × Option StoreError)

/-- Go `syncInstances.owns`. -/
def syncInstances.owns (lib : GoLib) (si : syncInstances) (inst : Instance) : Bool :=
  lib.IPEqual si.hostIP inst.Host.IP

/-- Go `instanceNameFor`: the container ID; a nil container cannot be dereferenced. -/
def instanceNameFor (c : Option Container) : Except Fault String :=
  match c with
  | none => .error .nilDereference
  | some c => .ok c.ID

/-- The loop over `bindings` in `mappedPortAddress`. -/
def mappedPortLoop (lib : GoLib) (hostIP : IP) : List PortBinding → Option IPPort
  | [] => none
  | binding :: rest =>
    let skip : Bool :=
      if binding.HostIP = "" ∨ binding.HostIP = "0.0.0.0" then false
      else
        match lib.ParseIP binding.HostIP with
        | none => true
        | some ip => !lib.IPEqual ip hostIP
    if skip then mappedPortLoop lib hostIP rest
    else
      match lib.Atoi binding.HostPort with
      | none => none
      | some mappedToPort => some ⟨hostIP, mappedToPort⟩

/-- Go `syncInstances.mappedPortAddress`; the key is `fmt.Sprintf("%d/tcp", port)`. -/
def syncInstances.mappedPortAddress (lib : GoLib) (si : syncInstances) (container : Container)
    (port : Int) : Option IPPort :=
  let p := toString port ++ "/tcp"
  match container.NetworkSettings.Ports.lookup p with
  | some bindings => mappedPortLoop lib si.hostIP bindings
  | none => none

/-- Go `syncInstances.fixedPortAddress`. -/
def syncInstances.fixedPortAddress (lib : GoLib) (_si : syncInstances) (container : Container)
    (port : Int) : Option IPPort :=
  match lib.ParseIP container.NetworkSettings.IPAddress with
  | none => none
  | some ip => some ⟨ip, port⟩

/-- Go `syncInstances.getAddress`. -/
def syncInstances.getAddress (lib : GoLib) (si : syncInstances) (_spec : ContainerRule)
    (svc : Service) (container : Container) : Option IPPort :=
  if svc.InstancePort = 0 then none
  else if container.HostConfig.NetworkMode = "host" then some ⟨si.hostIP, svc.InstancePort⟩
  else if si.network = LOCAL then si.mappedPortAddress lib container svc.InstancePort
  else if si.network = GLOBAL then si.fixedPortAddress lib container svc.InstancePort
  else none

/-- The loop `for k, v := range container.Config.Labels { labels[k] = v }`. -/
def overlayLabels (labels : AList (fun _ : String => String)) :
    List (Sigma (fun _ : String => String)) → AList (fun _ : String => String)
  | [] => labels
  | kv :: rest => overlayLabels (labels.insert kv.1 kv.2) rest

/-- The loop over `container.Config.Env` in `extractInstance`: `kv[1]` is out of
range when `strings.SplitN(v, "=", 2)` has one element, i.e. `v` holds no `=`. -/
def envLabels (labels : AList (fun _ : String => String)) :
    List String → Except Fault (AList (fun _ : String => String))
  | [] => .ok labels
  | v :: rest =>
    let kv := strings.SplitN2 v '='
    match kv[0]?, kv[1]? with
    | some k, some val => envLabels (labels.insert ("env." ++ k) val) rest
    | _, _ => .error .indexOutOfRange

/-- Go `syncInstances.extractInstance`. On a nil container every path past the
predicate dereferences it (`container.HostConfig`, `container.ID` or
`container.Config`). -/
def syncInstances.extractInstance (lib : GoLib) (si : syncInstances) (spec : ContainerRule)
    (svc : Service) (container : Option Container) : Except Fault (Instance × Bool) :=
  match spec.Includes (containerLabels.Label container) with
  | .error f => .error f
  | .ok false => .ok (Instance.zero, false)
  | .ok true =>
    match container with
    | none => .error .nilDereference
    | some c =>
      let address := si.getAddress lib spec svc c
      let labels : AList (fun _ : String => String) :=
        (AList.insert "image" (imageName c.Config.Image)
          (AList.insert "tag" (imageTag c.Config.Image) ∅))
      let labels := overlayLabels labels c.Config.Labels.entries
      match envLabels labels c.Config.Env with
      | .error f => .error f
      | .ok labels =>
        .ok ({ ContainerRule := "", Address := address, Labels := labels, Host := ⟨si.hostIP⟩ }, true)

/-- The loop over `svc.ContainerRules` in `evaluate`. -/
def evaluateLoop (lib : GoLib) (si : syncInstances) (container : Option Container)
    (svc : service) : List ContainerRuleInfo → SyncResult
  | [] => .ok (si, svc, none)
  | spec :: rest =>
    match si.extractInstance lib spec.ContainerRule svc.ServiceInfo.Service container with
    | .error f => .error f
    | .ok (_, false) => evaluateLoop lib si container svc rest
    | .ok (inst, true) =>
      let inst := { inst with ContainerRule := spec.Name }
      match instanceNameFor container with
      | .error f => .error f
      | .ok instName =>
        match si.store.AddInstance svc.Name instName inst with
        | (st, some err) => .ok ({ si with store := st }, svc, some err)
        | (st, none) =>
          match svc.localInstances with
          | none => .error .nilMapWrite
          | some set =>
            .ok ({ si with store := st },
                 { svc with localInstances := some (insert instName set) }, none)

/-- Go `syncInstances.evaluate`. -/
def syncInstances.evaluate (lib : GoLib) (si : syncInstances) (container : Option Container)
    (svc : service) : SyncResult :=
  evaluateLoop lib si container svc svc.ServiceInfo.ContainerRules

/-- The loop `for _, container := range si.containers` in `syncInstances`. -/
def evaluateAll (lib : GoLib) (si : syncInstances) (svc : service) :
    List (Sigma (fun _ : String => Option Container)) → SyncResult
  | [] => .ok (si, svc, none)
  | e :: rest =>
    match si.evaluate lib e.2 svc with
    | .error f => .error f
    | .ok (si1, svc1, some err) => .ok (si1, svc1, some err)
    | .ok (si1, svc1, none) => evaluateAll lib si1 svc1 rest

/-- The loop `for _, inst := range storeSvc.Instances` in `syncInstances`. -/
def pruneLoop (lib : GoLib) (si : syncInstances) (svc : service) :
    List InstanceInfo → syncInstances × Option StoreError
  | [] => (si, none)
  | inst :: rest =>
    if !svc.includes inst.Name && si.owns lib inst.Instance then
      match si.store.RemoveInstance svc.Name inst.Name with
      | (st, some err) => ({ si with store := st }, some err)
      | (st, none) => pruneLoop lib { si with store := st } svc rest
    else pruneLoop lib si svc rest

/-- Go `syncInstances.syncInstances`. -/
def syncInstances.syncInstances (lib : GoLib) (si : syncInstances) (svc : service) : SyncResult :=
  match si.containers with
  | none => .ok (si, svc, none)
  | some containers =>
    let svc := { svc with localInstances := some ∅ }
    match evaluateAll lib si svc containers.entries with
    | .error f => .error f
    | .ok (si1, svc1, some err) => .ok (si1, svc1, some err)
    | .ok (si1, svc1, none) =>
      match si1.store.GetService svc1.Name with
      | (st, .error err) => .ok ({ si1 with store := st }, svc1, some err)
      | (st, .ok storeSvc) =>
        match pruneLoop lib { si1 with store := st } svc1 storeSvc.Instances with
        | (si2, err) => .ok (si2, svc1, err)

/-- Write the value of a `*service` back under the key of the table it was found at. -/
def syncInstances.putService (si : Flux.syncInstances) (name : String) (svc : service) :
    Flux.syncInstances :=
  { si with services := si.services.map (fun tbl => tbl.replace name svc) }

/-- The loop over `si.services` in `addContainer`; it returns at the first error. -/
def addContainerLoop (lib : GoLib) (si : Flux.syncInstances) (container : Container) :
    List (Sigma (fun _ : String => service)) → Except Fault (Flux.syncInstances × Option StoreError)
  | [] => .ok (si, none)
  | e :: rest =>
    match si.evaluate lib (some container) e.2 with
    | .error f => .error f
    | .ok (si1, svc1, some err) => .ok (si1.putService e.1 svc1, some err)
    | .ok (si1, svc1, none) => addContainerLoop lib (si1.putService e.1 svc1) container rest

/-- Go `syncInstances.addContainer`. -/
def syncInstances.addContainer (lib : GoLib) (si : Flux.syncInstances) (container : Container) :
    Except Fault (Flux.syncInstances × Option StoreError) :=
  match si.services with
  | none => .ok (si, none)
  | some tbl => addContainerLoop lib si container tbl.entries

/-- The loop over `si.services` in `removeContainer`; it returns at the first error. -/
def removeContainerLoop (si : Flux.syncInstances) (instName : String) :
    List (Sigma (fun _ : String => service)) → Flux.syncInstances × Option StoreError
  | [] => (si, none)
  | e :: rest =>
    if e.2.includes instName then
      match si.store.RemoveInstance e.1 instName with
      | (st, some err) => ({ si with store := st }, some err)
      | (st, none) =>
        let svc1 : service :=
          { e.2 with localInstances := e.2.localInstances.map (fun set => set.erase instName) }
        removeContainerLoop (({ si with store := st } : Flux.syncInstances).putService e.1 svc1)
          instName rest
    else removeContainerLoop si instName rest

/-- Go `syncInstances.removeContainer`. -/
def syncInstances.removeContainer (si : Flux.syncInstances) (container : Container) :
    Flux.syncInstances × Option StoreError :=
  match si.services with
  | none => (si, none)
  | some tbl => removeContainerLoop si container.ID tbl.entries

/-- The loop `for _, svc := range si.services { si.errs.Post(si.syncInstances(svc)) }`. -/
def resetLoop (lib : GoLib) (si : Flux.syncInstances) :
    List (Sigma (fun _ : String => service)) → Except Fault Flux.syncInstances
  | [] => .ok si
  | e :: rest =>
    match si.syncInstances lib e.2 with
    | .error f => .error f
    | .ok (si1, svc1, err) =>
      resetLoop lib { si1.putService e.1 svc1 with errs := Post si1.errs err } rest

/-- The loop over `update.Containers` of an incremental container update. -/
def containerLoop (lib : GoLib) (si : Flux.syncInstances) :
    List (Sigma (fun _ : String => Option Container)) → Except Fault Flux.syncInstances
  | [] => .ok si
  | e :: rest =>
    match e.2 with
    | some cont =>
      match si.containers with
      | none => .error .nilMapWrite
      | some tbl =>
        match ({ si with containers := some (tbl.insert e.1 (some cont)) } :
            Flux.syncInstances).addContainer lib cont with
        | .error f => .error f
        | .ok (si1, err) => containerLoop lib { si1 with errs := Post si1.errs err } rest
    | none =>
      match (si.containers.bind (fun tbl => tbl.lookup e.1)).join with
      | some cont =>
        match ({ si with containers := si.containers.map (fun tbl => tbl.erase e.1) } :
            Flux.syncInstances).removeContainer cont with
        | (si1, err) => containerLoop lib { si1 with errs := Post si1.errs err } rest
      | none => containerLoop lib si rest

/-- Go `syncInstances.processContainerUpdate`. -/
def syncInstances.processContainerUpdate (lib : GoLib) (si : Flux.syncInstances)
    (update : ContainerUpdate) : Except Fault Flux.syncInstances :=
  if update.Reset then
    let si1 : Flux.syncInstances := { si with containers := update.Containers }
    match si1.services with
    | none => .ok si1
    | some tbl => resetLoop lib si1 tbl.entries
  else
    match update.Containers with
    | none => .ok si
    | some upd => containerLoop lib si upd.entries

/-- Go `syncInstances.redefineService`; writing a new entry into a nil table panics. -/
def syncInstances.redefineService (si : Flux.syncInstances) (svcInfo : ServiceInfo) :
    Except Fault (Flux.syncInstances × service) :=
  match si.services with
  | none => .error .nilMapWrite
  | some tbl =>
    match tbl.lookup svcInfo.Name with
    | some svc =>
      let svc1 : service := { svc with ServiceInfo := svcInfo }
      .ok (si.putService svcInfo.Name svc1, svc1)
    | none =>
      let svc1 : service := { ServiceInfo := svcInfo, localInstances := none }
      .ok ({ si with services := some (tbl.insert svcInfo.Name svc1) }, svc1)

/-- The loop over `update.Services` in `processServiceUpdate`. The removal branch
tests `si.containers[name]`, as the source does. -/
def serviceLoop (lib : GoLib) (si : Flux.syncInstances) :
    List (Sigma (fun _ : String => Option ServiceInfo)) → Except Fault Flux.syncInstances
  | [] => .ok si
  | e :: rest =>
    match e.2 with
    | some svcInfo =>
      match si.redefineService svcInfo with
      | .error f => .error f
      | .ok (si1, svc) =>
        match si1.syncInstances lib svc with
        | .error f => .error f
        | .ok (si2, svc2, err) =>
          serviceLoop lib { si2.putService svcInfo.Name svc2 with errs := Post si2.errs err } rest
    | none =>
      match (si.containers.bind (fun tbl => tbl.lookup e.1)).join with
      | some _ =>
        serviceLoop lib { si with services := si.services.map (fun tbl => tbl.erase e.1) } rest
      | none => serviceLoop lib si rest

/-- Go `syncInstances.processServiceUpdate`. -/
def syncInstances.processServiceUpdate (lib : GoLib) (si : Flux.syncInstances)
    (update : ServiceUpdate) : Except Fault Flux.syncInstances :=
  let si1 : Flux.syncInstances := if update.Reset then { si with services := some ∅ } else si
  serviceLoop lib si1 update.Services.entries

/-- An update received by the event loop of `StartFunc`, from either stream. -/
inductive Update where
  | container (update : ContainerUpdate)
  | service (update : ServiceUpdate)

/-- One iteration of the `select` in `StartFunc`: the update is fully processed. -/
def syncInstances.processOne (lib : GoLib) (si : Flux.syncInstances) :
    Update → Except Fault Flux.syncInstances
  | .container update => si.processContainerUpdate lib update
  | .service update => si.processServiceUpdate lib update

/-- The event loop of `StartFunc` over the updates in the order they are received;
a panic ends it. -/
def syncInstances.processAll (lib : GoLib) (si : Flux.syncInstances) :
    List Update → Except Fault Flux.syncInstances
  | [] => .ok si
  | u :: rest =>
    match si.processOne lib u with
    | .error f => .error f
    | .ok si1 => syncInstances.processAll lib si1 rest

/-! ## Override reconciler (`agent/set_instances.go`) -/

/-- Go `InstanceKey` (declared outside the given sources; §3 of the spec). -/
structure InstanceKey where
  Service : String
  Instance : String
  deriving DecidableEq, Repr

/-- Go `LocalInstanceUpdate` (declared outside the given sources; §6 of the spec):
a key maps to an instance or to nil. The map is only read, so nil is the empty map. -/
structure LocalInstanceUpdate where
  Reset : Bool
  LocalInstances : AList (fun _ : InstanceKey => Option Instance)

/-- Go `setInstances` with its embedded `setInstancesConfig`. -/
structure setInstances where
  hostIP : IP
  store : Store
  errs : List StoreError

/-- Go `setInstances.removeInstance`. -/
def setInstances.removeInstance (si : setInstances) (key : InstanceKey) : setInstances :=
  match si.store.RemoveInstance key.Service key.Instance with
  | (st, err) => { si with store := st, errs := Post si.errs err }

/-- The inner loop `for _, inst := range svc.Instances` of `processReset`. -/
def processResetInstances (lib : GoLib) (update : LocalInstanceUpdate) (svcName : String)
    (si : setInstances) : List InstanceInfo → setInstances
  | [] => si
  | inst :: rest =>
    if !lib.IPEqual si.hostIP inst.Instance.Host.IP then
      processResetInstances lib update svcName si rest
    else
      let key : InstanceKey := { Service := svcName, Instance := inst.Name }
      if (update.LocalInstances.lookup key).join = none then
        processResetInstances lib update svcName (si.removeInstance key) rest
      else processResetInstances lib update svcName si rest

/-- The outer loop `for _, svc := range svcs` of `processReset`. -/
def processResetServices (lib : GoLib) (update : LocalInstanceUpdate) (si : setInstances) :
    List ServiceInfo → setInstances
  | [] => si
  | svc :: rest =>
    processResetServices lib update (processResetInstances lib update svc.Name si svc.Instances) rest

/-- Go `setInstances.processReset`. -/
def setInstances.processReset (lib : GoLib) (si : setInstances) (update : LocalInstanceUpdate) :
    setInstances :=
  match si.store.GetAllServices with
  | (st, .error err) => { si with store := st, errs := Post si.errs (some err) }
  | (st, .ok svcs) => processResetServices lib update { si with store := st } svcs

/-- The loop `for key, inst := range update.LocalInstances` of `processUpdate`. -/
def processEntries (si : setInstances) :
    List (Sigma (fun _ : InstanceKey => Option Instance)) → setInstances
  | [] => si
  | e :: rest =>
    match e.2 with
    | none => processEntries (si.removeInstance e.1) rest
    | some inst =>
      match si.store.AddInstance e.1.Service e.1.Instance inst with
      | (st, err) => processEntries { si with store := st, errs := Post si.errs err } rest

/-- Go `setInstances.processUpdate`. -/
def setInstances.processUpdate (lib : GoLib) (si : setInstances) (update : LocalInstanceUpdate) :
    setInstances :=
  let si1 := if update.Reset then si.processReset lib update else si
  processEntries si1 update.LocalInstances.entries

/-! ## Notions used to state the properties -/

/-- A binding of `mappedPortAddress` that is not skipped: its `HostIP` is empty, the
wildcard, or parses to an IP that `Equal`s this host's IP. -/
def bindingQualifies (lib : GoLib) (hostIP : IP) (b : PortBinding) : Bool :=
  b.HostIP = "" || b.HostIP = "0.0.0.0" ||
    (match lib.ParseIP b.HostIP with
     | some ip => lib.IPEqual ip hostIP
     | none => false)

/-- Every environment entry holds a `=`, the `KEY=VALUE` form. -/
def envWellFormed (env : List String) : Prop :=
  ∀ e ∈ env, '=' ∈ e.data

instance (env : List String) : Decidable (envWellFormed env) := by
  unfold envWellFormed; infer_instance

/-- The key of an environment entry: what precedes its first `=`. -/
def envKey (e : String) : String :=
  ((strings.SplitN2 e '=')[0]?).getD ""

/-- The value of an environment entry: what follows its first `=`. -/
def envVal (e : String) : String :=
  ((strings.SplitN2 e '=')[1]?).getD ""

/-- The environment overlay of `extractInstance` when no entry faults: each entry
sets `env.<key>` to its value, later entries overwriting earlier ones. -/
def envOverlay (labels : AList (fun _ : String => String)) (env : List String) :
    AList (fun _ : String => String) :=
  env.foldl (fun m e => m.insert ("env." ++ envKey e) (envVal e)) labels

/-- The merged label map `extractInstance` builds for a container whose environment
entries are well formed. -/
def mergedLabels (c : Container) : AList (fun _ : String => String) :=
  envOverlay
    (overlayLabels
      (AList.insert "image" (imageName c.Config.Image)
        (AList.insert "tag" (imageTag c.Config.Image) ∅))
      c.Config.Labels.entries)
    c.Config.Env

/-- An instance fetched by `processReset` is pruned: it is owned by this host and
its key has no non-nil entry in the update. -/
def prunedByReset (lib : GoLib) (hostIP : IP) (update : LocalInstanceUpdate) (svcName : String)
    (i : InstanceInfo) : Prop :=
  lib.IPEqual hostIP i.Instance.Host.IP = true ∧
    (update.LocalInstances.lookup ⟨svcName, i.Name⟩).join = none

/-- Two reconciler states that differ at most in the store. -/
def sameButStore (si si1 : Flux.syncInstances) : Prop :=
  si1.hostIP = si.hostIP ∧ si1.network = si.network ∧ si1.errs = si.errs ∧
    si1.services = si.services ∧ si1.containers = si.containers

/-- The entry of the service table under `name`; a nil table has none. -/
def syncInstances.serviceAt (si : Flux.syncInstances) (name : String) : Option service :=
  si.services.bind (fun tbl => tbl.lookup name)

/-- The entry of the container cache under `id`; a nil cache has none. -/
def syncInstances.containerAt (si : Flux.syncInstances) (id : String) : Option (Option Container) :=
  si.containers.bind (fun tbl => tbl.lookup id)

/-- A label name that `containerLabels.Label` resolves from the image reference or
the environment instead of the declared labels: `image`, `tag`, or `env.` followed
by at least one character. -/
def syntheticLabel (k : String) : Prop :=
  k = "image" ∨ k = "tag" ∨ (k.length > 4 ∧ strings.sliceTo k 4 = "env.")

instance (k : String) : Decidable (syntheticLabel k) := by
  unfold syntheticLabel; infer_instance

/-- The registration `evaluate` issues for a container against the rules of a
service: the instance name and the instance of the first rule that includes the
container, `none` when no rule does. It depends on the reconciler only through its
host IP and addressing mode. -/
def registrationOf (lib : GoLib) (si : Flux.syncInstances) (svc : Service)
    (c : Option Container) : List ContainerRuleInfo → Except Fault (Option (String × Instance))
  | [] => .ok none
  | spec :: rest =>
    match si.extractInstance lib spec.ContainerRule svc c with
    | .error f => .error f
    | .ok (_, false) => registrationOf lib si svc c rest
    | .ok (inst, true) =>
      match instanceNameFor c with
      | .error f => .error f
      | .ok instName => .ok (some (instName, { inst with ContainerRule := spec.Name }))

/-- A container mapping keyed by container ID, as the data model has it: every
non-nil container stands under its own ID. -/
def keyedByID (entries : List (Sigma (fun _ : String => Option Container))) : Prop :=
  ∀ e ∈ entries, ∀ cont, e.2 = some cont → cont.ID = e.1

/-- A reconciler state that follows the data model: the cache is keyed by container
ID and the service table by service name. -/
def keyedState (si : Flux.syncInstances) : Prop :=
  (∀ cache, si.containers = some cache → keyedByID cache.entries) ∧
  (∀ name svc, si.serviceAt name = some svc → svc.Name = name)

/-- An update that follows the data model: containers stand under their ID, service
definitions under their name. -/
def keyedUpdate : Update → Prop
  | .container cu => ∀ upd, cu.Containers = some upd → keyedByID upd.entries
  | .service su => ∀ e ∈ su.Services.entries, ∀ info, e.2 = some info → info.Name = e.1

/-- Two reconciler states with the same store contents, the same container cache, and
the same service table with the same cached matched sets; the maps are compared by
their entries, as Go maps have no order. -/
def sameContents (a b : Flux.syncInstances) : Prop :=
  (∀ s n, b.store.record s n = a.store.record s n) ∧
  (∀ k, b.containerAt k = a.containerAt k) ∧
  b.containers.isSome = a.containers.isSome ∧
  (∀ name, b.serviceAt name = a.serviceAt name) ∧
  b.services.isSome = a.services.isSome

/-- The state reflects a recompute of the service `info` with matched set `set`
against the cached containers `entries`: every container the rules register has its
record in the store and its name in the set, the set holds nothing else, no record
of the service that is outside the set is owned by this host, and no evaluation
panics. -/
def recomputed (lib : GoLib) (si : Flux.syncInstances) (info : ServiceInfo) (set : instanceSet)
    (entries : List (Sigma (fun _ : String => Option Container))) : Prop :=
  (∀ e ∈ entries, ∃ r, registrationOf lib si info.Service e.2 info.ContainerRules = .ok r) ∧
  (∀ e ∈ entries, ∀ n inst,
    registrationOf lib si info.Service e.2 info.ContainerRules = .ok (some (n, inst)) →
    si.store.record info.Name n = some inst ∧ n ∈ set) ∧
  (∀ n, n ∈ set → ∃ e ∈ entries, ∃ inst,
    registrationOf lib si info.Service e.2 info.ContainerRules = .ok (some (n, inst))) ∧
  (∀ n inst, si.store.record info.Name n = some inst → n ∉ set → si.owns lib inst = false)

/-- Two reconciler states that differ at most in the error sink, in the log of store
calls and in the order of the store's entries. -/
def sameState (a b : Flux.syncInstances) : Prop :=
  b.hostIP = a.hostIP ∧ b.network = a.network ∧ b.services = a.services ∧
  b.containers = a.containers ∧ b.store.failing = a.store.failing ∧
  ∀ s n, b.store.record s n = a.store.record s n

/-- The state reflects the evaluation of the container `cont` against every service
of the table: no evaluation panics, and each service whose rules register the
container has the record in the store and the name in its matched set. -/
def registered (lib : GoLib) (si : Flux.syncInstances) (cont : Container) : Prop :=
  ∀ name svc, si.serviceAt name = some svc →
    (∃ r, registrationOf lib si svc.ServiceInfo.Service (some cont)
      svc.ServiceInfo.ContainerRules = .ok r) ∧
    ∀ n inst, registrationOf lib si svc.ServiceInfo.Service (some cont)
        svc.ServiceInfo.ContainerRules = .ok (some (n, inst)) →
      si.store.record svc.Name n = some inst ∧
      ∃ set, svc.localInstances = some set ∧ n ∈ set

/-- The state reflects the entry `key ↦ val` of an incremental container update: a
present container is cached under the key and registered, a removed one is not
cached. -/
def absorbed (lib : GoLib) (si : Flux.syncInstances) (key : String) (val : Option Container) :
    Prop :=
  match val with
  | some cont => si.containerAt key = some (some cont) ∧ registered lib si cont
  | none => (si.containerAt key).join = none

/-- A change confined to the container ID `cid`: apart from the error sink and the
call log, only the cache entry, the records and the matched-set members named `cid`
may differ. -/
def columnChange (cid : String) (si si1 : Flux.syncInstances) : Prop :=
  si1.hostIP = si.hostIP ∧ si1.network = si.network ∧
  si1.store.failing = si.store.failing ∧
  si1.containers.isSome = si.containers.isSome ∧
  si1.services.isSome = si.services.isSome ∧
  (∀ k, k ≠ cid → si1.containerAt k = si.containerAt k) ∧
  (∀ s n, n ≠ cid → si1.store.record s n = si.store.record s n) ∧
  (∀ name, si.serviceAt name = none → si1.serviceAt name = none) ∧
  (∀ name svc, si.serviceAt name = some svc → ∃ svc1, si1.serviceAt name = some svc1 ∧
    svc1.ServiceInfo = svc.ServiceInfo ∧
    ∀ set, svc.localInstances = some set → ∃ set1, svc1.localInstances = some set1 ∧
      ∀ n, n ≠ cid → (n ∈ set1 ↔ n ∈ set))

/-- Two reconciler states with the same configuration, the same service table, the
same cache entries and the same store records. -/
def sameView (a b : Flux.syncInstances) : Prop :=
  b.hostIP = a.hostIP ∧ b.network = a.network ∧ b.store.failing = a.store.failing ∧
  b.services = a.services ∧ b.containers.isSome = a.containers.isSome ∧
  (∀ k, b.containerAt k = a.containerAt k) ∧
  ∀ s n, b.store.record s n = a.store.record s n

/-! ## Sample data for the worked instances -/

/-- Value of a string of decimal digits. -/
def decimalChars : List Char → Option Nat
  | [] => none
  | cs => cs.foldl (fun acc c =>
      match acc with
      | none => none
      | some n => if c.isDigit then some (10 * n + (c.toNat - 48)) else none) (some 0)

/-- A dotted quad as four bytes. -/
def dottedQuad (s : String) : Option IP :=
  match (strings.splitChars '.' s.data).map decimalChars with
  | [some a, some b, some c, some d] =>
    if a < 256 ∧ b < 256 ∧ c < 256 ∧ d < 256 then some [a, b, c, d] else none
  | _ => none

/-- One behaviour of the library functions: dotted-quad IPv4 addresses compared byte
by byte, and unsigned decimal integers. -/
def GoLib.sample : GoLib where
  ParseIP := dottedQuad
  IPEqual := fun a b => decide (a = b)
  Atoi := fun s => (decimalChars s.data).map Int.ofNat
  ParseIP_empty := by decide

/-- A stopped store with no records, in which no call fails. -/
def Store.empty : Store :=
  { services := ∅, calls := [], failing := fun _ _ => false }

/-- A reconciler on host 10.0.0.1 with nothing cached. -/
def sampleAgent (network : String) : Flux.syncInstances :=
  { hostIP := [10, 0, 0, 1], network := network, store := Store.empty, errs := [],
    services := none, containers := none }

/-- A container `c1` of image `nginx:1.21`, port 80 published on host port 32768. -/
def sampleContainer : Container :=
  { ID := "c1"
    Config := { Image := "nginx:1.21", Labels := AList.insert "role" "web" ∅, Env := ["FOO=bar=baz"] }
    HostConfig := { NetworkMode := "bridge" }
    NetworkSettings :=
      { IPAddress := "172.17.0.5"
        Ports := AList.insert "80/tcp" [{ HostIP := "", HostPort := "32768" }] ∅ } }

/-- A container that declares a label named like the synthetic key of one of its
environment entries. -/
def collidingContainer : Container :=
  { sampleContainer with
    Config := { Image := "nginx", Labels := AList.insert "env.FOO" "declared" ∅,
                Env := ["FOO=fromenv"] } }

/-- A service record with the given instance port and rules and an initialised,
empty matched set. -/
def sampleService (port : Int) (rules : List ContainerRuleInfo) : service :=
  { ServiceInfo := { Name := "svc", Service := ⟨port⟩, Instances := [], ContainerRules := rules }
    localInstances := some ∅ }

/-- An instance owned by host 10.0.0.2. -/
def foreignInstance : Instance :=
  { ContainerRule := "", Address := none, Labels := ∅, Host := ⟨[10, 0, 0, 2]⟩ }

/-- An instance owned by host 10.0.0.1. -/
def ownInstance : Instance :=
  { ContainerRule := "", Address := none, Labels := ∅, Host := ⟨[10, 0, 0, 1]⟩ }

/-- An override reconciler on host 10.0.0.1 over a store that holds `(svcA, keyA)`
owned by this host and `(svcA, keyB)` owned by host 10.0.0.2. -/
def sampleOverride : setInstances :=
  { hostIP := [10, 0, 0, 1]
    store := { Store.empty with
      services := AList.insert "svcA"
        (AList.insert "keyA" ownInstance (AList.insert "keyB" foreignInstance ∅)) ∅ }
    errs := [] }

/-- A container-driven reconciler on host 10.0.0.1 that caches the sample container
`c1` and knows the service `svc` with the given rules; the store holds for `svc` a
record `gone` owned by this host and a record `other` owned by host 10.0.0.2. -/
def sampleSync (rules : List ContainerRuleInfo) : Flux.syncInstances :=
  { hostIP := [10, 0, 0, 1]
    network := LOCAL
    store := { Store.empty with
      services := AList.insert "svc"
        (AList.insert "gone" ownInstance (AList.insert "other" foreignInstance ∅)) ∅ }
    errs := []
    services := some (AList.insert "svc" (sampleService 80 rules) ∅)
    containers := some (AList.insert "c1" (some sampleContainer) ∅) }

/-- A rule that every container satisfies. -/
def ruleAny : ContainerRule :=
  { Includes := fun _ => .ok true }

/-- A rule that no container satisfies. -/
def ruleNone : ContainerRule :=
  { Includes := fun _ => .ok false }

/-- A rule satisfied by the containers whose label view gives `v` for the name `k`. -/
def ruleLabel (k v : String) : ContainerRule :=
  { Includes := fun view =>
      match view k with
      | .ok x => .ok (x == v)
      | .error f => .error f }

/-- The sample container with the environment list `env` and no declared label. -/
def containerWithEnv (env : List String) : Container :=
  { sampleContainer with Config := { Image := "nginx", Labels := ∅, Env := env } }

/-- The sample container under the ID `id` with the declared label `role = role`. -/
def containerWithRole (id role : String) : Container :=
  { sampleContainer with
    ID := id
    Config := { Image := "nginx", Labels := AList.insert "role" role ∅, Env := [] } }

/-- A service definition named `name` with instance port 80 and the given rules. -/
def sampleInfo (name : String) (rules : List ContainerRuleInfo) : ServiceInfo :=
  { Name := name, Service := ⟨80⟩, Instances := [], ContainerRules := rules }

/-- A store that knows the services `svcA`, `svcB` and `svc`, holds no instance, and
in which the calls selected by `failing` fail. -/
def sampleStore (failing : Nat → StoreCall → Bool) : Store :=
  { services := AList.insert "svcA" ∅ (AList.insert "svcB" ∅ (AList.insert "svc" ∅ ∅))
    calls := []
    failing := failing }

/-- The reconciler on host 10.0.0.1 before any update: nil service table, nil cache. -/
def initialAgent (failing : Nat → StoreCall → Bool) : Flux.syncInstances :=
  { hostIP := [10, 0, 0, 1], network := LOCAL, store := sampleStore failing, errs := [],
    services := none, containers := none }

/-- A reconciler whose table holds `svcA` and `svcB`, each with one rule that every
container satisfies, and whose cache holds the given containers. -/
def twoServiceAgent (failing : Nat → StoreCall → Bool)
    (cache : AList (fun _ : String => Option Container)) : Flux.syncInstances :=
  { initialAgent failing with
    services := some
      (AList.insert "svcA"
        { ServiceInfo := sampleInfo "svcA" [⟨"r1", ruleAny⟩], localInstances := some ∅ }
        (AList.insert "svcB"
          { ServiceInfo := sampleInfo "svcB" [⟨"r1", ruleAny⟩], localInstances := some ∅ } ∅))
    containers := some cache }

/-- The failure pattern in which exactly the calls `AddInstance(svcA, _, _)` fail. -/
def failAddTo (serviceName : String) : Nat → StoreCall → Bool :=
  fun _ call =>
    match call with
    | .AddInstance s _ _ => s == serviceName
    | _ => false

/-- The failure pattern in which exactly the calls `AddInstance(_, name, _)` fail. -/
def failAddOf (instanceName : String) : Nat → StoreCall → Bool :=
  fun _ call =>
    match call with
    | .AddInstance _ n _ => n == instanceName
    | _ => false

/-- The two-service reconciler with the container `c1` cached and no failing store call. -/
def cachedAgent : Flux.syncInstances :=
  twoServiceAgent (fun _ _ => false)
    (AList.insert "c1" (some (containerWithRole "c1" "web")) ∅)

/-- An incremental container update that brings the container `c2`. -/
def bringC2 : Update :=
  Update.container
    { Reset := false
      Containers := some (AList.insert "c2" (some (containerWithRole "c2" "web")) ∅) }

/-! ## Image reference -/

theorem lastIndexChars_of_not_mem (sep : Char) (l : List Char) (h : sep ∉ l) :
    strings.lastIndexChars sep l = -1 := by
  induction l with
  | nil => rfl
  | cons c cs ih =>
    have hc : c ≠ sep := fun e => h (by simp [e])
    have hcs : sep ∉ cs := fun e => h (by simp [e])
    simp [strings.lastIndexChars, ih hcs, hc]

theorem lastIndexChars_of_mem (sep : Char) (l : List Char) (h : sep ∈ l) :
    ∃ pre post : List Char, l = pre ++ sep :: post ∧ sep ∉ post ∧
      strings.lastIndexChars sep l = (pre.length : Int) := by
  induction l with
  | nil => simp at h
  | cons c cs ih =>
    by_cases hcs : sep ∈ cs
    · obtain ⟨pre, post, hl, hpost, hidx⟩ := ih hcs
      refine ⟨c :: pre, post, by simp [hl], hpost, ?_⟩
      have hne : (pre.length : Int) ≠ -1 := by omega
      simp only [strings.lastIndexChars, hidx]
      simp [hne]
    · have hc : c = sep := by
        rcases List.mem_cons.1 h with e | e
        · exact e.symm
        · exact absurd e hcs
      refine ⟨[], cs, by simp [hc], hcs, ?_⟩
      simp [strings.lastIndexChars, lastIndexChars_of_not_mem sep cs hcs, hc]

/-- C10. Image reference split: without a colon the name is the whole string and the
tag is `latest`; with a colon the string is `pre ++ ":" ++ post` with no colon in
`post` (so the cut is at the last colon), `imageName` is `pre`, `imageTag` is `post`,
the tag holds no colon and name, colon and tag concatenate back to the string. -/
theorem image_reference_split (s : String) :
    (':' ∉ s.data → imageName s = s ∧ imageTag s = "latest") ∧
    (':' ∈ s.data → ∃ pre post : List Char, s.data = pre ++ ':' :: post ∧ ':' ∉ post ∧
        imageName s = String.mk pre ∧ imageTag s = String.mk post ∧
        ':' ∉ (imageTag s).data ∧ imageName s ++ ":" ++ imageTag s = s) := by
  constructor
  · intro h
    simp [imageName, imageTag, strings.LastIndex, lastIndexChars_of_not_mem ':' s.data h]
  · intro h
    obtain ⟨pre, post, hl, hpost, hidx⟩ := lastIndexChars_of_mem ':' s.data h
    have hne : (pre.length : Int) ≠ -1 := by omega
    have hname : imageName s = String.mk pre := by
      simp only [imageName, strings.LastIndex, hidx, hne, strings.sliceTo, if_false]
      simp [hl]
    have htag : imageTag s = String.mk post := by
      simp only [imageTag, strings.LastIndex, hidx, hne, strings.sliceFrom, if_false]
      have : ((pre.length : Int) + 1).toNat = pre.length + 1 := by omega
      rw [this, hl]
      simp
    refine ⟨pre, post, hl, hpost, hname, htag, ?_, ?_⟩
    · rw [htag]; exact hpost
    · rw [hname, htag]
      apply String.ext
      simp [hl]

/-- Worked instance of C10: `nginx` gives (`nginx`, `latest`) and `nginx:1.21`
gives (`nginx`, `1.21`). -/
theorem image_reference_split_witness :
    (imageName "nginx" = "nginx" ∧ imageTag "nginx" = "latest") ∧
    (∃ pre post : List Char, "nginx:1.21".data = pre ++ ':' :: post ∧ ':' ∉ post ∧
        imageName "nginx:1.21" = String.mk pre ∧ imageTag "nginx:1.21" = String.mk post ∧
        ':' ∉ (imageTag "nginx:1.21").data ∧
        imageName "nginx:1.21" ++ ":" ++ imageTag "nginx:1.21" = "nginx:1.21") ∧
    imageName "nginx:1.21" = "nginx" ∧ imageTag "nginx:1.21" = "1.21" :=
  ⟨(image_reference_split "nginx").1 (by decide),
   (image_reference_split "nginx:1.21").2 (by decide), by decide, by decide⟩

/-! ## Address resolution -/

theorem mappedPortLoop_none (lib : GoLib) (hostIP : IP) (bindings : List PortBinding)
    (h : ∀ b ∈ bindings, bindingQualifies lib hostIP b = false) :
    mappedPortLoop lib hostIP bindings = none := by
  induction bindings with
  | nil => rfl
  | cons b rest ih =>
    have hb := h b (by simp)
    have hrest := ih (fun x hx => h x (by simp [hx]))
    simp only [bindingQualifies, Bool.or_eq_false_iff, decide_eq_false_iff_not] at hb
    obtain ⟨⟨h1, h2⟩, h3⟩ := hb
    simp only [mappedPortLoop, h1, h2, or_self, if_false]
    cases hp : lib.ParseIP b.HostIP with
    | none => simp [hrest]
    | some ip => simp [hp] at h3; simp [h3, hrest]

theorem mappedPortLoop_first (lib : GoLib) (hostIP : IP) (pre : List PortBinding)
    (b : PortBinding) (post : List PortBinding)
    (hpre : ∀ x ∈ pre, bindingQualifies lib hostIP x = false)
    (hb : bindingQualifies lib hostIP b = true) :
    mappedPortLoop lib hostIP (pre ++ b :: post) =
      (lib.Atoi b.HostPort).map (fun q => (⟨hostIP, q⟩ : IPPort)) := by
  induction pre with
  | nil =>
    simp only [List.nil_append, mappedPortLoop]
    simp only [bindingQualifies, Bool.or_eq_true, decide_eq_true_eq] at hb
    have hskip : (if b.HostIP = "" ∨ b.HostIP = "0.0.0.0" then false
        else match lib.ParseIP b.HostIP with
          | none => true
          | some ip => !lib.IPEqual ip hostIP) = false := by
      rcases hb with (h | h) | h
      · simp [h]
      · simp [h]
      · by_cases hw : b.HostIP = "" ∨ b.HostIP = "0.0.0.0"
        · simp [hw]
        · cases hp : lib.ParseIP b.HostIP with
          | none => simp [hp] at h
          | some ip => simp [hp] at h; simp [hw, h]
    rw [hskip]
    cases lib.Atoi b.HostPort <;> simp
  | cons x rest ih =>
    have hx := hpre x (by simp)
    have hrest := ih (fun y hy => hpre y (by simp [hy]))
    simp only [bindingQualifies, Bool.or_eq_false_iff, decide_eq_false_iff_not] at hx
    obtain ⟨⟨h1, h2⟩, h3⟩ := hx
    simp only [List.cons_append, mappedPortLoop, h1, h2, or_self, if_false]
    cases hp : lib.ParseIP x.HostIP with
    | none => simp [hrest]
    | some ip => simp [hp] at h3; simp [h3, hrest]

/-- C5. LOCAL (mapped-port) addressing. For a container not on host networking, a
non-zero instance port `p` and mode LOCAL: no address if the key `p/tcp` is absent
or no binding under it qualifies; otherwise, with `b` the first qualifying binding in
list order (those before it are skipped), the address is this host's IP with the
integer parsed from `b.HostPort`, and no address if that does not parse (later
bindings are not tried). -/
theorem getAddress_local (lib : GoLib) (si : Flux.syncInstances) (spec : ContainerRule)
    (svc : Service) (c : Container)
    (hport : svc.InstancePort ≠ 0) (hnet : c.HostConfig.NetworkMode ≠ "host")
    (hmode : si.network = LOCAL) :
    (c.NetworkSettings.Ports.lookup (toString svc.InstancePort ++ "/tcp") = none →
        si.getAddress lib spec svc c = none) ∧
    (∀ bindings, c.NetworkSettings.Ports.lookup (toString svc.InstancePort ++ "/tcp") = some bindings →
      ((∀ b ∈ bindings, bindingQualifies lib si.hostIP b = false) →
          si.getAddress lib spec svc c = none) ∧
      (∀ pre b post, bindings = pre ++ b :: post →
          (∀ x ∈ pre, bindingQualifies lib si.hostIP x = false) →
          bindingQualifies lib si.hostIP b = true →
          (∀ q, lib.Atoi b.HostPort = some q →
              si.getAddress lib spec svc c = some ⟨si.hostIP, q⟩) ∧
          (lib.Atoi b.HostPort = none → si.getAddress lib spec svc c = none))) := by
  have hget : si.getAddress lib spec svc c =
      si.mappedPortAddress lib c svc.InstancePort := by
    simp [syncInstances.getAddress, hport, hnet, hmode]
  rw [hget]
  refine ⟨fun h => by simp [syncInstances.mappedPortAddress, h], fun bindings hb => ⟨?_, ?_⟩⟩
  · intro hall
    simp [syncInstances.mappedPortAddress, hb, mappedPortLoop_none lib si.hostIP bindings hall]
  · intro pre b post hsplit hpre hq
    have := mappedPortLoop_first lib si.hostIP pre b post hpre hq
    refine ⟨fun q hparse => ?_, fun hparse => ?_⟩
    · simp [syncInstances.mappedPortAddress, hb, hsplit, this, hparse]
    · simp [syncInstances.mappedPortAddress, hb, hsplit, this, hparse]

/-- Worked instance of C5: port 80 with bindings `80/tcp: [(HostIP "", HostPort 32768)]`
resolves to this host's IP and port 32768. -/
theorem getAddress_local_witness :
    (sampleAgent LOCAL).getAddress GoLib.sample ruleAny ⟨80⟩ sampleContainer =
      some ⟨[10, 0, 0, 1], 32768⟩ :=
  ((((getAddress_local GoLib.sample (sampleAgent LOCAL) ruleAny ⟨80⟩ sampleContainer
      (by decide) (by decide) rfl).2 [{ HostIP := "", HostPort := "32768" }] (by decide)).2
      [] { HostIP := "", HostPort := "32768" } [] rfl (by simp) (by decide)).1 32768 (by decide))

/-- C6. Host-network override: for a container on host networking and a
non-zero instance port, whatever the addressing mode, bindings and assigned IP, the
address is this host's IP with the instance port. -/
theorem getAddress_host_network (lib : GoLib) (si : Flux.syncInstances) (spec : ContainerRule)
    (svc : Service) (c : Container)
    (hport : svc.InstancePort ≠ 0) (hnet : c.HostConfig.NetworkMode = "host") :
    si.getAddress lib spec svc c = some ⟨si.hostIP, svc.InstancePort⟩ := by
  simp [syncInstances.getAddress, hport, hnet]

/-- Worked instance of C6: a host-network container and port 80 under mode GLOBAL. -/
theorem getAddress_host_network_witness :
    (sampleAgent GLOBAL).getAddress GoLib.sample ruleAny ⟨80⟩
        { sampleContainer with HostConfig := { NetworkMode := "host" } } =
      some ⟨[10, 0, 0, 1], 80⟩ :=
  getAddress_host_network GoLib.sample (sampleAgent GLOBAL) ruleAny ⟨80⟩
    { sampleContainer with HostConfig := { NetworkMode := "host" } } (by decide) rfl

/-- C7. GLOBAL (fixed-port) addressing: for a container not on host networking, a
non-zero instance port `p` and mode GLOBAL, the address is the parse of the
container's assigned IP with port `p`; it does not depend on this host's IP or on the
published bindings; and there is no address exactly when the IP string is empty or
does not parse. -/
theorem getAddress_global (lib : GoLib) (si : Flux.syncInstances) (spec : ContainerRule)
    (svc : Service) (c : Container)
    (hport : svc.InstancePort ≠ 0) (hnet : c.HostConfig.NetworkMode ≠ "host")
    (hmode : si.network = GLOBAL) :
    si.getAddress lib spec svc c =
        (lib.ParseIP c.NetworkSettings.IPAddress).map (fun ip => (⟨ip, svc.InstancePort⟩ : IPPort)) ∧
    (∀ (hostIP : IP) (ports : AList (fun _ : String => List PortBinding)),
        ({ si with hostIP := hostIP } : Flux.syncInstances).getAddress lib spec svc
            { c with NetworkSettings := { c.NetworkSettings with Ports := ports } } =
          si.getAddress lib spec svc c) ∧
    (si.getAddress lib spec svc c = none ↔
        (c.NetworkSettings.IPAddress = "" ∨ lib.ParseIP c.NetworkSettings.IPAddress = none)) := by
  have hne : GLOBAL ≠ LOCAL := by decide
  have hget : ∀ (si1 : Flux.syncInstances) (c1 : Container), si1.network = GLOBAL →
      c1.HostConfig.NetworkMode ≠ "host" →
      si1.getAddress lib spec svc c1 =
        (lib.ParseIP c1.NetworkSettings.IPAddress).map (fun ip => (⟨ip, svc.InstancePort⟩ : IPPort)) := by
    intro si1 c1 h1 h2
    simp only [syncInstances.getAddress, hport, h2, h1, hne, if_false, if_true,
      syncInstances.fixedPortAddress]
    cases lib.ParseIP c1.NetworkSettings.IPAddress <;> rfl
  refine ⟨hget si c hmode hnet, fun hostIP ports => ?_, ?_⟩
  · rw [hget si c hmode hnet, hget _ _ (show ({ si with hostIP := hostIP } :
        Flux.syncInstances).network = GLOBAL from hmode) (show ({ c with NetworkSettings :=
        { c.NetworkSettings with Ports := ports } } : Container).HostConfig.NetworkMode ≠ "host"
        from hnet)]
  · rw [hget si c hmode hnet]
    constructor
    · intro h
      right
      cases hp : lib.ParseIP c.NetworkSettings.IPAddress with
      | none => rfl
      | some ip => simp [hp] at h
    · rintro (h | h)
      · simp [h, lib.ParseIP_empty]
      · simp [h]

/-- Worked instance of C7: container IP 172.17.0.5 and port 80 give (172.17.0.5, 80). -/
theorem getAddress_global_witness :
    (sampleAgent GLOBAL).getAddress GoLib.sample ruleAny ⟨80⟩ sampleContainer =
      some ⟨[172, 17, 0, 5], 80⟩ :=
  ((getAddress_global GoLib.sample (sampleAgent GLOBAL) ruleAny ⟨80⟩ sampleContainer
      (by decide) (by decide) rfl).1).trans (by decide)

/-! ## Merged label map -/

theorem splitFirstChars_of_not_mem (sep : Char) (l : List Char) (h : sep ∉ l) :
    strings.splitFirstChars sep l = [l] := by
  induction l with
  | nil => rfl
  | cons c cs ih =>
    have hc : c ≠ sep := fun e => h (by simp [e])
    have hcs : sep ∉ cs := fun e => h (by simp [e])
    simp [strings.splitFirstChars, hc, ih hcs]

theorem splitFirstChars_of_mem (sep : Char) (l : List Char) (h : sep ∈ l) :
    ∃ k v : List Char, strings.splitFirstChars sep l = [k, v] ∧ l = k ++ sep :: v ∧ sep ∉ k := by
  induction l with
  | nil => simp at h
  | cons c cs ih =>
    by_cases hc : c = sep
    · exact ⟨[], cs, by simp [strings.splitFirstChars, hc], by simp [hc], by simp⟩
    · have hcs : sep ∈ cs := by
        rcases List.mem_cons.1 h with e | e
        · exact absurd e.symm hc
        · exact e
      obtain ⟨k, v, hs, hl, hk⟩ := ih hcs
      refine ⟨c :: k, v, by simp [strings.splitFirstChars, hc, hs], by simp [hl], ?_⟩
      simp only [List.mem_cons, not_or]
      exact ⟨fun e => hc e.symm, hk⟩

theorem envLabels_of_wellFormed (env : List String) (h : envWellFormed env)
    (labels : AList (fun _ : String => String)) :
    envLabels labels env = .ok (envOverlay labels env) := by
  induction env generalizing labels with
  | nil => rfl
  | cons e rest ih =>
    have he : '=' ∈ e.data := h e (by simp)
    have hrest : envWellFormed rest := fun x hx => h x (by simp [hx])
    obtain ⟨k, v, hs, -, -⟩ := splitFirstChars_of_mem '=' e.data he
    simp only [envLabels, envOverlay, List.foldl_cons, envKey, envVal, strings.SplitN2, hs,
      List.map_cons, List.map_nil]
    simpa [envOverlay, envKey, envVal, strings.SplitN2] using ih hrest _

theorem envLabels_fault_of_no_eq (labels : AList (fun _ : String => String)) (e : String)
    (rest : List String) (h : '=' ∉ e.data) :
    envLabels labels (e :: rest) = .error .indexOutOfRange := by
  simp [envLabels, strings.SplitN2, splitFirstChars_of_not_mem '=' e.data h]

theorem lookup_overlayLabels (k : String) (entries : List (Sigma (fun _ : String => String)))
    (nd : entries.NodupKeys) (labels : AList (fun _ : String => String)) :
    (overlayLabels labels entries).lookup k =
      match entries.dlookup k with
      | some v => some v
      | none => labels.lookup k := by
  induction entries generalizing labels with
  | nil => simp [overlayLabels]
  | cons e rest ih =>
    obtain ⟨hk, hrest⟩ := List.nodupKeys_cons.1 nd
    simp only [overlayLabels]
    rw [ih hrest]
    by_cases hke : k = e.1
    · subst hke
      have hnone : rest.dlookup e.1 = none := List.dlookup_eq_none.2 hk
      obtain ⟨a, b⟩ := e
      simp [hnone, List.dlookup_cons_eq, AList.lookup_insert]
    · rw [List.dlookup_cons_ne _ _ hke]
      cases rest.dlookup k with
      | some v => rfl
      | none => simp [AList.lookup_insert_ne hke]

theorem lookup_envOverlay_of_not_key (k : String) (env : List String)
    (h : ∀ e ∈ env, "env." ++ envKey e ≠ k) (labels : AList (fun _ : String => String)) :
    (envOverlay labels env).lookup k = labels.lookup k := by
  induction env generalizing labels with
  | nil => rfl
  | cons e rest ih =>
    have he := h e (by simp)
    have hrest := ih (fun x hx => h x (by simp [hx]))
    simp only [envOverlay, List.foldl_cons]
    have := hrest (labels.insert ("env." ++ envKey e) (envVal e))
    simp only [envOverlay] at this
    rw [this, AList.lookup_insert_ne (Ne.symm he)]

theorem lookup_envOverlay_last (pre : List String) (e : String) (post : List String)
    (h : ∀ x ∈ post, envKey x ≠ envKey e) (labels : AList (fun _ : String => String)) :
    (envOverlay labels (pre ++ e :: post)).lookup ("env." ++ envKey e) = some (envVal e) := by
  have hpost : ∀ x ∈ post, "env." ++ envKey x ≠ "env." ++ envKey e := by
    intro x hx heq
    apply h x hx
    have hd := congrArg String.data heq
    simp only [String.data_append] at hd
    exact String.ext (List.append_cancel_left hd)
  simp only [envOverlay, List.foldl_append, List.foldl_cons]
  have := lookup_envOverlay_of_not_key ("env." ++ envKey e) post hpost
    ((List.foldl (fun m x => AList.insert ("env." ++ envKey x) (envVal x) m) labels pre).insert
      ("env." ++ envKey e) (envVal e))
  simp only [envOverlay] at this
  rw [this, AList.lookup_insert]

theorem extractInstance_of_match (lib : GoLib) (si : Flux.syncInstances) (spec : ContainerRule)
    (svc : Service) (c : Container)
    (hmatch : spec.Includes (containerLabels.Label (some c)) = .ok true)
    (henv : envWellFormed c.Config.Env) :
    si.extractInstance lib spec svc (some c) =
      .ok ({ ContainerRule := "", Address := si.getAddress lib spec svc c,
             Labels := mergedLabels c, Host := ⟨si.hostIP⟩ }, true) := by
  simp only [syncInstances.extractInstance, hmatch, mergedLabels]
  rw [envLabels_of_wellFormed _ henv]

theorem extractInstance_of_no_match (lib : GoLib) (si : Flux.syncInstances) (spec : ContainerRule)
    (svc : Service) (c : Option Container)
    (hmatch : spec.Includes (containerLabels.Label c) = .ok false) :
    si.extractInstance lib spec svc c = .ok (Instance.zero, false) := by
  simp only [syncInstances.extractInstance, hmatch]

/-- Counterexample to C9 as stated: the container declares the label `env.FOO` with
value `declared` and has the environment entry `FOO=fromenv`; the instance built by
`extractInstance` carries `env.FOO = fromenv`. -/
theorem declared_label_overridden_by_env :
    ∃ inst, (sampleAgent LOCAL).extractInstance GoLib.sample ruleAny ⟨80⟩
        (some collidingContainer) = .ok (inst, true) ∧
      collidingContainer.Config.Labels.lookup "env.FOO" = some "declared" ∧
      inst.Labels.lookup "env.FOO" = some "fromenv" ∧
      inst.Labels.lookup "env.FOO" ≠ some "declared" :=
  ⟨_, rfl, by decide, by decide, by decide⟩

/-- C9 (amended). For a container that satisfies the rule and whose environment
entries all hold a `=`, `extractInstance` builds an instance in which every declared
label `k = v` has `Labels[k] = v` unless `k` is `env.<KEY>` for the key of some
environment entry (so declared labels win over the synthetic `image` and `tag`);
and each key `env.<KEY>` of an environment entry carries the value of the last entry
with that key, whatever the declared labels. -/
theorem extractInstance_declared_labels (lib : GoLib) (si : Flux.syncInstances)
    (spec : ContainerRule) (svc : Service) (c : Container)
    (hmatch : spec.Includes (containerLabels.Label (some c)) = .ok true)
    (henv : envWellFormed c.Config.Env) :
    ∃ inst, si.extractInstance lib spec svc (some c) = .ok (inst, true) ∧
      (∀ k v, c.Config.Labels.lookup k = some v →
          (∀ e ∈ c.Config.Env, "env." ++ envKey e ≠ k) → inst.Labels.lookup k = some v) ∧
      (∀ pre e post, c.Config.Env = pre ++ e :: post →
          (∀ x ∈ post, envKey x ≠ envKey e) →
          inst.Labels.lookup ("env." ++ envKey e) = some (envVal e)) := by
  refine ⟨_, extractInstance_of_match lib si spec svc c hmatch henv, ?_, ?_⟩
  · intro k v hk hno
    show (mergedLabels c).lookup k = some v
    unfold mergedLabels
    rw [lookup_envOverlay_of_not_key k _ hno, lookup_overlayLabels k _ c.Config.Labels.nodupKeys]
    have : c.Config.Labels.entries.dlookup k = some v := hk
    simp [this]
  · intro pre e post hsplit hlast
    show (mergedLabels c).lookup ("env." ++ envKey e) = some (envVal e)
    unfold mergedLabels
    rw [hsplit]
    exact lookup_envOverlay_last pre e post hlast _

/-- Worked instance of C9 (amended): the declared label `role = web` of the sample
container is in the merged map, and so is `env.FOO` from its environment. -/
theorem extractInstance_declared_labels_witness :
    ∃ inst, (sampleAgent LOCAL).extractInstance GoLib.sample ruleAny ⟨80⟩
        (some sampleContainer) = .ok (inst, true) ∧
      inst.Labels.lookup "role" = some "web" ∧
      inst.Labels.lookup ("env." ++ envKey "FOO=bar=baz") = some (envVal "FOO=bar=baz") := by
  obtain ⟨inst, h, h1, h2⟩ := extractInstance_declared_labels GoLib.sample (sampleAgent LOCAL)
    ruleAny ⟨80⟩ sampleContainer rfl (by decide)
  exact ⟨inst, h, h1 "role" "web" (by decide) (by decide),
    h2 [] "FOO=bar=baz" [] rfl (by simp)⟩

/-! ## Rule evaluation -/

theorem Store.calls_AddInstance (st : Store) (s n : String) (inst : Instance) :
    (st.AddInstance s n inst).1.calls = st.calls ++ [StoreCall.AddInstance s n inst] := by
  unfold Store.AddInstance Store.issue
  cases st.failing st.calls.length (StoreCall.AddInstance s n inst) <;> rfl

theorem Store.AddInstance_ok (st : Store) (s n : String) (inst : Instance)
    (h : st.failing st.calls.length (StoreCall.AddInstance s n inst) = false) :
    st.AddInstance s n inst =
      ({ st with calls := st.calls ++ [StoreCall.AddInstance s n inst],
                 services := st.services.insert s
                   (((st.services.lookup s).getD ∅).insert n inst) }, none) := by
  simp [Store.AddInstance, Store.issue, h]

theorem Store.record_AddInstance_ok (st : Store) (s n : String) (inst : Instance)
    (h : st.failing st.calls.length (StoreCall.AddInstance s n inst) = false) :
    (st.AddInstance s n inst).1.record s n = some inst := by
  rw [Store.AddInstance_ok st s n inst h]
  simp [Store.record, AList.lookup_insert]

theorem evaluateLoop_skip (lib : GoLib) (si : Flux.syncInstances) (c : Option Container)
    (svc : service) (pre rest : List ContainerRuleInfo)
    (h : ∀ x ∈ pre, x.ContainerRule.Includes (containerLabels.Label c) = .ok false) :
    evaluateLoop lib si c svc (pre ++ rest) = evaluateLoop lib si c svc rest := by
  induction pre with
  | nil => rfl
  | cons x xs ih =>
    have hx := h x (by simp)
    simp only [List.cons_append, evaluateLoop,
      extractInstance_of_no_match lib si x.ContainerRule svc.ServiceInfo.Service c hx]
    exact ih (fun y hy => h y (by simp [hy]))

theorem evaluateLoop_match (lib : GoLib) (si : Flux.syncInstances) (c : Container)
    (svc : service) (r : ContainerRuleInfo) (post : List ContainerRuleInfo)
    (hmatch : r.ContainerRule.Includes (containerLabels.Label (some c)) = .ok true)
    (henv : envWellFormed c.Config.Env) :
    evaluateLoop lib si (some c) svc (r :: post) =
      match si.store.AddInstance svc.Name c.ID
          { ContainerRule := r.Name,
            Address := si.getAddress lib r.ContainerRule svc.ServiceInfo.Service c,
            Labels := mergedLabels c, Host := ⟨si.hostIP⟩ } with
      | (st, some err) => .ok ({ si with store := st }, svc, some err)
      | (st, none) =>
        match svc.localInstances with
        | none => .error .nilMapWrite
        | some set =>
          .ok ({ si with store := st }, { svc with localInstances := some (insert c.ID set) },
               none) := by
  simp only [evaluateLoop,
    extractInstance_of_match lib si r.ContainerRule svc.ServiceInfo.Service c hmatch henv,
    instanceNameFor]

theorem evaluate_of_no_match (lib : GoLib) (si : Flux.syncInstances) (c : Option Container)
    (svc : service)
    (h : ∀ x ∈ svc.ServiceInfo.ContainerRules,
      x.ContainerRule.Includes (containerLabels.Label c) = .ok false) :
    si.evaluate lib c svc = .ok (si, svc, none) := by
  have := evaluateLoop_skip lib si c svc svc.ServiceInfo.ContainerRules [] h
  simpa [syncInstances.evaluate, evaluateLoop] using this

theorem extractInstance_ok_of_match (lib : GoLib) (si : Flux.syncInstances)
    (spec : ContainerRule) (svc : Service) (c : Option Container) (inst : Instance) (b : Bool)
    (hmatch : spec.Includes (containerLabels.Label c) = .ok true)
    (h : si.extractInstance lib spec svc c = .ok (inst, b)) : b = true := by
  unfold syncInstances.extractInstance at h
  simp only [hmatch] at h
  cases c with
  | none => cases h
  | some cont =>
    simp only at h
    split at h
    · cases h
    · simp only [Except.ok.injEq, Prod.mk.injEq] at h
      exact h.2.symm

/-- Rule precedence in `evaluate` where `evaluate` returns. Let the rules be
`pre ++ r :: post` where no rule of `pre` is satisfied by the container's label view
and `r` is (whatever the
rules of `post` say). For a container with well-formed environment entries and a
service whose matched set is initialised, `evaluate` returns having issued exactly
one store call, the `AddInstance` for (service name, container ID), and the instance
written names `r`. For every container, whenever `evaluate` returns, that one call
naming `r` is the only store call it issued. If no rule is satisfied, `evaluate`
issues no store call and changes nothing. -/
theorem evaluate_rule_precedence (lib : GoLib) (si : Flux.syncInstances) (svc : service)
    (c : Container) :
    (∀ pre r post, svc.ServiceInfo.ContainerRules = pre ++ r :: post →
        (∀ x ∈ pre, x.ContainerRule.Includes (containerLabels.Label (some c)) = .ok false) →
        r.ContainerRule.Includes (containerLabels.Label (some c)) = .ok true →
        envWellFormed c.Config.Env → svc.localInstances ≠ none →
        ∃ si1 svc1 err inst, si.evaluate lib (some c) svc = .ok (si1, svc1, err) ∧
          si1.store.calls = si.store.calls ++ [StoreCall.AddInstance svc.Name c.ID inst] ∧
          inst.ContainerRule = r.Name) ∧
    (∀ pre r post, svc.ServiceInfo.ContainerRules = pre ++ r :: post →
        (∀ x ∈ pre, x.ContainerRule.Includes (containerLabels.Label (some c)) = .ok false) →
        r.ContainerRule.Includes (containerLabels.Label (some c)) = .ok true →
        ∀ si1 svc1 err, si.evaluate lib (some c) svc = .ok (si1, svc1, err) →
        ∃ inst, si1.store.calls = si.store.calls ++ [StoreCall.AddInstance svc.Name c.ID inst] ∧
          inst.ContainerRule = r.Name) ∧
    ((∀ x ∈ svc.ServiceInfo.ContainerRules,
          x.ContainerRule.Includes (containerLabels.Label (some c)) = .ok false) →
        si.evaluate lib (some c) svc = .ok (si, svc, none)) := by
  refine ⟨?_, ?_, evaluate_of_no_match lib si (some c) svc⟩
  · intro pre r post hrules hpre hmatch henv hset
    obtain ⟨set, hset⟩ := Option.ne_none_iff_exists'.1 hset
    have hcalls := Store.calls_AddInstance si.store svc.Name c.ID
      { ContainerRule := r.Name,
        Address := si.getAddress lib r.ContainerRule svc.ServiceInfo.Service c,
        Labels := mergedLabels c, Host := ⟨si.hostIP⟩ }
    have heval : si.evaluate lib (some c) svc = evaluateLoop lib si (some c) svc (r :: post) := by
      simp only [syncInstances.evaluate, hrules]
      exact evaluateLoop_skip lib si (some c) svc pre (r :: post) hpre
    rw [heval, evaluateLoop_match lib si c svc r post hmatch henv]
    rcases hadd : si.store.AddInstance svc.Name c.ID
        { ContainerRule := r.Name,
          Address := si.getAddress lib r.ContainerRule svc.ServiceInfo.Service c,
          Labels := mergedLabels c, Host := ⟨si.hostIP⟩ } with ⟨st, _ | err⟩
    · rw [hadd] at hcalls
      exact ⟨_, _, _, _, by simp only [hset]; rfl, hcalls, rfl⟩
    · rw [hadd] at hcalls
      exact ⟨_, _, _, _, rfl, hcalls, rfl⟩
  · intro pre r post hrules hpre hmatch si1 svc1 err hrun
    have heval : si.evaluate lib (some c) svc = evaluateLoop lib si (some c) svc (r :: post) := by
      simp only [syncInstances.evaluate, hrules]
      exact evaluateLoop_skip lib si (some c) svc pre (r :: post) hpre
    rw [heval, evaluateLoop] at hrun
    rcases hx : si.extractInstance lib r.ContainerRule svc.ServiceInfo.Service (some c) with
      f | ⟨inst, b⟩
    · simp [hx] at hrun
    · have hb := extractInstance_ok_of_match lib si _ _ _ inst b hmatch hx
      subst hb
      simp only [hx, instanceNameFor] at hrun
      have hcalls := Store.calls_AddInstance si.store svc.Name c.ID
        { inst with ContainerRule := r.Name }
      refine ⟨{ inst with ContainerRule := r.Name }, ?_, rfl⟩
      rcases hadd : si.store.AddInstance svc.Name c.ID { inst with ContainerRule := r.Name } with
        ⟨st, _ | e⟩
      · rw [hadd] at hcalls
        simp only [hadd] at hrun
        cases hset : svc.localInstances with
        | none => simp [hset] at hrun
        | some set =>
          simp only [hset, Except.ok.injEq, Prod.mk.injEq] at hrun
          rw [← hrun.1]
          exact hcalls
      · rw [hadd] at hcalls
        simp only [hadd, Except.ok.injEq, Prod.mk.injEq] at hrun
        rw [← hrun.1]
        exact hcalls

/-- Worked instance of the rule precedence: with rules `r1` (never satisfied), `r2`
and `r5` (both satisfied) the single store call is the `AddInstance` of an instance
naming `r2`. -/
theorem evaluate_rule_precedence_witness :
    ∃ si1 svc1 err inst,
      (sampleAgent LOCAL).evaluate GoLib.sample (some sampleContainer)
          (sampleService 80 [⟨"r1", ruleNone⟩, ⟨"r2", ruleAny⟩, ⟨"r5", ruleAny⟩]) =
        .ok (si1, svc1, err) ∧
      si1.store.calls = [StoreCall.AddInstance "svc" "c1" inst] ∧
      inst.ContainerRule = "r2" :=
  (evaluate_rule_precedence GoLib.sample (sampleAgent LOCAL)
      (sampleService 80 [⟨"r1", ruleNone⟩, ⟨"r2", ruleAny⟩, ⟨"r5", ruleAny⟩])
      sampleContainer).1 [⟨"r1", ruleNone⟩] ⟨"r2", ruleAny⟩ [⟨"r5", ruleAny⟩] rfl
    (by simp [ruleNone]) rfl (by decide) (by simp [sampleService])

/-- The unaddressable instance where `extractInstance` and `evaluate` return. For a
service with instance port 0 and every
container, rule and addressing mode: `getAddress` returns no address; if the rule is
satisfied (and the environment entries are well formed) `extractInstance` still
returns an instance, with no address and owned by this host; if the first
satisfied rule of the service is `r`, the matched set is initialised and the store
call does not fail, `evaluate` writes that instance under (service name, container
ID) and adds the container ID to the matched set; and every instance that
`extractInstance` returns for the service has no address and is owned by this host. -/
theorem unaddressable_instance (lib : GoLib) (si : Flux.syncInstances) (svc : service)
    (c : Container) (hport : svc.ServiceInfo.Service.InstancePort = 0) :
    (∀ spec, si.getAddress lib spec svc.ServiceInfo.Service c = none) ∧
    (∀ spec, spec.Includes (containerLabels.Label (some c)) = .ok true →
        envWellFormed c.Config.Env →
        ∃ inst, si.extractInstance lib spec svc.ServiceInfo.Service (some c) = .ok (inst, true) ∧
          inst.Address = none ∧ inst.Host = ⟨si.hostIP⟩) ∧
    (∀ pre r post set, svc.ServiceInfo.ContainerRules = pre ++ r :: post →
        (∀ x ∈ pre, x.ContainerRule.Includes (containerLabels.Label (some c)) = .ok false) →
        r.ContainerRule.Includes (containerLabels.Label (some c)) = .ok true →
        envWellFormed c.Config.Env → svc.localInstances = some set →
        (∀ call, si.store.failing si.store.calls.length call = false) →
        ∃ si1 svc1 inst, si.evaluate lib (some c) svc = .ok (si1, svc1, none) ∧
          si1.store.record svc.Name c.ID = some inst ∧
          inst.Address = none ∧ inst.Host = ⟨si.hostIP⟩ ∧ inst.ContainerRule = r.Name ∧
          svc1.localInstances = some (insert c.ID set) ∧ svc1.includes c.ID = true) ∧
    (∀ spec inst, si.extractInstance lib spec svc.ServiceInfo.Service (some c) = .ok (inst, true) →
        inst.Address = none ∧ inst.Host = ⟨si.hostIP⟩) := by
  have haddr : ∀ spec, si.getAddress lib spec svc.ServiceInfo.Service c = none := by
    intro spec
    simp [syncInstances.getAddress, hport]
  refine ⟨haddr, ?_, ?_, ?_⟩
  rotate_left 2
  · intro spec inst h
    unfold syncInstances.extractInstance at h
    split at h
    · cases h
    · simp only [Except.ok.injEq, Prod.mk.injEq] at h
      cases h.2
    · simp only at h
      split at h
      · cases h
      · simp only [Except.ok.injEq, Prod.mk.injEq] at h
        rw [← h.1]
        exact ⟨haddr spec, rfl⟩
  · intro spec hmatch henv
    exact ⟨_, extractInstance_of_match lib si spec _ c hmatch henv, haddr spec, rfl⟩
  · intro pre r post set hrules hpre hmatch henv hset hok
    have heval : si.evaluate lib (some c) svc = evaluateLoop lib si (some c) svc (r :: post) := by
      simp only [syncInstances.evaluate, hrules]
      exact evaluateLoop_skip lib si (some c) svc pre (r :: post) hpre
    have hrec := Store.record_AddInstance_ok si.store svc.Name c.ID
      { ContainerRule := r.Name,
        Address := si.getAddress lib r.ContainerRule svc.ServiceInfo.Service c,
        Labels := mergedLabels c, Host := ⟨si.hostIP⟩ } (hok _)
    rw [heval, evaluateLoop_match lib si c svc r post hmatch henv]
    rw [Store.AddInstance_ok _ _ _ _ (hok _)] at hrec ⊢
    simp only [hset]
    exact ⟨_, _, _, rfl, hrec, haddr r.ContainerRule, rfl, rfl, rfl, by simp [service.includes]⟩

/-- Worked instance of the unaddressable instance: a host-network container matched
by the only rule of a service with instance port 0 is written without address and
recorded as matched. -/
theorem unaddressable_instance_witness :
    ∃ si1 svc1 inst,
      (sampleAgent GLOBAL).evaluate GoLib.sample
          (some { sampleContainer with HostConfig := { NetworkMode := "host" } })
          (sampleService 0 [⟨"r1", ruleAny⟩]) = .ok (si1, svc1, none) ∧
      si1.store.record "svc" "c1" = some inst ∧
      inst.Address = none ∧ inst.Host = ⟨[10, 0, 0, 1]⟩ ∧ inst.ContainerRule = "r1" ∧
      svc1.localInstances = some (insert "c1" ∅) ∧ svc1.includes "c1" = true :=
  (unaddressable_instance GoLib.sample (sampleAgent GLOBAL) (sampleService 0 [⟨"r1", ruleAny⟩])
      { sampleContainer with HostConfig := { NetworkMode := "host" } } rfl).2.2.1
    [] ⟨"r1", ruleAny⟩ [] ∅ rfl (by simp) rfl (by decide) rfl (fun _ => rfl)

/-! ## Store records -/

theorem Store.record_AddInstance_ne (st : Store) (s n : String) (inst : Instance)
    (s1 n1 : String) (h : ¬ (s1 = s ∧ n1 = n)) :
    (st.AddInstance s n inst).1.record s1 n1 = st.record s1 n1 := by
  unfold Store.AddInstance Store.issue
  cases st.failing st.calls.length (StoreCall.AddInstance s n inst) with
  | true => rfl
  | false =>
    simp only [Store.record]
    by_cases hs : s1 = s
    · subst hs
      have hn : n1 ≠ n := fun e => h ⟨rfl, e⟩
      rw [AList.lookup_insert]
      cases AList.lookup s1 st.services with
      | none =>
        simp only [Option.getD_none, Option.some_bind, Option.none_bind]
        rw [AList.lookup_insert_ne hn, AList.lookup_empty]
      | some tbl =>
        simp only [Option.getD_some, Option.some_bind]
        rw [AList.lookup_insert_ne hn]
    · rw [AList.lookup_insert_ne hs]

theorem Store.record_RemoveInstance_ne (st : Store) (s n : String)
    (s1 n1 : String) (h : ¬ (s1 = s ∧ n1 = n)) :
    (st.RemoveInstance s n).1.record s1 n1 = st.record s1 n1 := by
  unfold Store.RemoveInstance Store.issue
  cases st.failing st.calls.length (StoreCall.RemoveInstance s n) with
  | true => rfl
  | false =>
    cases hl : AList.lookup s st.services with
    | none => rfl
    | some tbl =>
      simp only [Store.record]
      by_cases hs : s1 = s
      · subst hs
        have hn : n1 ≠ n := fun e => h ⟨rfl, e⟩
        rw [AList.lookup_insert, hl]
        simp [AList.lookup_erase_ne hn]
      · rw [AList.lookup_insert_ne hs]

theorem Store.record_RemoveInstance_ok (st : Store) (s n : String)
    (h : (st.RemoveInstance s n).2 = none) :
    (st.RemoveInstance s n).1.record s n = none := by
  unfold Store.RemoveInstance Store.issue at h ⊢
  cases hf : st.failing st.calls.length (StoreCall.RemoveInstance s n) with
  | true => simp [hf] at h
  | false =>
    cases hl : AList.lookup s st.services with
    | none => simp [Store.record, hl]
    | some tbl => simp [Store.record, AList.lookup_insert, AList.lookup_erase]

theorem Store.record_RemoveInstance_self (st : Store) (s n : String) :
    (st.RemoveInstance s n).1.record s n = none ∨
      (st.RemoveInstance s n).1.record s n = st.record s n := by
  unfold Store.RemoveInstance Store.issue
  cases hf : st.failing st.calls.length (StoreCall.RemoveInstance s n) with
  | true => right; rfl
  | false =>
    cases hl : AList.lookup s st.services with
    | none => right; rfl
    | some tbl => left; simp [Store.record, AList.lookup_insert, AList.lookup_erase]

theorem Store.failing_AddInstance (st : Store) (s n : String) (inst : Instance) :
    (st.AddInstance s n inst).1.failing = st.failing := by
  unfold Store.AddInstance Store.issue
  cases st.failing st.calls.length (StoreCall.AddInstance s n inst) <;> rfl

theorem Store.failing_RemoveInstance (st : Store) (s n : String) :
    (st.RemoveInstance s n).1.failing = st.failing := by
  unfold Store.RemoveInstance Store.issue
  cases st.failing st.calls.length (StoreCall.RemoveInstance s n) with
  | true => rfl
  | false => cases AList.lookup s st.services <;> rfl

theorem Store.RemoveInstance_err_of_not_failing (st : Store) (s n : String)
    (h : st.failing st.calls.length (StoreCall.RemoveInstance s n) = false) :
    (st.RemoveInstance s n).2 = none := by
  unfold Store.RemoveInstance Store.issue
  rw [h]
  cases AList.lookup s st.services <;> rfl

theorem Store.calls_RemoveInstance (st : Store) (s n : String) :
    (st.RemoveInstance s n).1.calls = st.calls ++ [StoreCall.RemoveInstance s n] := by
  unfold Store.RemoveInstance Store.issue
  cases st.failing st.calls.length (StoreCall.RemoveInstance s n) with
  | true => rfl
  | false => cases AList.lookup s st.services <;> rfl

theorem Store.mem_instanceInfos (tbl : AList (fun _ : String => Instance)) (i : InstanceInfo) :
    i ∈ Store.instanceInfos tbl ↔ tbl.lookup i.Name = some i.Instance := by
  unfold Store.instanceInfos
  rw [List.mem_map]
  constructor
  · rintro ⟨⟨n, v⟩, hmem, rfl⟩
    exact AList.mem_lookup_iff.2 hmem
  · intro h
    exact ⟨⟨i.Name, i.Instance⟩, AList.mem_lookup_iff.1 h, rfl⟩

theorem Store.record_AddInstance_self (st : Store) (s n : String) (inst : Instance) :
    (st.AddInstance s n inst).1.record s n = some inst ∨
      (st.AddInstance s n inst).1.record s n = st.record s n := by
  cases hf : st.failing st.calls.length (StoreCall.AddInstance s n inst) with
  | true => right; simp [Store.AddInstance, Store.issue, hf, Store.record]
  | false => left; exact Store.record_AddInstance_ok st s n inst hf

theorem Store.record_of_mem_GetAllServices (st : Store) (svc : ServiceInfo) (i : InstanceInfo)
    (hsvc : svc ∈ st.services.entries.map (fun e =>
      ({ Name := e.1, Service := ⟨0⟩, Instances := Store.instanceInfos e.2,
         ContainerRules := [] } : ServiceInfo)))
    (hi : i ∈ svc.Instances) :
    st.record svc.Name i.Name = some i.Instance := by
  obtain ⟨⟨name, tbl⟩, hmem, rfl⟩ := List.mem_map.1 hsvc
  have h1 : st.services.lookup name = some tbl := AList.mem_lookup_iff.2 hmem
  have h2 : tbl.lookup i.Name = some i.Instance := (Store.mem_instanceInfos tbl i).1 hi
  simp [Store.record, h1, h2]

theorem Store.mem_GetAllServices_of_record (st : Store) (s n : String) (inst : Instance)
    (h : st.record s n = some inst) :
    ∃ svc ∈ st.services.entries.map (fun e =>
        ({ Name := e.1, Service := ⟨0⟩, Instances := Store.instanceInfos e.2,
           ContainerRules := [] } : ServiceInfo)),
      ∃ i ∈ svc.Instances, svc.Name = s ∧ i.Name = n ∧ i.Instance = inst := by
  unfold Store.record at h
  cases hl : st.services.lookup s with
  | none => simp [hl] at h
  | some tbl =>
    simp only [hl, Option.some_bind] at h
    refine ⟨{ Name := s, Service := ⟨0⟩, Instances := Store.instanceInfos tbl,
              ContainerRules := [] }, ?_, ⟨n, inst⟩, ?_, rfl, rfl, rfl⟩
    · exact List.mem_map.2 ⟨⟨s, tbl⟩, AList.mem_lookup_iff.1 hl, rfl⟩
    · exact (Store.mem_instanceInfos tbl ⟨n, inst⟩).2 h

/-! ## Override reconciler -/

theorem removeInstance_hostIP (si : setInstances) (key : InstanceKey) :
    (si.removeInstance key).hostIP = si.hostIP := rfl

theorem removeInstance_failing (si : setInstances) (key : InstanceKey) :
    (si.removeInstance key).store.failing = si.store.failing :=
  Store.failing_RemoveInstance si.store key.Service key.Instance

theorem removeInstance_calls (si : setInstances) (key : InstanceKey) :
    (si.removeInstance key).store.calls =
      si.store.calls ++ [StoreCall.RemoveInstance key.Service key.Instance] :=
  Store.calls_RemoveInstance si.store key.Service key.Instance

theorem processResetInstances_facts (lib : GoLib) (update : LocalInstanceUpdate)
    (svcName : String) (insts : List InstanceInfo) (si : setInstances) :
    (processResetInstances lib update svcName si insts).hostIP = si.hostIP ∧
    (processResetInstances lib update svcName si insts).store.failing = si.store.failing ∧
    (∃ issued, (processResetInstances lib update svcName si insts).store.calls =
        si.store.calls ++ issued ∧
      ∀ call ∈ issued, ∃ i ∈ insts, prunedByReset lib si.hostIP update svcName i ∧
        call = StoreCall.RemoveInstance svcName i.Name) ∧
    (∀ s n, (processResetInstances lib update svcName si insts).store.record s n = none ∨
        (processResetInstances lib update svcName si insts).store.record s n =
          si.store.record s n) ∧
    (∀ s n, (¬ ∃ i ∈ insts, svcName = s ∧ i.Name = n ∧
          prunedByReset lib si.hostIP update svcName i) →
        (processResetInstances lib update svcName si insts).store.record s n =
          si.store.record s n) ∧
    (∀ s n, (∀ k call, si.store.failing k call = false) →
        (∃ i ∈ insts, svcName = s ∧ i.Name = n ∧ prunedByReset lib si.hostIP update svcName i) →
        (processResetInstances lib update svcName si insts).store.record s n = none) := by
  induction insts generalizing si with
  | nil =>
    refine ⟨rfl, rfl, ⟨[], by simp [processResetInstances], by simp⟩, fun _ _ => Or.inr rfl,
      fun _ _ _ => rfl, ?_⟩
    rintro s n - ⟨i, hi, -⟩
    simp at hi
  | cons x rest ih =>
    by_cases hown : lib.IPEqual si.hostIP x.Instance.Host.IP = true
    · by_cases hnil : (update.LocalInstances.lookup ⟨svcName, x.Name⟩).join = none
      · -- the head is pruned
        have hstep : processResetInstances lib update svcName si (x :: rest) =
            processResetInstances lib update svcName (si.removeInstance ⟨svcName, x.Name⟩) rest := by
          rw [processResetInstances]
          simp only [hown, Bool.not_true, Bool.false_eq_true, if_false, hnil, if_true]
        rw [hstep]
        obtain ⟨h1, h2, ⟨issued, h3, h3'⟩, h4, h5, h6⟩ := ih (si.removeInstance ⟨svcName, x.Name⟩)
        rw [removeInstance_hostIP] at h1 h3' h5 h6
        rw [removeInstance_failing] at h2 h6
        refine ⟨h1, h2, ⟨StoreCall.RemoveInstance svcName x.Name :: issued, ?_, ?_⟩, ?_, ?_, ?_⟩
        · rw [h3, removeInstance_calls]; simp
        · intro call hcall
          rcases List.mem_cons.1 hcall with e | e
          · exact ⟨x, by simp, ⟨hown, hnil⟩, e⟩
          · obtain ⟨i, hi, hp, hc⟩ := h3' call e
            exact ⟨i, by simp [hi], hp, hc⟩
        · intro s n
          rcases h4 s n with e | e
          · exact Or.inl e
          · rw [e]
            by_cases hk : s = svcName ∧ n = x.Name
            · obtain ⟨rfl, rfl⟩ := hk
              exact Store.record_RemoveInstance_self si.store _ _
            · exact Or.inr (Store.record_RemoveInstance_ne si.store _ _ s n hk)
        · intro s n hno
          have hk : ¬ (s = svcName ∧ n = x.Name) := by
            rintro ⟨rfl, rfl⟩
            exact hno ⟨x, by simp, rfl, rfl, hown, hnil⟩
          rw [h5 s n (fun ⟨i, hi, hh⟩ => hno ⟨i, by simp [hi], hh⟩)]
          exact Store.record_RemoveInstance_ne si.store _ _ s n hk
        · intro s n hok hex
          by_cases hk : s = svcName ∧ n = x.Name
          · obtain ⟨rfl, rfl⟩ := hk
            have hnone : (si.removeInstance ⟨s, x.Name⟩).store.record s x.Name = none :=
              Store.record_RemoveInstance_ok si.store _ _
                (Store.RemoveInstance_err_of_not_failing si.store _ _ (hok _ _))
            rcases h4 s x.Name with e | e
            · exact e
            · rw [e]; exact hnone
          · obtain ⟨i, hi, hs, hn, hp⟩ := hex
            rcases List.mem_cons.1 hi with e | e
            · subst e; exact absurd ⟨hs.symm, hn.symm⟩ hk
            · exact h6 s n hok ⟨i, e, hs, hn, hp⟩
      · -- owned, but carried by the update
        have hstep : processResetInstances lib update svcName si (x :: rest) =
            processResetInstances lib update svcName si rest := by
          rw [processResetInstances]
          simp only [hown, Bool.not_true, Bool.false_eq_true, if_false, if_neg hnil]
        rw [hstep]
        obtain ⟨h1, h2, ⟨issued, h3, h3'⟩, h4, h5, h6⟩ := ih si
        refine ⟨h1, h2, ⟨issued, h3, ?_⟩, h4, ?_, ?_⟩
        · intro call hcall
          obtain ⟨i, hi, hp, hc⟩ := h3' call hcall
          exact ⟨i, by simp [hi], hp, hc⟩
        · intro s n hno
          exact h5 s n (fun ⟨i, hi, hh⟩ => hno ⟨i, by simp [hi], hh⟩)
        · intro s n hok ⟨i, hi, hs, hn, hp⟩
          rcases List.mem_cons.1 hi with e | e
          · subst e; exact absurd hp.2 (by rw [← hs, ← hn] at *; exact hnil)
          · exact h6 s n hok ⟨i, e, hs, hn, hp⟩
    · -- owned by another host
      have hstep : processResetInstances lib update svcName si (x :: rest) =
          processResetInstances lib update svcName si rest := by
        rw [processResetInstances]
        simp only [hown, Bool.not_false, if_true]
      rw [hstep]
      obtain ⟨h1, h2, ⟨issued, h3, h3'⟩, h4, h5, h6⟩ := ih si
      refine ⟨h1, h2, ⟨issued, h3, ?_⟩, h4, ?_, ?_⟩
      · intro call hcall
        obtain ⟨i, hi, hp, hc⟩ := h3' call hcall
        exact ⟨i, by simp [hi], hp, hc⟩
      · intro s n hno
        exact h5 s n (fun ⟨i, hi, hh⟩ => hno ⟨i, by simp [hi], hh⟩)
      · intro s n hok ⟨i, hi, hs, hn, hp⟩
        rcases List.mem_cons.1 hi with e | e
        · subst e; exact absurd hp.1 hown
        · exact h6 s n hok ⟨i, e, hs, hn, hp⟩

theorem processResetServices_facts (lib : GoLib) (update : LocalInstanceUpdate)
    (svcs : List ServiceInfo) (si : setInstances) :
    (processResetServices lib update si svcs).hostIP = si.hostIP ∧
    (processResetServices lib update si svcs).store.failing = si.store.failing ∧
    (∃ issued, (processResetServices lib update si svcs).store.calls = si.store.calls ++ issued ∧
      ∀ call ∈ issued, ∃ svc ∈ svcs, ∃ i ∈ svc.Instances,
        prunedByReset lib si.hostIP update svc.Name i ∧
        call = StoreCall.RemoveInstance svc.Name i.Name) ∧
    (∀ s n, (processResetServices lib update si svcs).store.record s n = none ∨
        (processResetServices lib update si svcs).store.record s n = si.store.record s n) ∧
    (∀ s n, (¬ ∃ svc ∈ svcs, ∃ i ∈ svc.Instances, svc.Name = s ∧ i.Name = n ∧
          prunedByReset lib si.hostIP update svc.Name i) →
        (processResetServices lib update si svcs).store.record s n = si.store.record s n) ∧
    (∀ s n, (∀ k call, si.store.failing k call = false) →
        (∃ svc ∈ svcs, ∃ i ∈ svc.Instances, svc.Name = s ∧ i.Name = n ∧
          prunedByReset lib si.hostIP update svc.Name i) →
        (processResetServices lib update si svcs).store.record s n = none) := by
  induction svcs generalizing si with
  | nil =>
    refine ⟨rfl, rfl, ⟨[], by simp [processResetServices], by simp⟩, fun _ _ => Or.inr rfl,
      fun _ _ _ => rfl, ?_⟩
    rintro s n - ⟨svc, hsvc, -⟩
    simp at hsvc
  | cons x rest ih =>
    obtain ⟨a1, a2, ⟨issuedA, a3, a3'⟩, a4, a5, a6⟩ :=
      processResetInstances_facts lib update x.Name x.Instances si
    obtain ⟨h1, h2, ⟨issued, h3, h3'⟩, h4, h5, h6⟩ :=
      ih (processResetInstances lib update x.Name si x.Instances)
    rw [a1] at h1 h3' h5 h6
    rw [a2] at h2 h6
    have hstep : processResetServices lib update si (x :: rest) =
        processResetServices lib update (processResetInstances lib update x.Name si x.Instances)
          rest := rfl
    rw [hstep]
    refine ⟨h1, h2, ⟨issuedA ++ issued, ?_, ?_⟩, ?_, ?_, ?_⟩
    · rw [h3, a3, List.append_assoc]
    · intro call hcall
      rcases List.mem_append.1 hcall with e | e
      · obtain ⟨i, hi, hp, hc⟩ := a3' call e
        exact ⟨x, by simp, i, hi, hp, hc⟩
      · obtain ⟨svc, hsvc, i, hi, hp, hc⟩ := h3' call e
        exact ⟨svc, by simp [hsvc], i, hi, hp, hc⟩
    · intro s n
      rcases h4 s n with e | e
      · exact Or.inl e
      · rw [e]; exact a4 s n
    · intro s n hno
      rw [h5 s n (fun ⟨svc, hsvc, hh⟩ => hno ⟨svc, by simp [hsvc], hh⟩)]
      exact a5 s n (fun ⟨i, hi, hs, hn, hp⟩ => hno ⟨x, by simp, i, hi, hs, hn, hp⟩)
    · intro s n hok ⟨svc, hsvc, i, hi, hs, hn, hp⟩
      rcases List.mem_cons.1 hsvc with e | e
      · subst e
        have hnone := a6 s n hok ⟨i, hi, hs, hn, hp⟩
        rcases h4 s n with e2 | e2
        · exact e2
        · rw [e2]; exact hnone
      · exact h6 s n hok ⟨svc, e, i, hi, hs, hn, hp⟩

theorem processEntries_facts
    (entries : List (Sigma (fun _ : InstanceKey => Option Instance))) (si : setInstances) :
    (processEntries si entries).hostIP = si.hostIP ∧
    (∃ issued, (processEntries si entries).store.calls = si.store.calls ++ issued ∧
      ∀ call ∈ issued, ∀ s n, call = StoreCall.RemoveInstance s n →
        (⟨⟨s, n⟩, none⟩ : Sigma (fun _ : InstanceKey => Option Instance)) ∈ entries) ∧
    (∀ s n, (∀ e ∈ entries, e.1 ≠ ⟨s, n⟩) →
        (processEntries si entries).store.record s n = si.store.record s n) ∧
    (∀ s n, (∀ e ∈ entries, e.1 = ⟨s, n⟩ → e.2 ≠ none) → (si.store.record s n).isSome = true →
        ((processEntries si entries).store.record s n).isSome = true) := by
  induction entries generalizing si with
  | nil =>
    exact ⟨rfl, ⟨[], by simp [processEntries], by simp⟩, fun _ _ _ => rfl, fun _ _ _ h => h⟩
  | cons x rest ih =>
    obtain ⟨key, val⟩ := x
    cases val with
    | none =>
      have hstep : processEntries si (⟨key, none⟩ :: rest) =
          processEntries (si.removeInstance key) rest := rfl
      rw [hstep]
      obtain ⟨h1, ⟨issued, h3, h3'⟩, h5, h6⟩ := ih (si.removeInstance key)
      refine ⟨h1, ⟨StoreCall.RemoveInstance key.Service key.Instance :: issued, ?_, ?_⟩, ?_, ?_⟩
      · rw [h3, removeInstance_calls]; simp
      · intro call hcall s n hc
        rcases List.mem_cons.1 hcall with e | e
        · rw [hc] at e
          injection e with e1 e2
          subst e1 e2
          simp
        · exact List.mem_cons_of_mem _ (h3' call e s n hc)
      · intro s n hno
        rw [h5 s n (fun e he => hno e (by simp [he]))]
        have hk : ¬ (s = key.Service ∧ n = key.Instance) := by
          rintro ⟨rfl, rfl⟩
          exact hno ⟨key, none⟩ (by simp) rfl
        exact Store.record_RemoveInstance_ne si.store _ _ s n hk
      · intro s n hno hsome
        have hk : ¬ (s = key.Service ∧ n = key.Instance) := by
          rintro ⟨rfl, rfl⟩
          exact hno ⟨key, none⟩ (by simp) rfl rfl
        apply h6 s n (fun e he => hno e (by simp [he]))
        have : (si.removeInstance key).store.record s n = si.store.record s n :=
          Store.record_RemoveInstance_ne si.store _ _ s n hk
        rw [this]; exact hsome
    | some inst =>
      have hstep : processEntries si (⟨key, some inst⟩ :: rest) =
          processEntries { si with
            store := (si.store.AddInstance key.Service key.Instance inst).1,
            errs := Post si.errs (si.store.AddInstance key.Service key.Instance inst).2 } rest := rfl
      rw [hstep]
      obtain ⟨h1, ⟨issued, h3, h3'⟩, h5, h6⟩ := ih { si with
            store := (si.store.AddInstance key.Service key.Instance inst).1,
            errs := Post si.errs (si.store.AddInstance key.Service key.Instance inst).2 }
      refine ⟨h1, ⟨StoreCall.AddInstance key.Service key.Instance inst :: issued, ?_, ?_⟩, ?_, ?_⟩
      · rw [h3]
        show (si.store.AddInstance key.Service key.Instance inst).1.calls ++ issued = _
        rw [Store.calls_AddInstance]; simp
      · intro call hcall s n hc
        rcases List.mem_cons.1 hcall with e | e
        · rw [hc] at e
          cases e
        · exact List.mem_cons_of_mem _ (h3' call e s n hc)
      · intro s n hno
        rw [h5 s n (fun e he => hno e (by simp [he]))]
        have hk : ¬ (s = key.Service ∧ n = key.Instance) := by
          rintro ⟨rfl, rfl⟩
          exact hno ⟨key, some inst⟩ (by simp) rfl
        exact Store.record_AddInstance_ne si.store _ _ inst s n hk
      · intro s n hno hsome
        apply h6 s n (fun e he => hno e (by simp [he]))
        show ((si.store.AddInstance key.Service key.Instance inst).1.record s n).isSome = true
        by_cases hk : s = key.Service ∧ n = key.Instance
        · obtain ⟨rfl, rfl⟩ := hk
          rcases Store.record_AddInstance_self si.store key.Service key.Instance inst with e | e
          · rw [e]; rfl
          · rw [e]; exact hsome
        · rw [Store.record_AddInstance_ne si.store _ _ inst s n hk]; exact hsome

theorem processReset_facts (lib : GoLib) (update : LocalInstanceUpdate) (si : setInstances) :
    (si.processReset lib update).hostIP = si.hostIP ∧
    (si.processReset lib update).store.failing = si.store.failing ∧
    (∃ issued, (si.processReset lib update).store.calls = si.store.calls ++ issued ∧
      ∀ call ∈ issued, ∀ s n, call = StoreCall.RemoveInstance s n →
        ∃ inst, si.store.record s n = some inst ∧ lib.IPEqual si.hostIP inst.Host.IP = true ∧
          (update.LocalInstances.lookup ⟨s, n⟩).join = none) ∧
    (∀ s n, (si.processReset lib update).store.record s n = none ∨
        (si.processReset lib update).store.record s n = si.store.record s n) ∧
    (∀ s n inst, si.store.record s n = some inst →
        ¬ (lib.IPEqual si.hostIP inst.Host.IP = true ∧
            (update.LocalInstances.lookup ⟨s, n⟩).join = none) →
        (si.processReset lib update).store.record s n = some inst) ∧
    (∀ s n inst, (∀ k call, si.store.failing k call = false) →
        si.store.record s n = some inst → lib.IPEqual si.hostIP inst.Host.IP = true →
        (update.LocalInstances.lookup ⟨s, n⟩).join = none →
        (si.processReset lib update).store.record s n = none) := by
  cases hf : si.store.failing si.store.calls.length StoreCall.GetAllServices with
  | true =>
    have hstep : si.processReset lib update =
        { si with store := { si.store with calls := si.store.calls ++ [StoreCall.GetAllServices] },
                  errs := Post si.errs (some (StoreError.failed StoreCall.GetAllServices)) } := by
      simp [setInstances.processReset, Store.GetAllServices, Store.issue, hf]
    rw [hstep]
    refine ⟨rfl, rfl, ⟨[StoreCall.GetAllServices], rfl, ?_⟩, fun _ _ => Or.inr rfl,
      fun _ _ _ h _ => h, ?_⟩
    · intro call hcall s n hc
      simp only [List.mem_singleton] at hcall
      rw [hc] at hcall
      cases hcall
    · intro s n inst hok
      rw [hok] at hf
      cases hf
  | false =>
    have hstep : si.processReset lib update =
        processResetServices lib update
          { si with store := { si.store with calls := si.store.calls ++ [StoreCall.GetAllServices] } }
          (si.store.services.entries.map (fun e =>
            ({ Name := e.1, Service := ⟨0⟩, Instances := Store.instanceInfos e.2,
               ContainerRules := [] } : ServiceInfo))) := by
      simp [setInstances.processReset, Store.GetAllServices, Store.issue, hf]
    rw [hstep]
    obtain ⟨h1, h2, ⟨issued, h3, h3'⟩, h4, h5, h6⟩ := processResetServices_facts lib update
      (si.store.services.entries.map (fun e =>
            ({ Name := e.1, Service := ⟨0⟩, Instances := Store.instanceInfos e.2,
               ContainerRules := [] } : ServiceInfo)))
      { si with store := { si.store with calls := si.store.calls ++ [StoreCall.GetAllServices] } }
    refine ⟨h1, h2, ⟨StoreCall.GetAllServices :: issued, ?_, ?_⟩, h4, ?_, ?_⟩
    · rw [h3]; simp
    · intro call hcall s n hc
      rcases List.mem_cons.1 hcall with e | e
      · rw [hc] at e; cases e
      · obtain ⟨svc, hsvc, i, hi, hp, hcall2⟩ := h3' call e
        rw [hc] at hcall2
        injection hcall2 with e1 e2
        subst e1 e2
        exact ⟨i.Instance, Store.record_of_mem_GetAllServices si.store svc i hsvc hi, hp.1, hp.2⟩
    · intro s n inst hrec hno
      have := h5 s n (by
        rintro ⟨svc, hsvc, i, hi, hs, hn, hp⟩
        have hr := Store.record_of_mem_GetAllServices si.store svc i hsvc hi
        rw [hs, hn, hrec] at hr
        injection hr with hr
        subst hs hn
        exact hno ⟨by rw [hr]; exact hp.1, hp.2⟩)
      rw [this]; exact hrec
    · intro s n inst hok hrec hown hnil
      obtain ⟨svc, hsvc, i, hi, hs, hn, hinst⟩ :=
        Store.mem_GetAllServices_of_record si.store s n inst hrec
      refine h6 s n hok ⟨svc, hsvc, i, hi, hs, hn, ?_, ?_⟩
      · rw [hinst]; exact hown
      · rw [hs, hn]; exact hnil

/-- Counterexample to C3 as stated: an incremental update with a null entry for
`(svcA, keyB)` makes `processUpdate` issue `RemoveInstance(svcA, keyB)` although the
record is owned by host 10.0.0.2 and this host is 10.0.0.1; the record is gone. -/
theorem processUpdate_removes_foreign_record :
    sampleOverride.store.record "svcA" "keyB" = some foreignInstance ∧
    GoLib.sample.IPEqual sampleOverride.hostIP foreignInstance.Host.IP = false ∧
    (sampleOverride.processUpdate GoLib.sample
        { Reset := false, LocalInstances := AList.insert ⟨"svcA", "keyB"⟩ none ∅ }).store.calls =
      [StoreCall.RemoveInstance "svcA" "keyB"] ∧
    (sampleOverride.processUpdate GoLib.sample
        { Reset := false, LocalInstances := AList.insert ⟨"svcA", "keyB"⟩ none ∅ }).store.record
      "svcA" "keyB" = none :=
  ⟨rfl, rfl, rfl, rfl⟩

/-- C3 (amended). Removals of the override reconciler. Every `RemoveInstance` that
`processUpdate` issues targets either a key that the update carries with a null
value, or (in a reset) a record of the store whose owning host equals this host's IP
and whose key has no non-null entry in the update. A record owned by a different host
whose key is not carried with a null value is never removed: it is still present
afterwards, and unchanged if the update does not carry its key at all. -/
theorem processUpdate_removals (lib : GoLib) (si : setInstances) (update : LocalInstanceUpdate) :
    (∃ issued, (si.processUpdate lib update).store.calls = si.store.calls ++ issued ∧
      ∀ call ∈ issued, ∀ s n, call = StoreCall.RemoveInstance s n →
        update.LocalInstances.lookup ⟨s, n⟩ = some none ∨
        (update.Reset = true ∧ ∃ inst, si.store.record s n = some inst ∧
          lib.IPEqual si.hostIP inst.Host.IP = true ∧
          (update.LocalInstances.lookup ⟨s, n⟩).join = none)) ∧
    (∀ s n inst, si.store.record s n = some inst →
        lib.IPEqual si.hostIP inst.Host.IP = false →
        update.LocalInstances.lookup ⟨s, n⟩ ≠ some none →
        ((si.processUpdate lib update).store.record s n).isSome = true ∧
        (update.LocalInstances.lookup ⟨s, n⟩ = none →
          (si.processUpdate lib update).store.record s n = some inst)) := by
  have hsplit : ∃ si1 : setInstances, si.processUpdate lib update =
      processEntries si1 update.LocalInstances.entries ∧
      (∃ issued, si1.store.calls = si.store.calls ++ issued ∧
        ∀ call ∈ issued, ∀ s n, call = StoreCall.RemoveInstance s n →
          (update.Reset = true ∧ ∃ inst, si.store.record s n = some inst ∧
            lib.IPEqual si.hostIP inst.Host.IP = true ∧
            (update.LocalInstances.lookup ⟨s, n⟩).join = none)) ∧
      (∀ s n inst, si.store.record s n = some inst →
        lib.IPEqual si.hostIP inst.Host.IP = false → si1.store.record s n = some inst) := by
    by_cases hr : update.Reset = true
    · obtain ⟨-, -, ⟨issued, h3, h3'⟩, -, h5, -⟩ := processReset_facts lib update si
      refine ⟨si.processReset lib update, by simp [setInstances.processUpdate, hr],
        ⟨issued, h3, fun call hc s n he => ⟨hr, h3' call hc s n he⟩⟩, ?_⟩
      intro s n inst hrec hown
      exact h5 s n inst hrec (fun ⟨h, _⟩ => by rw [hown] at h; cases h)
    · refine ⟨si, by simp [setInstances.processUpdate, hr], ⟨[], by simp, by simp⟩, ?_⟩
      intro s n inst hrec _
      exact hrec
  obtain ⟨si1, hrun, ⟨issued1, hc1, hc1'⟩, hkeep⟩ := hsplit
  obtain ⟨-, ⟨issued2, hc2, hc2'⟩, hframe, hsome⟩ :=
    processEntries_facts update.LocalInstances.entries si1
  rw [hrun]
  refine ⟨⟨issued1 ++ issued2, by rw [hc2, hc1, List.append_assoc], ?_⟩, ?_⟩
  · intro call hcall s n he
    rcases List.mem_append.1 hcall with e | e
    · exact Or.inr (hc1' call e s n he)
    · exact Or.inl (AList.mem_lookup_iff.2 (hc2' call e s n he))
  · intro s n inst hrec hown hnotnull
    have h1 := hkeep s n inst hrec hown
    constructor
    · apply hsome s n _ (by rw [h1]; rfl)
      intro e he hkey hval
      apply hnotnull
      obtain ⟨k, v⟩ := e
      simp only at hkey hval
      subst hkey hval
      exact AList.mem_lookup_iff.2 he
    · intro habsent
      rw [hframe s n, h1]
      intro e he hkey
      obtain ⟨k, v⟩ := e
      simp only at hkey
      subst hkey
      have : update.LocalInstances.lookup ⟨s, n⟩ = some v := AList.mem_lookup_iff.2 he
      rw [habsent] at this
      cases this

/-- Worked instance of C3 (amended): a reset that carries no key leaves the record
`(svcA, keyB)` of host 10.0.0.2 in place. -/
theorem processUpdate_removals_witness :
    ((sampleOverride.processUpdate GoLib.sample
        { Reset := true, LocalInstances := ∅ }).store.record "svcA" "keyB").isSome = true ∧
    ((∅ : AList (fun _ : InstanceKey => Option Instance)).lookup ⟨"svcA", "keyB"⟩ = none →
      (sampleOverride.processUpdate GoLib.sample
        { Reset := true, LocalInstances := ∅ }).store.record "svcA" "keyB" =
      some foreignInstance) :=
  (processUpdate_removals GoLib.sample sampleOverride { Reset := true, LocalInstances := ∅ }).2
    "svcA" "keyB" foreignInstance rfl rfl (by decide)

/-- C4. Override reset scope. In a reset in which no store call fails, a record that
was in the store and whose key is absent from the update's mapping is removed if its
owning host equals this host's IP, and is retained unchanged if it is owned by a
different host. -/
theorem processUpdate_reset_scope (lib : GoLib) (si : setInstances)
    (update : LocalInstanceUpdate) (s n : String) (inst : Instance)
    (hreset : update.Reset = true)
    (hok : ∀ k call, si.store.failing k call = false)
    (hrec : si.store.record s n = some inst)
    (habsent : update.LocalInstances.lookup ⟨s, n⟩ = none) :
    (lib.IPEqual si.hostIP inst.Host.IP = true →
        (si.processUpdate lib update).store.record s n = none) ∧
    (lib.IPEqual si.hostIP inst.Host.IP = false →
        (si.processUpdate lib update).store.record s n = some inst) := by
  have hrun : si.processUpdate lib update =
      processEntries (si.processReset lib update) update.LocalInstances.entries := by
    simp [setInstances.processUpdate, hreset]
  obtain ⟨-, -, -, -, h5, h6⟩ := processReset_facts lib update si
  obtain ⟨-, -, hframe, -⟩ :=
    processEntries_facts update.LocalInstances.entries (si.processReset lib update)
  have hkey : ∀ e ∈ update.LocalInstances.entries, e.1 ≠ (⟨s, n⟩ : InstanceKey) := by
    intro e he hk
    obtain ⟨k, v⟩ := e
    simp only at hk
    subst hk
    have : update.LocalInstances.lookup ⟨s, n⟩ = some v := AList.mem_lookup_iff.2 he
    rw [habsent] at this
    cases this
  rw [hrun, hframe s n hkey]
  constructor
  · intro hown
    exact h6 s n inst hok hrec hown (by rw [habsent]; rfl)
  · intro hown
    exact h5 s n inst hrec (fun ⟨h, _⟩ => by rw [hown] at h; cases h)

/-- Worked instance of C4: a reset omitting both keys removes `(svcA, keyA)`, owned by
this host, and retains `(svcA, keyB)`, owned by host 10.0.0.2. -/
theorem processUpdate_reset_scope_witness :
    (sampleOverride.processUpdate GoLib.sample
        { Reset := true, LocalInstances := ∅ }).store.record "svcA" "keyA" = none ∧
    (sampleOverride.processUpdate GoLib.sample
        { Reset := true, LocalInstances := ∅ }).store.record "svcA" "keyB" =
      some foreignInstance :=
  ⟨(processUpdate_reset_scope GoLib.sample sampleOverride { Reset := true, LocalInstances := ∅ }
      "svcA" "keyA" ownInstance rfl (fun _ _ => rfl) rfl rfl).1 rfl,
   (processUpdate_reset_scope GoLib.sample sampleOverride { Reset := true, LocalInstances := ∅ }
      "svcA" "keyB" foreignInstance rfl (fun _ _ => rfl) rfl rfl).2 rfl⟩

/-! ## Full recompute of one service -/

/-- What a completed call of `evaluate` can have done: nothing, or one `AddInstance`
under the container's ID followed, if it succeeded, by the matched-set write. -/
theorem evaluateLoop_outcome (lib : GoLib) (si : Flux.syncInstances) (c : Option Container)
    (svc : service) (rules : List ContainerRuleInfo) (si1 : Flux.syncInstances) (svc1 : service)
    (err : Option StoreError) (h : evaluateLoop lib si c svc rules = .ok (si1, svc1, err)) :
    (si1 = si ∧ svc1 = svc ∧ err = none) ∨
    (∃ cont inst, c = some cont ∧
      si1 = { si with store := (si.store.AddInstance svc.Name cont.ID inst).1 } ∧
      err = (si.store.AddInstance svc.Name cont.ID inst).2 ∧
      ((err ≠ none ∧ svc1 = svc) ∨
       (err = none ∧ ∃ set, svc.localInstances = some set ∧
          svc1 = { svc with localInstances := some (insert cont.ID set) }))) := by
  induction rules with
  | nil =>
    simp only [evaluateLoop, Except.ok.injEq, Prod.mk.injEq] at h
    obtain ⟨h1, h2, h3⟩ := h
    exact Or.inl ⟨h1.symm, h2.symm, h3.symm⟩
  | cons spec rest ih =>
    rw [evaluateLoop] at h
    rcases hx : si.extractInstance lib spec.ContainerRule svc.ServiceInfo.Service c with
      f | ⟨inst, b⟩
    · simp [hx] at h
    · cases b with
      | false =>
        simp only [hx] at h
        exact ih h
      | true =>
        simp only [hx] at h
        cases c with
        | none => simp [instanceNameFor] at h
        | some cont =>
          simp only [instanceNameFor] at h
          right
          refine ⟨cont, { inst with ContainerRule := spec.Name }, rfl, ?_⟩
          rcases hadd : si.store.AddInstance svc.Name cont.ID
              { inst with ContainerRule := spec.Name } with ⟨st, _ | e⟩
          · simp only [hadd] at h
            cases hset : svc.localInstances with
            | none => simp [hset] at h
            | some set =>
              simp only [hset, Except.ok.injEq, Prod.mk.injEq] at h
              obtain ⟨h1, h2, h3⟩ := h
              exact ⟨h1.symm, h3.symm, Or.inr ⟨h3.symm, set, rfl, h2.symm⟩⟩
          · simp only [hadd, Except.ok.injEq, Prod.mk.injEq] at h
            obtain ⟨h1, h2, h3⟩ := h
            refine ⟨h1.symm, h3.symm, Or.inl ⟨?_, h2.symm⟩⟩
            rw [← h3]; simp

theorem pruneLoop_facts (lib : GoLib) (svc : service) (insts : List InstanceInfo)
    (si si2 : Flux.syncInstances) (h : pruneLoop lib si svc insts = (si2, none)) :
    sameButStore si si2 ∧
    (∀ s n, (s = svc.Name ∧ ∃ i ∈ insts, i.Name = n ∧ svc.includes n = false ∧
          si.owns lib i.Instance = true) → si2.store.record s n = none) ∧
    (∀ s n, ¬ (s = svc.Name ∧ ∃ i ∈ insts, i.Name = n ∧ svc.includes n = false ∧
          si.owns lib i.Instance = true) → si2.store.record s n = si.store.record s n) := by
  induction insts generalizing si with
  | nil =>
    simp only [pruneLoop, Prod.mk.injEq] at h
    obtain ⟨h1, -⟩ := h
    subst h1
    refine ⟨⟨rfl, rfl, rfl, rfl, rfl⟩, ?_, fun _ _ _ => rfl⟩
    rintro s n ⟨-, i, hi, -⟩
    simp at hi
  | cons x rest ih =>
    rw [pruneLoop] at h
    by_cases hc : (!svc.includes x.Name && si.owns lib x.Instance) = true
    · simp only [hc, if_true] at h
      rcases hrem : si.store.RemoveInstance svc.Name x.Name with ⟨st, _ | err⟩
      · simp only [hrem] at h
        obtain ⟨h1, h2, h3⟩ := ih _ h
        have hst : st = (si.store.RemoveInstance svc.Name x.Name).1 := by rw [hrem]
        have hnone : st.record svc.Name x.Name = none := by
          rw [hst]
          exact Store.record_RemoveInstance_ok si.store _ _ (by rw [hrem])
        have hother : ∀ s n, ¬ (s = svc.Name ∧ n = x.Name) → st.record s n = si.store.record s n := by
          intro s n hk
          rw [hst]
          exact Store.record_RemoveInstance_ne si.store _ _ s n hk
        simp only [Bool.and_eq_true, Bool.not_eq_true'] at hc
        refine ⟨h1, ?_, ?_⟩
        · rintro s n ⟨hs, i, hi, hn, hinc, hown⟩
          by_cases hex : s = svc.Name ∧ ∃ i ∈ rest, i.Name = n ∧ svc.includes n = false ∧
              si.owns lib i.Instance = true
          · exact h2 s n hex
          · rw [h3 s n hex]
            rcases List.mem_cons.1 hi with e | e
            · subst e; subst hs; rw [← hn]; exact hnone
            · exact absurd ⟨hs, i, e, hn, hinc, hown⟩ hex
        · intro s n hno
          have hk : ¬ (s = svc.Name ∧ n = x.Name) := by
            rintro ⟨rfl, rfl⟩
            exact hno ⟨rfl, x, by simp, rfl, hc.1, hc.2⟩
          rw [h3 s n (fun ⟨hs, i, hi, hh⟩ => hno ⟨hs, i, by simp [hi], hh⟩)]
          exact hother s n hk
      · simp [hrem] at h
    · simp only [hc] at h
      obtain ⟨h1, h2, h3⟩ := ih _ h
      simp only [Bool.and_eq_true, Bool.not_eq_true', not_and] at hc
      refine ⟨h1, ?_, ?_⟩
      · rintro s n ⟨hs, i, hi, hn, hinc, hown⟩
        rcases List.mem_cons.1 hi with e | e
        · subst e
          rw [← hn] at hinc
          exact absurd hown (hc hinc)
        · exact h2 s n ⟨hs, i, e, hn, hinc, hown⟩
      · intro s n hno
        exact h3 s n (fun ⟨hs, i, hi, hh⟩ => hno ⟨hs, i, by simp [hi], hh⟩)

theorem sameButStore_compose {a b c : Flux.syncInstances} (h1 : sameButStore a b)
    (h2 : sameButStore b c) : sameButStore a c := by
  obtain ⟨a1, a2, a3, a4, a5⟩ := h1
  obtain ⟨b1, b2, b3, b4, b5⟩ := h2
  exact ⟨b1.trans a1, b2.trans a2, b3.trans a3, b4.trans a4, b5.trans a5⟩

theorem evaluate_same (lib : GoLib) (si : Flux.syncInstances) (c : Option Container)
    (svc : service) (si1 : Flux.syncInstances) (svc1 : service) (err : Option StoreError)
    (h : si.evaluate lib c svc = .ok (si1, svc1, err)) : sameButStore si si1 := by
  rcases evaluateLoop_outcome lib si c svc _ si1 svc1 err h with
    ⟨h1, -, -⟩ | ⟨cont, inst, -, h1, -, -⟩
  · subst h1; exact ⟨rfl, rfl, rfl, rfl, rfl⟩
  · subst h1; exact ⟨rfl, rfl, rfl, rfl, rfl⟩

theorem evaluateAll_same (lib : GoLib)
    (entries : List (Sigma (fun _ : String => Option Container)))
    (si : Flux.syncInstances) (svc : service) (si1 : Flux.syncInstances) (svc1 : service)
    (err : Option StoreError)
    (h : evaluateAll lib si svc entries = .ok (si1, svc1, err)) : sameButStore si si1 := by
  induction entries generalizing si svc with
  | nil =>
    simp only [evaluateAll, Except.ok.injEq, Prod.mk.injEq] at h
    obtain ⟨h1, -, -⟩ := h
    subst h1; exact ⟨rfl, rfl, rfl, rfl, rfl⟩
  | cons e rest ih =>
    rw [evaluateAll] at h
    rcases hx : si.evaluate lib e.2 svc with f | ⟨sia, svca, _ | e1⟩
    · simp [hx] at h
    · simp only [hx] at h
      exact sameButStore_compose (evaluate_same lib si e.2 svc sia svca none hx) (ih sia svca h)
    · simp only [hx, Except.ok.injEq, Prod.mk.injEq] at h
      obtain ⟨h1, -, -⟩ := h
      subst h1
      exact evaluate_same lib si e.2 svc sia svca (some e1) hx

theorem pruneLoop_same (lib : GoLib) (svc : service) (insts : List InstanceInfo)
    (si si2 : Flux.syncInstances) (err : Option StoreError)
    (h : pruneLoop lib si svc insts = (si2, err)) : sameButStore si si2 := by
  induction insts generalizing si with
  | nil =>
    simp only [pruneLoop, Prod.mk.injEq] at h
    obtain ⟨h1, -⟩ := h
    subst h1; exact ⟨rfl, rfl, rfl, rfl, rfl⟩
  | cons x rest ih =>
    rw [pruneLoop] at h
    by_cases hc : (!svc.includes x.Name && si.owns lib x.Instance) = true
    · simp only [hc, if_true] at h
      rcases hrem : si.store.RemoveInstance svc.Name x.Name with ⟨st, _ | e1⟩
      · simp only [hrem] at h
        exact sameButStore_compose (show sameButStore si { si with store := st } from
          ⟨rfl, rfl, rfl, rfl, rfl⟩) (ih _ h)
      · simp only [hrem, Prod.mk.injEq] at h
        obtain ⟨h1, -⟩ := h
        subst h1; exact ⟨rfl, rfl, rfl, rfl, rfl⟩
    · simp only [hc] at h
      exact ih _ h

theorem syncInstances_same (lib : GoLib) (si : Flux.syncInstances) (svc : service)
    (si1 : Flux.syncInstances) (svc1 : service) (err : Option StoreError)
    (h : si.syncInstances lib svc = .ok (si1, svc1, err)) : sameButStore si si1 := by
  unfold syncInstances.syncInstances at h
  cases hc : si.containers with
  | none =>
    simp only [hc, Except.ok.injEq, Prod.mk.injEq] at h
    obtain ⟨h1, -, -⟩ := h
    subst h1; exact ⟨rfl, rfl, rfl, rfl, rfl⟩
  | some cache =>
    simp only [hc] at h
    rcases hx : evaluateAll lib si { svc with localInstances := some ∅ } cache.entries with
      f | ⟨sia, svca, _ | e1⟩
    · simp [hx] at h
    · simp only [hx] at h
      have ha := evaluateAll_same lib _ _ _ _ _ _ hx
      rcases hg : sia.store.GetService svca.Name with ⟨st, e | info⟩
      · simp only [hg, Except.ok.injEq, Prod.mk.injEq] at h
        obtain ⟨h1, -, -⟩ := h
        subst h1
        exact sameButStore_compose ha ⟨rfl, rfl, rfl, rfl, rfl⟩
      · simp only [hg] at h
        rcases hp : pruneLoop lib { sia with store := st } svca info.Instances with ⟨si2, err2⟩
        simp only [hp, Except.ok.injEq, Prod.mk.injEq] at h
        obtain ⟨h1, -, -⟩ := h
        subst h1
        exact sameButStore_compose ha (sameButStore_compose
          (show sameButStore sia { sia with store := st } from ⟨rfl, rfl, rfl, rfl, rfl⟩)
          (pruneLoop_same lib _ _ _ _ _ hp))
    · simp only [hx, Except.ok.injEq, Prod.mk.injEq] at h
      obtain ⟨h1, -, -⟩ := h
      subst h1
      exact evaluateAll_same lib _ _ _ _ _ _ hx

/-- C19 (the code at the failing input). A container whose environment list is
`["FOO"]` and that satisfies the rule: `extractInstance` panics with an index out of
range at `kv[1]`; so does it for the empty entry; and so do `envValue` and
`containerLabels.Label` for the key `FOO`. -/
theorem extractInstance_panics_on_bare_entry :
    (sampleAgent LOCAL).extractInstance GoLib.sample ruleAny ⟨80⟩
        (some (containerWithEnv ["FOO"])) = .error .indexOutOfRange ∧
    (sampleAgent LOCAL).extractInstance GoLib.sample ruleAny ⟨80⟩
        (some (containerWithEnv [""])) = .error .indexOutOfRange ∧
    envValue ["FOO"] "FOO" = .error .indexOutOfRange ∧
    containerLabels.Label (some (containerWithEnv ["FOO"])) "env.FOO" =
      .error .indexOutOfRange :=
  ⟨rfl, rfl, rfl, rfl⟩

/-- C13 (the code at the failing input). The table holds `svc`, the cache holds only
the container `c1`, and an incremental service update carries a null entry for `svc`:
`processServiceUpdate` returns with `svc` still in the table, because the removal
branch looks the name up in the container cache. With a container cached under the
key `svc` the same update does remove the service. -/
theorem processServiceUpdate_keeps_removed_service :
    (∃ si1, (sampleSync [⟨"r1", ruleAny⟩]).processServiceUpdate GoLib.sample
        { Reset := false, Services := AList.insert "svc" none ∅ } = .ok si1 ∧
      (si1.services.bind (fun tbl => tbl.lookup "svc")).isSome = true ∧
      si1.store.calls = []) ∧
    (∃ si1, ({ sampleSync [⟨"r1", ruleAny⟩] with
          containers := some (AList.insert "svc" (some sampleContainer) ∅) } :
          Flux.syncInstances).processServiceUpdate GoLib.sample
        { Reset := false, Services := AList.insert "svc" none ∅ } = .ok si1 ∧
      (si1.services.bind (fun tbl => tbl.lookup "svc")).isSome = false) :=
  ⟨⟨_, rfl, rfl, rfl⟩, ⟨_, rfl, rfl⟩⟩

/-- C16 (the code at the failing input). Both `svcA` and `svcB` have a rule that
the container `c1` satisfies and only `AddInstance(svcA, ...)` fails. The incremental
update for `c1` visits `svcA` first: the error is posted and `AddInstance(svcB, c1)`
is never issued. In a full recompute of `svcB` over the cache `c1`, `c2` in which
only the write of `c1` fails, `c2` is never evaluated or written. -/
theorem store_failure_stops_remaining_items :
    (∃ si1, (twoServiceAgent (failAddTo "svcA") ∅).processContainerUpdate GoLib.sample
        { Reset := false,
          Containers := some (AList.insert "c1" (some (containerWithRole "c1" "web")) ∅) } =
        .ok si1 ∧
      si1.errs.length = 1 ∧
      si1.store.calls.length = 1 ∧
      si1.store.record "svcB" "c1" = none) ∧
    (∃ si1 svc1 err, (twoServiceAgent (failAddOf "c1")
          (AList.insert "c1" (some (containerWithRole "c1" "web"))
            (AList.insert "c2" (some (containerWithRole "c2" "web")) ∅))).syncInstances
          GoLib.sample
          { ServiceInfo := sampleInfo "svcB" [⟨"r1", ruleAny⟩], localInstances := some ∅ } =
        .ok (si1, svc1, some err) ∧
      si1.store.calls.length = 1 ∧
      si1.store.record "svcB" "c2" = none ∧
      svc1.includes "c2" = false) :=
  ⟨⟨_, rfl, rfl, rfl, rfl⟩, ⟨_, _, _, rfl, rfl, rfl, rfl⟩⟩

/-- C12 (the code at the failing input). After a service Reset defining `svc` with
the rule `role = web`, a container Reset caching `c1` with `role = web` and an
incremental container update replacing `c1` by a version with `role = db`, no error
was posted, the cached `c1` does not satisfy the rule, and yet `c1` is still in the
matched set of `svc` and the store still holds `(svc, c1)`. -/
theorem stale_match_after_incremental_update :
    ∃ si3 tbl svc cache,
      (initialAgent (fun _ _ => false)).processAll GoLib.sample
        [Update.service
            { Reset := true
              Services := AList.insert "svc"
                (some (sampleInfo "svc" [⟨"web", ruleLabel "role" "web"⟩])) ∅ },
         Update.container
            { Reset := true
              Containers := some (AList.insert "c1" (some (containerWithRole "c1" "web")) ∅) },
         Update.container
            { Reset := false
              Containers := some (AList.insert "c1" (some (containerWithRole "c1" "db")) ∅) }] =
        .ok si3 ∧
      si3.errs = [] ∧
      si3.services = some tbl ∧ tbl.lookup "svc" = some svc ∧
      si3.containers = some cache ∧
      cache.lookup "c1" = some (some (containerWithRole "c1" "db")) ∧
      (∀ r ∈ svc.ServiceInfo.ContainerRules,
        r.ContainerRule.Includes (containerLabels.Label (some (containerWithRole "c1" "db"))) =
          .ok false) ∧
      svc.includes "c1" = true ∧
      (si3.store.record "svc" "c1").isSome = true :=
  ⟨_, _, _, _, rfl, rfl, rfl, rfl, rfl, rfl, by
    intro r hr
    simp only [sampleInfo, List.mem_singleton] at hr
    subst hr
    rfl, rfl, rfl⟩

/-! ## Environment entries in the merged label map -/

theorem splitFirstChars_append (sep : Char) (k v : List Char) (hk : sep ∉ k) :
    strings.splitFirstChars sep (k ++ sep :: v) = [k, v] := by
  induction k with
  | nil => simp [strings.splitFirstChars]
  | cons c cs ih =>
    have hc : c ≠ sep := fun e => hk (by simp [e])
    have hcs : sep ∉ cs := fun e => hk (by simp [e])
    simp [strings.splitFirstChars, hc, ih hcs]

theorem envKey_envVal_of_entry (K V : String) (hK : '=' ∉ K.data) :
    envKey (K ++ "=" ++ V) = K ∧ envVal (K ++ "=" ++ V) = V := by
  have hd : (K ++ "=" ++ V).data = K.data ++ '=' :: V.data := by
    simp [String.data_append]
  have hs := splitFirstChars_append '=' K.data V.data hK
  simp [envKey, envVal, strings.SplitN2, hd, hs]

theorem envLabels_eq_of_ok (env : List String) (labels res : AList (fun _ : String => String))
    (h : envLabels labels env = .ok res) : res = envOverlay labels env := by
  induction env generalizing labels with
  | nil =>
    simp only [envLabels, Except.ok.injEq] at h
    exact h.symm
  | cons e rest ih =>
    rw [envLabels] at h
    cases h0 : (strings.SplitN2 e '=')[0]? with
    | none => simp [h0] at h
    | some k =>
      cases h1 : (strings.SplitN2 e '=')[1]? with
      | none => simp [h0, h1] at h
      | some v =>
        simp only [h0, h1] at h
        have := ih _ h
        rw [this]
        simp [envOverlay, List.foldl_cons, envKey, envVal, h0, h1]

theorem extractInstance_labels_of_ok (lib : GoLib) (si : Flux.syncInstances)
    (spec : ContainerRule) (svc : Service) (c : Container) (inst : Instance)
    (h : si.extractInstance lib spec svc (some c) = .ok (inst, true)) :
    inst.Labels = mergedLabels c := by
  unfold syncInstances.extractInstance at h
  split at h
  · cases h
  · simp only [Except.ok.injEq, Prod.mk.injEq] at h
    cases h.2
  · simp only at h
    split at h
    · cases h
    · rename_i labels hl
      simp only [Except.ok.injEq, Prod.mk.injEq] at h
      rw [← h.1]
      exact envLabels_eq_of_ok _ _ _ hl

/-- C11. Environment entries are split at the first `=` only. Let the container
satisfy the rule and let its environment list hold an entry `K=V`, `K` free of `=`
and `V` arbitrary, that no later entry with the key `K` follows (in particular when
it is the only entry with that key). Then every instance that `extractInstance`
returns has `Labels["env." ++ K] = V`, whatever the declared labels; and
`extractInstance` does return one when every entry of the list holds a `=`. -/
theorem extractInstance_env_entry (lib : GoLib) (si : Flux.syncInstances)
    (spec : ContainerRule) (svc : Service) (c : Container) (K V : String)
    (pre post : List String)
    (hmatch : spec.Includes (containerLabels.Label (some c)) = .ok true)
    (hK : '=' ∉ K.data)
    (henv : c.Config.Env = pre ++ (K ++ "=" ++ V) :: post)
    (hpost : ∀ x ∈ post, envKey x ≠ K) :
    (∀ inst, si.extractInstance lib spec svc (some c) = .ok (inst, true) →
        inst.Labels.lookup ("env." ++ K) = some V) ∧
    (envWellFormed c.Config.Env →
        ∃ inst, si.extractInstance lib spec svc (some c) = .ok (inst, true) ∧
          inst.Labels.lookup ("env." ++ K) = some V) := by
  obtain ⟨hkey, hval⟩ := envKey_envVal_of_entry K V hK
  have hlook : (mergedLabels c).lookup ("env." ++ K) = some V := by
    unfold mergedLabels
    rw [henv]
    have := lookup_envOverlay_last pre (K ++ "=" ++ V) post (by rw [hkey]; exact hpost)
      (overlayLabels
        (AList.insert "image" (imageName c.Config.Image)
          (AList.insert "tag" (imageTag c.Config.Image) ∅))
        c.Config.Labels.entries)
    rw [hkey, hval] at this
    exact this
  constructor
  · intro inst h
    rw [extractInstance_labels_of_ok lib si spec svc c inst h]
    exact hlook
  · intro hwf
    exact ⟨_, extractInstance_of_match lib si spec svc c hmatch hwf, hlook⟩

/-- Worked instance of C11: the entry `FOO=bar=baz` gives `env.FOO = bar=baz`. -/
theorem extractInstance_env_entry_witness :
    ∃ inst, (sampleAgent LOCAL).extractInstance GoLib.sample ruleAny ⟨80⟩
        (some sampleContainer) = .ok (inst, true) ∧
      inst.Labels.lookup ("env." ++ "FOO") = some "bar=baz" :=
  (extractInstance_env_entry GoLib.sample (sampleAgent LOCAL) ruleAny ⟨80⟩ sampleContainer
    "FOO" "bar=baz" [] [] rfl (by decide) rfl (by simp)).2 (by decide)

/-! ## Service table -/

theorem dlookup_kreplace_self {α : Type} {β : α → Type} [DecidableEq α] (a : α) (b : β a)
    (l : List (Sigma β)) :
    (List.kreplace a b l).dlookup a = if a ∈ l.keys then some b else none := by
  induction l with
  | nil => simp [List.kreplace]
  | cons x rest ih =>
    obtain ⟨k, v⟩ := x
    by_cases hk : a = k
    · subst hk
      simp [List.kreplace, List.lookmap_cons_some, List.dlookup_cons_eq]
    · have : List.kreplace a b (⟨k, v⟩ :: rest) = ⟨k, v⟩ :: List.kreplace a b rest := by
        simp [List.kreplace, List.lookmap_cons_none, hk]
      rw [this, List.dlookup_cons_ne _ _ hk, ih]
      simp [List.keys_cons, hk]

theorem dlookup_kreplace_ne {α : Type} {β : α → Type} [DecidableEq α] (a a1 : α) (b : β a)
    (l : List (Sigma β)) (h : a1 ≠ a) :
    (List.kreplace a b l).dlookup a1 = l.dlookup a1 := by
  induction l with
  | nil => simp [List.kreplace]
  | cons x rest ih =>
    obtain ⟨k, v⟩ := x
    by_cases hk : a = k
    · subst hk
      have : List.kreplace a b (⟨a, v⟩ :: rest) = ⟨a, b⟩ :: rest := by
        simp [List.kreplace, List.lookmap_cons_some]
      rw [this, List.dlookup_cons_ne _ _ h, List.dlookup_cons_ne _ _ h]
    · have : List.kreplace a b (⟨k, v⟩ :: rest) = ⟨k, v⟩ :: List.kreplace a b rest := by
        simp [List.kreplace, List.lookmap_cons_none, hk]
      rw [this]
      by_cases h1 : a1 = k
      · subst h1; simp [List.dlookup_cons_eq]
      · rw [List.dlookup_cons_ne _ _ h1, List.dlookup_cons_ne _ _ h1, ih]

theorem lookup_replace_self (tbl : AList (fun _ : String => service)) (name : String)
    (svc : service) :
    (tbl.replace name svc).lookup name = if (tbl.lookup name).isSome then some svc else none := by
  have h := dlookup_kreplace_self name svc tbl.entries
  have hk : name ∈ tbl.entries.keys ↔ (tbl.lookup name).isSome = true := by
    rw [AList.lookup_isSome]; exact Iff.rfl
  show (List.kreplace name svc tbl.entries).dlookup name = _
  rw [h]
  by_cases hm : name ∈ tbl.entries.keys
  · simp [hm, hk.1 hm]
  · have : (tbl.lookup name).isSome = false := by
      cases hs : (tbl.lookup name).isSome
      · rfl
      · exact absurd (hk.2 hs) hm
    simp [hm, this]

theorem lookup_replace_ne (tbl : AList (fun _ : String => service)) (name name1 : String)
    (svc : service) (h : name1 ≠ name) :
    (tbl.replace name svc).lookup name1 = tbl.lookup name1 := by
  show (List.kreplace name svc tbl.entries).dlookup name1 = tbl.entries.dlookup name1
  exact @dlookup_kreplace_ne String (fun _ => service) _ name name1 svc tbl.entries h

theorem serviceAt_putService_self (si : Flux.syncInstances) (name : String) (svc : service) :
    (si.putService name svc).serviceAt name =
      if (si.serviceAt name).isSome then some svc else none := by
  unfold syncInstances.putService syncInstances.serviceAt
  cases si.services with
  | none => rfl
  | some tbl => simp [lookup_replace_self]

theorem serviceAt_putService_ne (si : Flux.syncInstances) (name name1 : String) (svc : service)
    (h : name1 ≠ name) :
    (si.putService name svc).serviceAt name1 = si.serviceAt name1 := by
  unfold syncInstances.putService syncInstances.serviceAt
  cases si.services with
  | none => rfl
  | some tbl => simp [lookup_replace_ne _ _ _ _ h]

theorem putService_same (si : Flux.syncInstances) (name : String) (svc : service) :
    sameButStore si { si.putService name svc with store := si.store, services := si.services } :=
  ⟨rfl, rfl, rfl, rfl, rfl⟩

/-- What `redefineService` does when it returns: only the table changes, the entry
under the service's name is the returned `*service`, which carries the new
definition and the matched set the entry had before (nil for a new entry). -/
theorem redefineService_facts (si si1 : Flux.syncInstances) (svcInfo : ServiceInfo)
    (svc : service) (h : si.redefineService svcInfo = .ok (si1, svc)) :
    si1.store = si.store ∧ si1.errs = si.errs ∧ si1.containers = si.containers ∧
    si1.hostIP = si.hostIP ∧ si1.network = si.network ∧
    si.services ≠ none ∧ si1.services ≠ none ∧
    si1.serviceAt svcInfo.Name = some svc ∧ svc.ServiceInfo = svcInfo ∧
    svc.localInstances = (si.serviceAt svcInfo.Name).bind (fun x => x.localInstances) ∧
    (∀ name, name ≠ svcInfo.Name → si1.serviceAt name = si.serviceAt name) := by
  unfold syncInstances.redefineService at h
  cases htbl : si.services with
  | none => simp [htbl] at h
  | some tbl =>
    simp only [htbl] at h
    cases hl : tbl.lookup svcInfo.Name with
    | some old =>
      simp only [hl, Except.ok.injEq, Prod.mk.injEq] at h
      obtain ⟨h1, h2⟩ := h
      subst h1 h2
      have hat : si.serviceAt svcInfo.Name = some old := by
        simp [syncInstances.serviceAt, htbl, hl]
      refine ⟨rfl, rfl, rfl, rfl, rfl, by simp, ?_, ?_, rfl, ?_, ?_⟩
      · simp [syncInstances.putService, htbl]
      · rw [serviceAt_putService_self, hat]; rfl
      · rw [hat]; rfl
      · intro name hn
        exact serviceAt_putService_ne _ _ _ _ hn
    | none =>
      simp only [hl, Except.ok.injEq, Prod.mk.injEq] at h
      obtain ⟨h1, h2⟩ := h
      subst h1 h2
      have hat : si.serviceAt svcInfo.Name = none := by
        simp [syncInstances.serviceAt, htbl, hl]
      refine ⟨rfl, rfl, rfl, rfl, rfl, by simp, by simp, ?_, rfl, ?_, ?_⟩
      · simp [syncInstances.serviceAt, AList.lookup_insert]
      · rw [hat]; rfl
      · intro name hn
        simp [syncInstances.serviceAt, htbl, AList.lookup_insert_ne hn]

/-! ## Recompute deferred while the container cache is nil -/

theorem syncInstances_of_nil_cache (lib : GoLib) (si : Flux.syncInstances) (svc : service)
    (hc : si.containers = none) : si.syncInstances lib svc = .ok (si, svc, none) := by
  simp [syncInstances.syncInstances, hc]

theorem serviceLoop_nil_cache (lib : GoLib)
    (entries : List (Sigma (fun _ : String => Option ServiceInfo)))
    (si si1 : Flux.syncInstances) (hc : si.containers = none)
    (h : serviceLoop lib si entries = .ok si1) :
    si1.store = si.store ∧ si1.errs = si.errs ∧ si1.containers = none ∧
    si1.hostIP = si.hostIP ∧ si1.network = si.network ∧
    (∀ name, ((si1.serviceAt name).bind (fun svc => svc.localInstances)) =
      ((si.serviceAt name).bind (fun svc => svc.localInstances))) := by
  induction entries generalizing si with
  | nil =>
    simp only [serviceLoop, Except.ok.injEq] at h
    subst h
    exact ⟨rfl, rfl, hc, rfl, rfl, fun _ => rfl⟩
  | cons e rest ih =>
    obtain ⟨key, val⟩ := e
    cases val with
    | none =>
      rw [serviceLoop] at h
      simp only [hc, Option.none_bind, Option.join] at h
      exact ih si hc h
    | some svcInfo =>
      rw [serviceLoop] at h
      simp only at h
      rcases hr : si.redefineService svcInfo with f | ⟨sia, svc⟩
      · simp [hr] at h
      · simp only [hr] at h
        obtain ⟨a1, a2, a3, a4, a5, -, -, a8, -, a10, a11⟩ :=
          redefineService_facts si sia svcInfo svc hr
        have hca : sia.containers = none := by rw [a3]; exact hc
        rw [syncInstances_of_nil_cache lib sia svc hca] at h
        simp only [Post] at h
        obtain ⟨h1, h2, h3, h4, h5, h6⟩ := ih _ (by exact hca) h
        refine ⟨h1.trans a1, h2.trans a2, h3, h4.trans a4, h5.trans a5, ?_⟩
        intro name
        rw [h6 name]
        show ((sia.putService svcInfo.Name svc).serviceAt name).bind _ = _
        by_cases hn : name = svcInfo.Name
        · subst hn
          rw [serviceAt_putService_self, a8, ← a10]
          rfl
        · rw [serviceAt_putService_ne _ _ _ _ hn, a11 name hn]

theorem serviceLoop_total_of_nil_cache (lib : GoLib)
    (entries : List (Sigma (fun _ : String => Option ServiceInfo)))
    (si : Flux.syncInstances) (hc : si.containers = none)
    (hs : si.services ≠ none ∨ ∀ e ∈ entries, e.2 = none) :
    ∃ si1, serviceLoop lib si entries = .ok si1 := by
  induction entries generalizing si with
  | nil => exact ⟨si, rfl⟩
  | cons e rest ih =>
    obtain ⟨key, val⟩ := e
    cases val with
    | none =>
      rw [serviceLoop]
      simp only [hc, Option.none_bind, Option.join]
      refine ih si hc ?_
      rcases hs with hs | hs
      · exact Or.inl hs
      · exact Or.inr (fun e he => hs e (by simp [he]))
    | some svcInfo =>
      have hsome : si.services ≠ none := by
        rcases hs with hs | hs
        · exact hs
        · have := hs ⟨key, some svcInfo⟩ (by simp)
          cases this
      rw [serviceLoop]
      simp only
      rcases hr : si.redefineService svcInfo with f | ⟨sia, svc⟩
      · exfalso
        unfold syncInstances.redefineService at hr
        cases htbl : si.services with
        | none => exact hsome htbl
        | some tbl =>
          simp only [htbl] at hr
          cases hl : tbl.lookup svcInfo.Name <;> simp [hl] at hr
      · simp only
        obtain ⟨-, -, a3, -, -, -, a7, -⟩ := redefineService_facts si sia svcInfo svc hr
        have hca : sia.containers = none := by rw [a3]; exact hc
        rw [syncInstances_of_nil_cache lib sia svc hca]
        simp only [Post]
        refine ih _ (by exact hca) (Or.inl ?_)
        show (sia.putService svcInfo.Name svc).services ≠ none
        cases hsa : sia.services with
        | none => exact absurd hsa a7
        | some tbl => simp [syncInstances.putService, hsa]

/-- C14. Deferred recompute while the container cache is nil. In a state whose
container cache is nil, `syncInstances` on any service returns at once with the
state and the service unchanged and a nil error; and whenever `processServiceUpdate`
returns, the store (contents and calls issued) and the error sink are as before, the
cache is still nil, and under every name the matched set is the one the table held
before (nil for a new name) or, in a Reset, nil; so if no service had a matched set
before, none has one afterwards. `processServiceUpdate` does return if the table is
initialised, the update is a Reset, or the update carries only null entries. -/
theorem deferred_while_cache_nil (lib : GoLib) (si : Flux.syncInstances)
    (hc : si.containers = none) :
    (∀ svc, si.syncInstances lib svc = .ok (si, svc, none)) ∧
    (∀ update si1, si.processServiceUpdate lib update = .ok si1 →
        si1.store = si.store ∧ si1.errs = si.errs ∧ si1.containers = none ∧
        si1.hostIP = si.hostIP ∧ si1.network = si.network ∧
        (∀ name, (si1.serviceAt name).bind (fun svc => svc.localInstances) =
          if update.Reset = true then none
          else (si.serviceAt name).bind (fun svc => svc.localInstances)) ∧
        ((∀ name svc, si.serviceAt name = some svc → svc.localInstances = none) →
          ∀ name svc1, si1.serviceAt name = some svc1 → svc1.localInstances = none)) ∧
    (∀ update, (si.services ≠ none ∨ update.Reset = true ∨
          ∀ e ∈ update.Services.entries, e.2 = none) →
        ∃ si1, si.processServiceUpdate lib update = .ok si1) := by
  refine ⟨fun svc => syncInstances_of_nil_cache lib si svc hc, ?_, ?_⟩
  · intro update si1 h
    unfold syncInstances.processServiceUpdate at h
    have hsets : ∀ name, (si1.serviceAt name).bind (fun svc => svc.localInstances) =
        if update.Reset = true then none
        else (si.serviceAt name).bind (fun svc => svc.localInstances) := by
      intro name
      by_cases hr : update.Reset = true
      · simp only [hr, if_true] at h ⊢
        obtain ⟨-, -, -, -, -, h6⟩ := serviceLoop_nil_cache lib _ _ si1 (by exact hc) h
        rw [h6 name]
        simp [syncInstances.serviceAt]
      · simp only [hr, if_false] at h ⊢
        obtain ⟨-, -, -, -, -, h6⟩ := serviceLoop_nil_cache lib _ _ si1 (by exact hc) h
        exact h6 name
    have hrest : si1.store = si.store ∧ si1.errs = si.errs ∧ si1.containers = none ∧
        si1.hostIP = si.hostIP ∧ si1.network = si.network := by
      by_cases hr : update.Reset = true
      · simp only [hr, if_true] at h
        obtain ⟨h1, h2, h3, h4, h5, -⟩ := serviceLoop_nil_cache lib _ _ si1 (by exact hc) h
        exact ⟨h1, h2, h3, h4, h5⟩
      · simp only [hr, if_false] at h
        obtain ⟨h1, h2, h3, h4, h5, -⟩ := serviceLoop_nil_cache lib _ _ si1 (by exact hc) h
        exact ⟨h1, h2, h3, h4, h5⟩
    obtain ⟨h1, h2, h3, h4, h5⟩ := hrest
    refine ⟨h1, h2, h3, h4, h5, hsets, ?_⟩
    intro hnil name svc1 hat
    have := hsets name
    rw [hat] at this
    simp only [Option.some_bind] at this
    rw [this]
    by_cases hr : update.Reset = true
    · simp [hr]
    · simp only [hr, if_false]
      cases hold : si.serviceAt name with
      | none => rfl
      | some svc => simp [hnil name svc hold]
  · intro update hs
    unfold syncInstances.processServiceUpdate
    by_cases hr : update.Reset = true
    · simp only [hr, if_true]
      exact serviceLoop_total_of_nil_cache lib _ _ (by exact hc) (Or.inl (by simp))
    · simp only [hr, if_false]
      rcases hs with hs | hs | hs
      · exact serviceLoop_total_of_nil_cache lib _ _ hc (Or.inl hs)
      · exact absurd hs hr
      · exact serviceLoop_total_of_nil_cache lib _ _ hc (Or.inr hs)

/-- Worked instance of C14: before any container update, a service Reset defining
`svc` returns without a store call or a posted error and leaves `svc` without a
matched set. -/
theorem deferred_while_cache_nil_witness :
    ∃ si1, (initialAgent (fun _ _ => false)).processServiceUpdate GoLib.sample
        { Reset := true
          Services := AList.insert "svc" (some (sampleInfo "svc" [⟨"r1", ruleAny⟩])) ∅ } =
        .ok si1 ∧
      si1.store = (initialAgent (fun _ _ => false)).store ∧
      si1.errs = [] ∧ si1.containers = none ∧
      (si1.serviceAt "svc").bind (fun svc => svc.localInstances) = none := by
  obtain ⟨si1, h⟩ := (deferred_while_cache_nil GoLib.sample (initialAgent (fun _ _ => false))
    rfl).2.2 { Reset := true
               Services := AList.insert "svc" (some (sampleInfo "svc" [⟨"r1", ruleAny⟩])) ∅ }
    (Or.inr (Or.inl rfl))
  obtain ⟨h1, h2, h3, -, -, h6, -⟩ := (deferred_while_cache_nil GoLib.sample
    (initialAgent (fun _ _ => false)) rfl).2.1 _ si1 h
  exact ⟨si1, h, h1, h2, h3, by rw [h6 "svc"]; rfl⟩

/-! ## Incremental container removal -/

/-- The matched set of a service without the name `n`. -/
theorem service_erase_of_not_includes (svc : service) (n : String)
    (h : svc.includes n = false) :
    ({ svc with localInstances := svc.localInstances.map (fun set => set.erase n) } : service) =
      svc := by
  obtain ⟨info, set⟩ := svc
  cases set with
  | none => rfl
  | some set =>
    have hn : n ∉ set := by simpa [service.includes] using h
    simp [Finset.erase_eq_of_not_mem hn]

theorem removeContainerLoop_facts (instName : String)
    (l : List (Sigma (fun _ : String => service))) (nd : l.NodupKeys)
    (si : Flux.syncInstances)
    (hagree : ∀ e ∈ l, si.serviceAt e.1 = some e.2)
    (hok : ∀ k call, si.store.failing k call = false) :
    ∃ si1, removeContainerLoop si instName l = (si1, none) ∧
      si1.containers = si.containers ∧ si1.errs = si.errs ∧ si1.hostIP = si.hostIP ∧
      si1.network = si.network ∧ si1.store.failing = si.store.failing ∧
      (∀ e ∈ l, si1.serviceAt e.1 = some
        { e.2 with localInstances := e.2.localInstances.map (fun set => set.erase instName) }) ∧
      (∀ name, name ∉ l.keys → si1.serviceAt name = si.serviceAt name) ∧
      si1.store.calls = si.store.calls ++
        (l.filter (fun e => e.2.includes instName)).map
          (fun e => StoreCall.RemoveInstance e.1 instName) ∧
      (∀ e ∈ l, e.2.includes instName = true → si1.store.record e.1 instName = none) ∧
      (∀ s n, ¬ (n = instName ∧ ∃ e ∈ l, e.1 = s ∧ e.2.includes instName = true) →
        si1.store.record s n = si.store.record s n) := by
  induction l generalizing si with
  | nil =>
    exact ⟨si, rfl, rfl, rfl, rfl, rfl, rfl, by simp, fun _ _ => rfl, by simp, by simp,
      fun _ _ _ => rfl⟩
  | cons x rest ih =>
    obtain ⟨hx, ndrest⟩ := List.nodupKeys_cons.1 nd
    by_cases hinc : x.2.includes instName = true
    · -- the service includes the instance: remove it and drop it from the set
      have hrem := Store.RemoveInstance_err_of_not_failing si.store x.1 instName (hok _ _)
      have hstep : removeContainerLoop si instName (x :: rest) =
          removeContainerLoop
            (({ si with store := (si.store.RemoveInstance x.1 instName).1 } :
              Flux.syncInstances).putService x.1
              { x.2 with localInstances := x.2.localInstances.map (fun set => set.erase instName) })
            instName rest := by
        rw [removeContainerLoop]
        simp only [hinc, if_true]
        rcases hr : si.store.RemoveInstance x.1 instName with ⟨st, err⟩
        rw [hr] at hrem
        simp only at hrem
        subst hrem
        rfl
      have hagree' : ∀ e ∈ rest, (({ si with store := (si.store.RemoveInstance x.1 instName).1 } :
          Flux.syncInstances).putService x.1
          { x.2 with localInstances := x.2.localInstances.map (fun set => set.erase instName) }
          ).serviceAt e.1 = some e.2 := by
        intro e he
        have hne : e.1 ≠ x.1 := fun heq => hx (heq ▸ List.mem_keys_of_mem he)
        rw [serviceAt_putService_ne _ _ _ _ hne]
        exact hagree e (by simp [he])
      have hok' : ∀ k call, ((({ si with store := (si.store.RemoveInstance x.1 instName).1 } :
          Flux.syncInstances).putService x.1
          { x.2 with localInstances := x.2.localInstances.map (fun set => set.erase instName) }
          ).store.failing k call) = false := by
        intro k call
        show (si.store.RemoveInstance x.1 instName).1.failing k call = false
        rw [Store.failing_RemoveInstance]; exact hok k call
      obtain ⟨si1, h0, h1, h2, h3, h4, h5, h6, h7, h8, h9, h10⟩ := ih ndrest _ hagree' hok'
      refine ⟨si1, hstep.trans h0, h1, h2, h3, h4, ?_, ?_, ?_, ?_, ?_, ?_⟩
      · rw [h5]; exact Store.failing_RemoveInstance _ _ _
      · intro e he
        rcases List.mem_cons.1 he with heq | hmem
        · subst heq
          rw [h7 e.1 hx, serviceAt_putService_self]
          have : (({ si with store := (si.store.RemoveInstance e.1 instName).1 } :
              Flux.syncInstances).serviceAt e.1) = some e.2 := hagree e (by simp)
          rw [this]; rfl
        · exact h6 e hmem
      · intro name hname
        have hne : name ≠ x.1 := fun heq => hname (by simp [heq])
        have hnr : name ∉ rest.keys := fun hm => hname (by simp [hm])
        rw [h7 name hnr, serviceAt_putService_ne _ _ _ _ hne]
        rfl
      · rw [h8]
        show (si.store.RemoveInstance x.1 instName).1.calls ++ _ = _
        rw [Store.calls_RemoveInstance]
        simp [List.filter_cons, hinc]
      · intro e he hince
        rcases List.mem_cons.1 he with heq | hmem
        · subst heq
          rw [h10 e.1 instName]
          · exact Store.record_RemoveInstance_ok si.store _ _ hrem
          · rintro ⟨-, e', he', hk, -⟩
            exact hx (hk ▸ List.mem_keys_of_mem he')
        · exact h9 e hmem hince
      · intro s n hno
        rw [h10 s n (fun ⟨hn, e, he, hh⟩ => hno ⟨hn, e, by simp [he], hh⟩)]
        show (si.store.RemoveInstance x.1 instName).1.record s n = _
        apply Store.record_RemoveInstance_ne
        rintro ⟨rfl, rfl⟩
        exact hno ⟨rfl, x, by simp, rfl, hinc⟩
    · -- the service does not include the instance: nothing happens
      have hinc' : x.2.includes instName = false := by
        cases h : x.2.includes instName
        · rfl
        · exact absurd h hinc
      have hstep : removeContainerLoop si instName (x :: rest) =
          removeContainerLoop si instName rest := by
        rw [removeContainerLoop]
        simp [hinc']
      obtain ⟨si1, h0, h1, h2, h3, h4, h5, h6, h7, h8, h9, h10⟩ :=
        ih ndrest si (fun e he => hagree e (by simp [he])) hok
      refine ⟨si1, hstep.trans h0, h1, h2, h3, h4, h5, ?_, ?_, ?_, ?_, ?_⟩
      · intro e he
        rcases List.mem_cons.1 he with heq | hmem
        · subst heq
          rw [h7 e.1 hx, service_erase_of_not_includes e.2 instName hinc']
          exact hagree e (by simp)
        · exact h6 e hmem
      · intro name hname
        exact h7 name (fun hm => hname (by simp [hm]))
      · rw [h8]
        simp [List.filter_cons, hinc']
      · intro e he hince
        rcases List.mem_cons.1 he with heq | hmem
        · subst heq; rw [hinc'] at hince; cases hince
        · exact h9 e hmem hince
      · intro s n hno
        exact h10 s n (fun ⟨hn, e, he, hh⟩ => hno ⟨hn, e, by simp [he], hh⟩)

/-- C17. Incremental container removal. In a state with an initialised table and
cache that holds the container `cont` under `c`, with no store call failing, the
incremental update whose mapping is the null entry for `c` returns having removed
`c` from the cache; every service keeps its definition and its matched set without
`cont.ID`; the store calls issued are exactly one `RemoveInstance(service, cont.ID)`
per service whose matched set contained `cont.ID`, in table order, so none for the
other services; those records are gone; every other cache entry, store record and
matched-set member is unchanged, and no error is posted. If the cache holds no
container under `c`, the update returns the state unchanged. (The cache is keyed by
container ID, so `cont.ID` is `c`.) -/
theorem incremental_container_removal (lib : GoLib) (si : Flux.syncInstances) (c : String)
    (cache : AList (fun _ : String => Option Container))
    (tbl : AList (fun _ : String => service))
    (hcache : si.containers = some cache) (htbl : si.services = some tbl) :
    (∀ cont, cache.lookup c = some (some cont) →
      (∀ k call, si.store.failing k call = false) →
      ∃ si1, si.processContainerUpdate lib
          { Reset := false, Containers := some (AList.insert c none ∅) } = .ok si1 ∧
        si1.containerAt c = none ∧
        (∀ id, id ≠ c → si1.containerAt id = si.containerAt id) ∧
        si1.errs = si.errs ∧
        (∀ name svc, si.serviceAt name = some svc →
          si1.serviceAt name = some
            { svc with localInstances := svc.localInstances.map (fun set => set.erase cont.ID) } ∧
          (svc.includes cont.ID = true → si1.store.record name cont.ID = none)) ∧
        (∀ name, si.serviceAt name = none → si1.serviceAt name = none) ∧
        si1.store.calls = si.store.calls ++
          (tbl.entries.filter (fun e => e.2.includes cont.ID)).map
            (fun e => StoreCall.RemoveInstance e.1 cont.ID) ∧
        (∀ s n, ¬ (n = cont.ID ∧ ∃ svc, si.serviceAt s = some svc ∧
            svc.includes cont.ID = true) → si1.store.record s n = si.store.record s n)) ∧
    ((cache.lookup c).join = none →
      si.processContainerUpdate lib
          { Reset := false, Containers := some (AList.insert c none ∅) } = .ok si) := by
  obtain ⟨hostIP, network, store, errs, services, containers⟩ := si
  simp only at hcache htbl
  subst hcache htbl
  have hentries : (AList.insert c (none : Option Container)
      (∅ : AList (fun _ : String => Option Container))).entries = [⟨c, none⟩] := by
    simp [AList.insert_entries]
  constructor
  · intro cont hc hok
    have hmem : ∀ e ∈ tbl.entries,
        (⟨hostIP, network, store, errs, some tbl, some (cache.erase c)⟩ :
          Flux.syncInstances).serviceAt e.1 = some e.2 := by
      intro e he
      obtain ⟨k, v⟩ := e
      simp only [syncInstances.serviceAt, Option.some_bind]
      exact AList.mem_lookup_iff.2 he
    obtain ⟨si1, h0, h1, h2, h3, h4, h5, h6, h7, h8, h9, h10⟩ :=
      removeContainerLoop_facts cont.ID tbl.entries tbl.nodupKeys
        (⟨hostIP, network, store, errs, some tbl, some (cache.erase c)⟩ : Flux.syncInstances)
        hmem hok
    have hrun : syncInstances.processContainerUpdate lib
        ⟨hostIP, network, store, errs, some tbl, some cache⟩
        { Reset := false, Containers := some (AList.insert c none ∅) } =
        .ok { si1 with errs := Post si1.errs none } := by
      unfold syncInstances.processContainerUpdate
      simp only [Bool.false_eq_true, if_false, hentries]
      rw [containerLoop]
      simp only [Option.some_bind, hc, Option.join, Option.map_some', id]
      simp only [syncInstances.removeContainer]
      rw [h0]
      rfl
    refine ⟨_, hrun, ?_, ?_, ?_, ?_, ?_, ?_, ?_⟩
    · show si1.containerAt c = none
      simp [syncInstances.containerAt, h1, AList.lookup_erase]
    · intro id hid
      show si1.containerAt id = _
      simp [syncInstances.containerAt, h1, AList.lookup_erase_ne hid]
    · show Post si1.errs none = errs
      simp only [Post]; exact h2
    · intro name svc hat
      have hk : (⟨name, svc⟩ : Sigma (fun _ : String => service)) ∈ tbl.entries := by
        simp only [syncInstances.serviceAt, Option.some_bind] at hat
        exact AList.mem_lookup_iff.1 hat
      exact ⟨h6 ⟨name, svc⟩ hk, fun hinc => h9 ⟨name, svc⟩ hk hinc⟩
    · intro name hat
      show si1.serviceAt name = none
      have hnk : name ∉ tbl.entries.keys := by
        simp only [syncInstances.serviceAt, Option.some_bind] at hat
        exact AList.lookup_eq_none.1 hat
      rw [h7 name hnk]
      exact hat
    · exact h8
    · intro s n hno
      apply h10 s n
      rintro ⟨hn, e, he, hs, hinc⟩
      exact hno ⟨hn, e.2, by rw [← hs]; exact hmem e he, hinc⟩
  · intro hc
    unfold syncInstances.processContainerUpdate
    simp only [Bool.false_eq_true, if_false, hentries]
    rw [containerLoop]
    simp only [Option.some_bind, hc]
    rfl

/-- Worked instance of C17: `c1` is cached and in the matched set of `svcA` only;
removing it issues the single call `RemoveInstance(svcA, c1)`, empties that matched
set and the cache. -/
theorem incremental_container_removal_witness :
    ∃ si1, ({ twoServiceAgent (fun _ _ => false)
          (AList.insert "c1" (some (containerWithRole "c1" "web")) ∅) with
          services := some
            (AList.insert "svcA"
              { ServiceInfo := sampleInfo "svcA" [⟨"r1", ruleAny⟩],
                localInstances := some {"c1"} }
              (AList.insert "svcB"
                { ServiceInfo := sampleInfo "svcB" [⟨"r1", ruleAny⟩],
                  localInstances := some ∅ } ∅)) } : Flux.syncInstances).processContainerUpdate
        GoLib.sample { Reset := false, Containers := some (AList.insert "c1" none ∅) } =
        .ok si1 ∧
      si1.containerAt "c1" = none ∧
      si1.store.calls = [StoreCall.RemoveInstance "svcA" "c1"] ∧
      si1.errs = [] := by
  obtain ⟨si1, h, h1, -, h3, -, -, h6, -⟩ := (incremental_container_removal GoLib.sample
    ({ twoServiceAgent (fun _ _ => false)
          (AList.insert "c1" (some (containerWithRole "c1" "web")) ∅) with
          services := some
            (AList.insert "svcA"
              { ServiceInfo := sampleInfo "svcA" [⟨"r1", ruleAny⟩],
                localInstances := some {"c1"} }
              (AList.insert "svcB"
                { ServiceInfo := sampleInfo "svcB" [⟨"r1", ruleAny⟩],
                  localInstances := some ∅ } ∅)) } : Flux.syncInstances)
    "c1" _ _ rfl rfl).1 (containerWithRole "c1" "web") rfl (fun _ _ => rfl)
  exact ⟨si1, h, h1, h6, h3⟩

/-! ## The label view and the merged label map -/

theorem splitChars_ne_nil (sep : Char) (l : List Char) : strings.splitChars sep l ≠ [] := by
  induction l with
  | nil => simp [strings.splitChars]
  | cons c cs ih =>
    rw [strings.splitChars]
    by_cases hc : c = sep
    · simp [hc]
    · simp only [hc, if_false]
      cases h : strings.splitChars sep cs with
      | nil => simp
      | cons p ps => simp

theorem splitChars_of_not_mem (sep : Char) (l : List Char) (h : sep ∉ l) :
    strings.splitChars sep l = [l] := by
  induction l with
  | nil => rfl
  | cons c cs ih =>
    have hc : c ≠ sep := fun e => h (by simp [e])
    have hcs : sep ∉ cs := fun e => h (by simp [e])
    simp [strings.splitChars, hc, ih hcs]

theorem splitChars_append (sep : Char) (k v : List Char) (hk : sep ∉ k) :
    strings.splitChars sep (k ++ sep :: v) = k :: strings.splitChars sep v := by
  induction k with
  | nil => simp [strings.splitChars]
  | cons c cs ih =>
    have hc : c ≠ sep := fun e => hk (by simp [e])
    have hcs : sep ∉ cs := fun e => hk (by simp [e])
    simp [strings.splitChars, hc, ih hcs]

/-- On an entry that holds a `=`, `strings.Split` and `strings.SplitN(_, _, 2)` give
the same first piece, and the same second piece when the value holds no further `=`. -/
theorem Split_of_entry (e : String) (h : '=' ∈ e.data) :
    (strings.Split e '=')[0]? = some (envKey e) ∧
    ('=' ∉ (envVal e).data → (strings.Split e '=')[1]? = some (envVal e)) := by
  obtain ⟨k, v, hs, hl, hk⟩ := splitFirstChars_of_mem '=' e.data h
  have hsplit : strings.splitChars '=' e.data = k :: strings.splitChars '=' v := by
    rw [hl]; exact splitChars_append '=' k v hk
  have hkey : envKey e = String.mk k := by simp [envKey, strings.SplitN2, hs]
  have hval : envVal e = String.mk v := by simp [envVal, strings.SplitN2, hs]
  constructor
  · simp [strings.Split, hsplit, hkey]
  · intro hv
    rw [hval] at hv
    simp only at hv
    simp [strings.Split, hsplit, splitChars_of_not_mem '=' v hv, hval]

theorem envValue_of_no_key (env : List String) (K : String) (hwf : envWellFormed env)
    (h : ∀ e ∈ env, envKey e ≠ K) : envValue env K = .ok "" := by
  induction env with
  | nil => rfl
  | cons e rest ih =>
    have he := (Split_of_entry e (hwf e (by simp))).1
    rw [envValue]
    simp only [he, h e (by simp), if_false]
    exact ih (fun x hx => hwf x (by simp [hx])) (fun x hx => h x (by simp [hx]))

theorem envValue_of_key (env : List String) (K V : String) (hwf : envWellFormed env)
    (hex : ∃ e ∈ env, envKey e = K)
    (hall : ∀ e ∈ env, envKey e = K → '=' ∉ (envVal e).data ∧ envVal e = V) :
    envValue env K = .ok V := by
  induction env with
  | nil => obtain ⟨e, he, -⟩ := hex; simp at he
  | cons e rest ih =>
    obtain ⟨h0, h1⟩ := Split_of_entry e (hwf e (by simp))
    rw [envValue]
    simp only [h0]
    by_cases hk : envKey e = K
    · obtain ⟨hv, hV⟩ := hall e (by simp) hk
      simp [hk, h1 hv, hV]
    · simp only [hk, if_false]
      apply ih (fun x hx => hwf x (by simp [hx]))
      · obtain ⟨x, hx, hxk⟩ := hex
        rcases List.mem_cons.1 hx with e1 | e1
        · subst e1; exact absurd hxk hk
        · exact ⟨x, e1, hxk⟩
      · exact fun x hx => hall x (by simp [hx])

theorem lookup_envOverlay_of_same (K V : String) (env : List String)
    (hex : ∃ e ∈ env, envKey e = K) (hall : ∀ e ∈ env, envKey e = K → envVal e = V)
    (labels : AList (fun _ : String => String)) :
    (envOverlay labels env).lookup ("env." ++ K) = some V := by
  induction env generalizing labels with
  | nil => obtain ⟨e, he, -⟩ := hex; simp at he
  | cons e rest ih =>
    have hstep : envOverlay labels (e :: rest) =
        envOverlay (labels.insert ("env." ++ envKey e) (envVal e)) rest := rfl
    rw [hstep]
    by_cases hr : ∃ x ∈ rest, envKey x = K
    · exact ih hr (fun x hx => hall x (by simp [hx])) _
    · have hno : ∀ x ∈ rest, "env." ++ envKey x ≠ "env." ++ K := by
        intro x hx heq
        apply hr
        refine ⟨x, hx, ?_⟩
        have hd := congrArg String.data heq
        simp only [String.data_append] at hd
        exact String.ext (List.append_cancel_left hd)
      rw [lookup_envOverlay_of_not_key _ rest hno]
      obtain ⟨x, hx, hxk⟩ := hex
      rcases List.mem_cons.1 hx with e1 | e1
      · subst e1
        rw [hxk, AList.lookup_insert, hall x (by simp) hxk]
      · exact absurd ⟨x, e1, hxk⟩ hr

theorem env_prefix_decompose (k : String) (h : k.length > 4 ∧ strings.sliceTo k 4 = "env.") :
    k = "env." ++ strings.sliceFrom k 4 := by
  apply String.ext
  have h2 := congrArg String.data h.2
  simp only [strings.sliceTo, strings.sliceFrom, String.data_append] at h2 ⊢
  have : ((4 : Int).toNat) = 4 := rfl
  rw [this] at h2 ⊢
  rw [← h2, List.take_append_drop]

theorem env_prefix_append (K : String) (hK : K ≠ "") :
    ("env." ++ K).length > 4 ∧ strings.sliceTo ("env." ++ K) 4 = "env." := by
  have hlen : K.length > 0 := by
    have : K.data ≠ [] := fun h => hK (String.ext h)
    exact List.length_pos.2 this
  constructor
  · simp only [String.length_append]
    have : ("env." : String).length = 4 := by decide
    omega
  · apply String.ext
    simp only [strings.sliceTo, String.data_append]
    have : ((4 : Int).toNat) = 4 := rfl
    rw [this]
    rfl

theorem env_key_ne_image_tag (x : String) :
    "env." ++ x ≠ "image" ∧ "env." ++ x ≠ "tag" := by
  constructor
  · intro h
    have hd := congrArg String.data h
    simp only [String.data_append] at hd
    simp at hd
  · intro h
    have hd := congrArg String.data h
    simp only [String.data_append] at hd
    simp at hd

theorem lookup_mergedLabels_of_not_key (c : Container) (k : String)
    (h : ∀ e ∈ c.Config.Env, "env." ++ envKey e ≠ k) :
    (mergedLabels c).lookup k =
      match c.Config.Labels.lookup k with
      | some v => some v
      | none =>
        if k = "image" then some (imageName c.Config.Image)
        else if k = "tag" then some (imageTag c.Config.Image) else none := by
  unfold mergedLabels
  rw [lookup_envOverlay_of_not_key k _ h, lookup_overlayLabels k _ c.Config.Labels.nodupKeys]
  have hl : c.Config.Labels.lookup k = c.Config.Labels.entries.dlookup k := rfl
  rw [hl]
  cases c.Config.Labels.entries.dlookup k with
  | some v => rfl
  | none =>
    simp only
    by_cases hi : k = "image"
    · subst hi; simp
    · by_cases ht : k = "tag"
      · subst ht
        rw [AList.lookup_insert_ne (by decide), AList.lookup_insert]
        simp
      · rw [AList.lookup_insert_ne hi, AList.lookup_insert_ne ht]
        simp [hi, ht]

/-- C18, counterexamples. The label view a selection rule reads and the merged label
map persisted with the instance disagree (a) on an environment value holding a `=`,
which the view cuts at the second `=`, (b) on a declared label named `image`, which
the view ignores, (c) on a key set by two entries, where the view reads the first and
the map keeps the last, (d) on a declared label named `env.FOO` without such an
environment entry, which the view reads as empty, (e) on an entry with an empty
key, which the map keeps under `env.` while the view reads the declared labels, and
(f) on a declared label named `tag`, which the view ignores like `image`. -/
theorem label_view_differs_from_persisted_labels :
    (containerLabels.Label (some (containerWithEnv ["FOO=bar=baz"])) "env.FOO" = .ok "bar" ∧
      (mergedLabels (containerWithEnv ["FOO=bar=baz"])).lookup "env.FOO" = some "bar=baz") ∧
    (containerLabels.Label
        (some { containerWithEnv [] with
                Config := { Image := "nginx:1.9", Env := [],
                            Labels := AList.insert "image" "custom" ∅ } }) "image"
        = .ok "nginx" ∧
      (mergedLabels
        { containerWithEnv [] with
          Config := { Image := "nginx:1.9", Env := [],
                      Labels := AList.insert "image" "custom" ∅ } }).lookup "image"
        = some "custom") ∧
    (containerLabels.Label (some (containerWithEnv ["A=1", "A=2"])) "env.A" = .ok "1" ∧
      (mergedLabels (containerWithEnv ["A=1", "A=2"])).lookup "env.A" = some "2") ∧
    (containerLabels.Label
        (some { containerWithEnv [] with
                Config := { Image := "nginx:1.9", Env := [],
                            Labels := AList.insert "env.FOO" "declared" ∅ } }) "env.FOO"
        = .ok "" ∧
      (mergedLabels
        { containerWithEnv [] with
          Config := { Image := "nginx:1.9", Env := [],
                      Labels := AList.insert "env.FOO" "declared" ∅ } }).lookup "env.FOO"
        = some "declared") ∧
    (containerLabels.Label (some (containerWithEnv ["=v"])) "env." = .ok "" ∧
      (mergedLabels (containerWithEnv ["=v"])).lookup "env." = some "v") ∧
    (containerLabels.Label
        (some { containerWithEnv [] with
                Config := { Image := "nginx:1.9", Env := [],
                            Labels := AList.insert "tag" "custom" ∅ } }) "tag"
        = .ok "1.9" ∧
      (mergedLabels
        { containerWithEnv [] with
          Config := { Image := "nginx:1.9", Env := [],
                      Labels := AList.insert "tag" "custom" ∅ } }).lookup "tag"
        = some "custom") ∧
    (∀ (lib : GoLib) (si : Flux.syncInstances) (svc : Service),
      ∃ inst, si.extractInstance lib (ruleLabel "env.FOO" "bar") svc
          (some (containerWithEnv ["FOO=bar=baz"])) = .ok (inst, true) ∧
        inst.Labels.lookup "env.FOO" = some "bar=baz") := by
  refine ⟨⟨by rfl, by rfl⟩, ⟨by rfl, by rfl⟩, ⟨by rfl, by rfl⟩, ⟨by rfl, by rfl⟩,
    ⟨by rfl, by rfl⟩, ⟨by rfl, by rfl⟩, ?_⟩
  intro lib si svc
  refine ⟨_, extractInstance_of_match lib si _ svc _ (by rfl) (by decide), by rfl⟩

/-- C18, amended. For a container with well-formed environment entries and a label
name `k` such that no declared label carries `k` when `k` is `image`, `tag`, or
`env.KEY` for a `KEY` that is the key of no environment entry, and every environment
entry whose key gives `k` has a non-empty key, a value without `=` and the same value
as every other entry with that key, the label view returns exactly the value the
merged label map holds under `k` (the empty string when the map has no `k`). A
declared label named `env.KEY` is admitted when an entry with that key exists: view
and map then both give the entry's value. The merged map is the one
`extractInstance` stores in the instance it builds, and it does build one when the
rule includes the container. -/
theorem label_view_agrees_with_persisted_labels (c : Container) (k : String)
    (henv : envWellFormed c.Config.Env)
    (hdecl : syntheticLabel k → (∀ e ∈ c.Config.Env, "env." ++ envKey e ≠ k) →
      c.Config.Labels.lookup k = none)
    (hentry : ∀ e ∈ c.Config.Env, "env." ++ envKey e = k →
      envKey e ≠ "" ∧ '=' ∉ (envVal e).data ∧
      ∀ e1 ∈ c.Config.Env, envKey e1 = envKey e → envVal e1 = envVal e) :
    containerLabels.Label (some c) k = .ok (((mergedLabels c).lookup k).getD "") ∧
    (∀ (lib : GoLib) (si : Flux.syncInstances) (spec : ContainerRule) (svc : Service)
        (inst : Instance),
      si.extractInstance lib spec svc (some c) = .ok (inst, true) →
      containerLabels.Label (some c) k = .ok ((inst.Labels.lookup k).getD "")) ∧
    (∀ (lib : GoLib) (si : Flux.syncInstances) (spec : ContainerRule) (svc : Service),
      spec.Includes (containerLabels.Label (some c)) = .ok true →
      ∃ inst, si.extractInstance lib spec svc (some c) = .ok (inst, true) ∧
        inst.Labels = mergedLabels c) := by
  have main : containerLabels.Label (some c) k = .ok (((mergedLabels c).lookup k).getD "") := by
    by_cases hi : k = "image"
    · have hno : ∀ e ∈ c.Config.Env, "env." ++ envKey e ≠ k :=
        fun e _ => hi ▸ (env_key_ne_image_tag (envKey e)).1
      rw [lookup_mergedLabels_of_not_key c k hno, hdecl (Or.inl hi) hno]
      simp [containerLabels.Label, hi]
    by_cases ht : k = "tag"
    · have hno : ∀ e ∈ c.Config.Env, "env." ++ envKey e ≠ k :=
        fun e _ => ht ▸ (env_key_ne_image_tag (envKey e)).2
      rw [lookup_mergedLabels_of_not_key c k hno, hdecl (Or.inr (Or.inl ht)) hno]
      simp [containerLabels.Label, ht]
    by_cases hp : k.length > 4 ∧ strings.sliceTo k 4 = "env."
    · have hk := env_prefix_decompose k hp
      have hlabel : containerLabels.Label (some c) k =
          envValue c.Config.Env (strings.sliceFrom k 4) := by
        simp [containerLabels.Label, hi, ht, hp.1, hp.2]
      rw [hlabel]
      by_cases hex : ∃ e ∈ c.Config.Env, envKey e = strings.sliceFrom k 4
      · obtain ⟨e, he, hek⟩ := hex
        have hgives : ∀ x ∈ c.Config.Env, envKey x = strings.sliceFrom k 4 →
            "env." ++ envKey x = k := fun x _ hx => by rw [hx]; exact hk.symm
        obtain ⟨-, -, hsame⟩ := hentry e he (hgives e he hek)
        rw [envValue_of_key c.Config.Env _ (envVal e) henv ⟨e, he, hek⟩
          (fun x hx hxk => ⟨(hentry x hx (hgives x hx hxk)).2.1,
            hsame x hx (hxk.trans hek.symm)⟩)]
        have hm : (mergedLabels c).lookup ("env." ++ strings.sliceFrom k 4) =
            some (envVal e) :=
          lookup_envOverlay_of_same _ (envVal e) c.Config.Env ⟨e, he, hek⟩
            (fun x hx hxk => hsame x hx (hxk.trans hek.symm)) _
        rw [← hk] at hm
        rw [hm]; rfl
      · have hnone : ∀ e ∈ c.Config.Env, envKey e ≠ strings.sliceFrom k 4 :=
          fun e he hek => hex ⟨e, he, hek⟩
        have hno : ∀ e ∈ c.Config.Env, "env." ++ envKey e ≠ k := by
          intro e he heq
          apply hnone e he
          rw [hk] at heq
          have hd := congrArg String.data heq
          simp only [String.data_append] at hd
          exact String.ext (List.append_cancel_left hd)
        rw [envValue_of_no_key _ _ henv hnone, lookup_mergedLabels_of_not_key c k hno,
          hdecl (Or.inr (Or.inr hp)) hno]
        simp [hi, ht]
    · have hno : ∀ e ∈ c.Config.Env, "env." ++ envKey e ≠ k := by
        intro e he heq
        apply hp
        rw [← heq]
        exact env_prefix_append _ (hentry e he heq).1
      rw [lookup_mergedLabels_of_not_key c k hno]
      have hlabel : containerLabels.Label (some c) k =
          .ok ((c.Config.Labels.lookup k).getD "") := by
        have hp1 : ¬ ((decide (k.length > 4) && decide (strings.sliceTo k 4 = "env.")) = true) := by
          simpa using hp
        simp only [containerLabels.Label, hi, ht, if_false, hp1]
        rfl
      rw [hlabel]
      cases c.Config.Labels.lookup k with
      | some v => rfl
      | none => simp [hi, ht]
  refine ⟨main, ?_, ?_⟩
  · intro lib si spec svc inst h
    rw [extractInstance_labels_of_ok lib si spec svc c inst h]
    exact main
  · intro lib si spec svc hm
    exact ⟨_, extractInstance_of_match lib si spec svc c hm henv, rfl⟩

theorem label_view_agrees_with_persisted_labels_witness :
    envWellFormed collidingContainer.Config.Env ∧
    collidingContainer.Config.Labels.lookup "env.FOO" = some "declared" ∧
    containerLabels.Label (some collidingContainer) "env.FOO"
      = .ok (((mergedLabels collidingContainer).lookup "env.FOO").getD "") ∧
    containerLabels.Label (some collidingContainer) "env.FOO" = .ok "fromenv" :=
  ⟨by decide, by rfl,
   (label_view_agrees_with_persisted_labels collidingContainer "env.FOO"
      (by decide)
      (fun _ h => absurd (by decide) (h "FOO=fromenv" (by decide)))
      (by decide)).1,
   by rfl⟩

/-! ## The Reset handshake and writes into nil maps -/

theorem entries_serviceAt (si : Flux.syncInstances) (tbl : AList (fun _ : String => service))
    (hs : si.services = some tbl) (e : Sigma (fun _ : String => service))
    (he : e ∈ tbl.entries) : si.serviceAt e.1 = some e.2 := by
  unfold syncInstances.serviceAt
  rw [hs]
  exact AList.mem_lookup_iff.2 (by simpa using he)

theorem extractInstance_congr (lib : GoLib) (si si1 : Flux.syncInstances)
    (h1 : si1.hostIP = si.hostIP) (h2 : si1.network = si.network)
    (spec : ContainerRule) (svc : Service) (c : Option Container) :
    si1.extractInstance lib spec svc c = si.extractInstance lib spec svc c := by
  simp only [syncInstances.extractInstance, syncInstances.getAddress,
    syncInstances.mappedPortAddress, syncInstances.fixedPortAddress, h1, h2]

theorem registrationOf_congr (lib : GoLib) (si si1 : Flux.syncInstances)
    (h1 : si1.hostIP = si.hostIP) (h2 : si1.network = si.network)
    (svc : Service) (c : Option Container) (rules : List ContainerRuleInfo) :
    registrationOf lib si1 svc c rules = registrationOf lib si svc c rules := by
  induction rules with
  | nil => rfl
  | cons spec rest ih =>
    simp only [registrationOf, extractInstance_congr lib si si1 h1 h2, ih]

theorem registrationOf_name (lib : GoLib) (si : Flux.syncInstances) (svc : Service)
    (c : Option Container) (rules : List ContainerRuleInfo) (n : String) (inst : Instance)
    (h : registrationOf lib si svc c rules = .ok (some (n, inst))) :
    ∃ cont, c = some cont ∧ cont.ID = n := by
  induction rules with
  | nil => simp [registrationOf] at h
  | cons spec rest ih =>
    rw [registrationOf] at h
    rcases hx : si.extractInstance lib spec.ContainerRule svc c with f | ⟨i, _ | _⟩
    · simp [hx] at h
    · simp only [hx] at h
      exact ih h
    · simp only [hx] at h
      cases c with
      | none => simp [instanceNameFor] at h
      | some cont =>
        simp only [instanceNameFor, Except.ok.injEq, Option.some.injEq, Prod.mk.injEq] at h
        exact ⟨cont, rfl, h.1⟩

/-- The effect of `evaluate` is the registration followed by the two writes. -/
theorem evaluateLoop_registration (lib : GoLib) (si : Flux.syncInstances)
    (c : Option Container) (svc : service) (rules : List ContainerRuleInfo) :
    evaluateLoop lib si c svc rules =
      match registrationOf lib si svc.ServiceInfo.Service c rules with
      | .error f => .error f
      | .ok none => .ok (si, svc, none)
      | .ok (some (n, inst)) =>
        match si.store.AddInstance svc.Name n inst with
        | (st, some err) => .ok ({ si with store := st }, svc, some err)
        | (st, none) =>
          match svc.localInstances with
          | none => .error .nilMapWrite
          | some set =>
            .ok ({ si with store := st }, { svc with localInstances := some (insert n set) },
              none) := by
  induction rules with
  | nil => rfl
  | cons spec rest ih =>
    rw [evaluateLoop, registrationOf]
    rcases hx : si.extractInstance lib spec.ContainerRule svc.ServiceInfo.Service c with
      f | ⟨i, _ | _⟩
    · rfl
    · simp only
      exact ih
    · simp only
      cases c with
      | none => rfl
      | some cont => rfl

theorem evaluate_of_no_registration (lib : GoLib) (si : Flux.syncInstances)
    (c : Option Container) (svc : service)
    (hr : registrationOf lib si svc.ServiceInfo.Service c svc.ServiceInfo.ContainerRules
      = .ok none) :
    si.evaluate lib c svc = .ok (si, svc, none) := by
  unfold syncInstances.evaluate
  rw [evaluateLoop_registration, hr]

theorem evaluate_of_registration (lib : GoLib) (si : Flux.syncInstances)
    (c : Option Container) (svc : service) (n : String) (inst : Instance) (set : instanceSet)
    (hf : ∀ k call, si.store.failing k call = false)
    (hset : svc.localInstances = some set)
    (hr : registrationOf lib si svc.ServiceInfo.Service c svc.ServiceInfo.ContainerRules
      = .ok (some (n, inst))) :
    si.evaluate lib c svc =
      .ok ({ si with store := (si.store.AddInstance svc.Name n inst).1 },
           { svc with localInstances := some (insert n set) }, none) := by
  unfold syncInstances.evaluate
  rw [evaluateLoop_registration, hr]
  simp only
  rw [Store.AddInstance_ok si.store svc.Name n inst (hf _ _)]
  simp only [hset]

theorem evaluate_cases (lib : GoLib) (si : Flux.syncInstances)
    (c : Option Container) (svc : service) (si1 : Flux.syncInstances) (svc1 : service)
    (err : Option StoreError)
    (hf : ∀ k call, si.store.failing k call = false)
    (h : si.evaluate lib c svc = .ok (si1, svc1, err)) :
    (registrationOf lib si svc.ServiceInfo.Service c svc.ServiceInfo.ContainerRules = .ok none ∧
      si1 = si ∧ svc1 = svc ∧ err = none) ∨
    (∃ n inst set,
      registrationOf lib si svc.ServiceInfo.Service c svc.ServiceInfo.ContainerRules
        = .ok (some (n, inst)) ∧
      svc.localInstances = some set ∧
      si1 = { si with store := (si.store.AddInstance svc.Name n inst).1 } ∧
      svc1 = { svc with localInstances := some (insert n set) } ∧ err = none) := by
  rcases hr : registrationOf lib si svc.ServiceInfo.Service c svc.ServiceInfo.ContainerRules
    with f | ⟨_ | ⟨n, inst⟩⟩
  · unfold syncInstances.evaluate at h
    rw [evaluateLoop_registration, hr] at h
    cases h
  · rw [evaluate_of_no_registration lib si c svc hr] at h
    simp only [Except.ok.injEq, Prod.mk.injEq] at h
    exact Or.inl ⟨rfl, h.1.symm, h.2.1.symm, h.2.2.symm⟩
  · cases hset : svc.localInstances with
    | none =>
      unfold syncInstances.evaluate at h
      rw [evaluateLoop_registration, hr] at h
      simp only at h
      rw [Store.AddInstance_ok si.store svc.Name n inst (hf _ _)] at h
      simp only [hset] at h
      cases h
    | some set =>
      rw [evaluate_of_registration lib si c svc n inst set hf hset hr] at h
      simp only [Except.ok.injEq, Prod.mk.injEq] at h
      exact Or.inr ⟨n, inst, set, rfl, rfl, h.1.symm, h.2.1.symm, h.2.2.symm⟩

/-- What the loop over the cached containers in `syncInstances` has done when no
store call fails: the matched set grew by the registered names, the registered
records are written, every other record is untouched. -/
theorem evaluateAll_registrations (lib : GoLib)
    (entries : List (Sigma (fun _ : String => Option Container)))
    (si : Flux.syncInstances) (svc : service) (set0 : instanceSet)
    (hset : svc.localInstances = some set0)
    (hf : ∀ k call, si.store.failing k call = false)
    (si1 : Flux.syncInstances) (svc1 : service) (err : Option StoreError)
    (h : evaluateAll lib si svc entries = .ok (si1, svc1, err)) :
    err = none ∧ sameButStore si si1 ∧ si1.store.failing = si.store.failing ∧
    (∀ e ∈ entries, ∃ r,
      registrationOf lib si svc.ServiceInfo.Service e.2 svc.ServiceInfo.ContainerRules = .ok r) ∧
    ∃ set1, svc1 = { svc with localInstances := some set1 } ∧
      (∀ n, n ∈ set1 ↔ n ∈ set0 ∨ ∃ e ∈ entries, ∃ inst,
        registrationOf lib si svc.ServiceInfo.Service e.2 svc.ServiceInfo.ContainerRules
          = .ok (some (n, inst))) ∧
      (∀ s m, ¬ (s = svc.Name ∧ ∃ e ∈ entries, ∃ inst,
        registrationOf lib si svc.ServiceInfo.Service e.2 svc.ServiceInfo.ContainerRules
          = .ok (some (m, inst))) → si1.store.record s m = si.store.record s m) ∧
      (entries.NodupKeys → keyedByID entries → ∀ e ∈ entries, ∀ n inst,
        registrationOf lib si svc.ServiceInfo.Service e.2 svc.ServiceInfo.ContainerRules
          = .ok (some (n, inst)) → si1.store.record svc.Name n = some inst) := by
  induction entries generalizing si svc set0 with
  | nil =>
    simp only [evaluateAll, Except.ok.injEq, Prod.mk.injEq] at h
    obtain ⟨h1, h2, h3⟩ := h
    subst h1 h2 h3
    refine ⟨rfl, ⟨rfl, rfl, rfl, rfl, rfl⟩, rfl, by simp, set0, ?_, by simp, fun _ _ _ => rfl,
      by simp⟩
    obtain ⟨info, set⟩ := svc
    simp only at hset
    subst hset
    rfl
  | cons e rest ih =>
    rw [evaluateAll] at h
    rcases hx : si.evaluate lib e.2 svc with f | ⟨sia, svca, _ | e1⟩
    · simp [hx] at h
    · simp only [hx] at h
      rcases evaluate_cases lib si e.2 svc sia svca none hf hx with
        ⟨hr, h1, h2, -⟩ | ⟨n, inst, set, hr, hs, h1, h2, -⟩
      · subst h1 h2
        obtain ⟨a1, a2, a3, a4, set1, a5, a6, a7, a8⟩ := ih sia svca set0 hset hf h
        refine ⟨a1, a2, a3, ?_, set1, a5, ?_, ?_, ?_⟩
        · intro x hx
          rcases List.mem_cons.1 hx with h0 | h0
          · subst h0; exact ⟨none, hr⟩
          · exact a4 x h0
        · intro m
          rw [a6 m]
          constructor
          · rintro (hm | ⟨x, hx, i, hxr⟩)
            · exact Or.inl hm
            · exact Or.inr ⟨x, by simp [hx], i, hxr⟩
          · rintro (hm | ⟨x, hx, i, hxr⟩)
            · exact Or.inl hm
            · rcases List.mem_cons.1 hx with h0 | h0
              · subst h0; rw [hr] at hxr; cases hxr
              · exact Or.inr ⟨x, h0, i, hxr⟩
        · intro s m hno
          apply a7 s m
          rintro ⟨hs, x, hx, i, hxr⟩
          exact hno ⟨hs, x, by simp [hx], i, hxr⟩
        · intro nd hk x hx m i hxr
          rcases List.mem_cons.1 hx with h0 | h0
          · subst h0; rw [hr] at hxr; cases hxr
          · exact a8 (List.nodupKeys_cons.1 nd).2 (fun y hy => hk y (by simp [hy])) x h0 m i hxr
      · rw [hset] at hs
        cases hs
        have hcfg1 : sia.hostIP = si.hostIP := by rw [h1]
        have hcfg2 : sia.network = si.network := by rw [h1]
        have hinfo : svca.ServiceInfo = svc.ServiceInfo := by rw [h2]
        have hname : svca.Name = svc.Name := by rw [h2]; rfl
        have hreg : ∀ c, registrationOf lib sia svca.ServiceInfo.Service c
            svca.ServiceInfo.ContainerRules =
            registrationOf lib si svc.ServiceInfo.Service c svc.ServiceInfo.ContainerRules := by
          intro c
          rw [hinfo]
          exact registrationOf_congr lib si sia hcfg1 hcfg2 _ _ _
        have hfa : ∀ k call, sia.store.failing k call = false := by
          intro k call
          rw [h1]
          simp only
          rw [Store.failing_AddInstance]
          exact hf k call
        have hseta : svca.localInstances = some (insert n set0) := by rw [h2]
        obtain ⟨a1, a2, a3, a4, set1, a5, a6, a7, a8⟩ := ih sia svca (insert n set0) hseta hfa h
        have hrec0 : sia.store.record svc.Name n = some inst := by
          rw [h1]
          exact Store.record_AddInstance_ok si.store svc.Name n inst (hf _ _)
        have hrecne : ∀ s m, ¬ (s = svc.Name ∧ m = n) →
            sia.store.record s m = si.store.record s m := by
          intro s m hne
          rw [h1]
          exact Store.record_AddInstance_ne si.store svc.Name n inst s m hne
        refine ⟨a1, sameButStore_compose (by rw [h1]; exact ⟨rfl, rfl, rfl, rfl, rfl⟩) a2, ?_, ?_,
          set1, ?_, ?_, ?_, ?_⟩
        · rw [a3, h1]
          simp only
          rw [Store.failing_AddInstance]
        · intro x hx
          rcases List.mem_cons.1 hx with h0 | h0
          · subst h0; exact ⟨_, hr⟩
          · obtain ⟨r, hxr⟩ := a4 x h0
            exact ⟨r, by rw [← hreg]; exact hxr⟩
        · rw [a5, h2]
        · intro m
          rw [a6 m]
          constructor
          · rintro (hm | ⟨x, hx, i, hxr⟩)
            · rcases Finset.mem_insert.1 hm with h0 | h0
              · subst h0
                exact Or.inr ⟨e, by simp, inst, hr⟩
              · exact Or.inl h0
            · exact Or.inr ⟨x, by simp [hx], i, by rw [← hreg]; exact hxr⟩
          · rintro (hm | ⟨x, hx, i, hxr⟩)
            · exact Or.inl (Finset.mem_insert_of_mem hm)
            · rcases List.mem_cons.1 hx with h0 | h0
              · subst h0
                rw [hr] at hxr
                simp only [Except.ok.injEq, Option.some.injEq, Prod.mk.injEq] at hxr
                rw [← hxr.1]
                exact Or.inl (Finset.mem_insert_self _ _)
              · exact Or.inr ⟨x, h0, i, by rw [hreg]; exact hxr⟩
        · intro s m hno
          rw [a7 s m, hrecne s m]
          · rintro ⟨hs, hm⟩
            subst hm
            exact hno ⟨hs, e, by simp, inst, hr⟩
          · rintro ⟨hs, x, hx, i, hxr⟩
            rw [hname] at hs
            exact hno ⟨hs, x, by simp [hx], i, by rw [← hreg]; exact hxr⟩
        · intro nd hk x hx m i hxr
          obtain ⟨hnotin, ndrest⟩ := List.nodupKeys_cons.1 nd
          rcases List.mem_cons.1 hx with h0 | h0
          · subst h0
            rw [hr] at hxr
            simp only [Except.ok.injEq, Option.some.injEq, Prod.mk.injEq] at hxr
            obtain ⟨hm, hi⟩ := hxr
            subst hm hi
            rw [a7 svc.Name n, hrec0]
            rintro ⟨-, y, hy, j, hyr⟩
            rw [hreg] at hyr
            obtain ⟨cy, hcy, hidy⟩ := registrationOf_name lib si _ _ _ _ _ hyr
            obtain ⟨cx, hcx, hidx⟩ := registrationOf_name lib si _ _ _ _ _ hr
            have k1 := hk y (by simp [hy]) cy hcy
            have k2 := hk x (by simp) cx hcx
            apply hnotin
            rw [← k2, hidx, ← hidy, k1]
            exact List.mem_keys_of_mem hy
          · rw [← hname]
            exact a8 ndrest (fun y hy => hk y (by simp [hy])) x h0 m i (by rw [hreg]; exact hxr)
    · simp only [hx, Except.ok.injEq, Prod.mk.injEq] at h
      rcases evaluate_cases lib si e.2 svc sia svca (some e1) hf hx with
        ⟨-, -, -, h3⟩ | ⟨_, _, _, -, -, -, -, h3⟩ <;> cases h3

theorem evaluateAll_total (lib : GoLib)
    (entries : List (Sigma (fun _ : String => Option Container)))
    (si : Flux.syncInstances) (svc : service) (set0 : instanceSet)
    (hset : svc.localInstances = some set0)
    (hf : ∀ k call, si.store.failing k call = false)
    (hreg : ∀ e ∈ entries, ∃ r,
      registrationOf lib si svc.ServiceInfo.Service e.2 svc.ServiceInfo.ContainerRules = .ok r) :
    ∃ si1 svc1, evaluateAll lib si svc entries = .ok (si1, svc1, none) := by
  induction entries generalizing si svc set0 with
  | nil => exact ⟨si, svc, rfl⟩
  | cons e rest ih =>
    obtain ⟨r, hr⟩ := hreg e (by simp)
    rw [evaluateAll]
    rcases r with _ | ⟨n, inst⟩
    · rw [evaluate_of_no_registration lib si e.2 svc hr]
      exact ih si svc set0 hset hf (fun x hx => hreg x (by simp [hx]))
    · rw [evaluate_of_registration lib si e.2 svc n inst set0 hf hset hr]
      simp only
      apply ih _ _ (insert n set0) rfl
      · intro k call
        simp only
        rw [Store.failing_AddInstance]
        exact hf k call
      · intro x hx
        obtain ⟨r, hxr⟩ := hreg x (by simp [hx])
        refine ⟨r, ?_⟩
        rw [← hxr]
        exact registrationOf_congr lib si
          ({ si with store := (si.store.AddInstance svc.Name n inst).1 } : Flux.syncInstances)
          rfl rfl _ _ _

theorem pruneLoop_total (lib : GoLib) (svc : service) (insts : List InstanceInfo)
    (si : Flux.syncInstances) (hf : ∀ k call, si.store.failing k call = false) :
    ∃ si2, pruneLoop lib si svc insts = (si2, none) ∧ si2.store.failing = si.store.failing := by
  induction insts generalizing si with
  | nil => exact ⟨si, rfl, rfl⟩
  | cons x rest ih =>
    rw [pruneLoop]
    by_cases hc : (!svc.includes x.Name && si.owns lib x.Instance) = true
    · simp only [hc, if_true]
      have herr := Store.RemoveInstance_err_of_not_failing si.store svc.Name x.Name (hf _ _)
      rcases hrem : si.store.RemoveInstance svc.Name x.Name with ⟨st, err⟩
      rw [hrem] at herr
      simp only at herr
      subst herr
      simp only
      have hst : st.failing = si.store.failing := by
        have := Store.failing_RemoveInstance si.store svc.Name x.Name
        rw [hrem] at this
        exact this
      obtain ⟨si2, h1, h2⟩ := ih ({ si with store := st } : Flux.syncInstances)
        (fun k call => by simp only [hst]; exact hf k call)
      exact ⟨si2, h1, h2.trans hst⟩
    · simp only [hc]
      exact ih si hf

theorem Store.GetService_cases (st : Store) (name : String)
    (hf : ∀ k call, st.failing k call = false) :
    (∃ tbl, st.services.lookup name = some tbl ∧
      st.GetService name =
        ({ st with calls := st.calls ++ [StoreCall.GetService name] },
         .ok { Name := name, Service := ⟨0⟩, Instances := Store.instanceInfos tbl,
               ContainerRules := [] })) ∨
    (st.services.lookup name = none ∧
      st.GetService name =
        ({ st with calls := st.calls ++ [StoreCall.GetService name] },
         .error (.notFound name))) := by
  unfold Store.GetService Store.issue
  rw [hf]
  cases hl : st.services.lookup name with
  | none => exact Or.inr ⟨rfl, rfl⟩
  | some tbl => exact Or.inl ⟨tbl, rfl, rfl⟩

theorem recomputed_congr (lib : GoLib) (si si1 : Flux.syncInstances) (info : ServiceInfo)
    (set : instanceSet) (entries : List (Sigma (fun _ : String => Option Container)))
    (h1 : si1.hostIP = si.hostIP) (h2 : si1.network = si.network)
    (h3 : ∀ n, si1.store.record info.Name n = si.store.record info.Name n)
    (h : recomputed lib si info set entries) : recomputed lib si1 info set entries := by
  obtain ⟨a1, a2, a3, a4⟩ := h
  have hreg : ∀ c, registrationOf lib si1 info.Service c info.ContainerRules =
      registrationOf lib si info.Service c info.ContainerRules :=
    fun c => registrationOf_congr lib si si1 h1 h2 _ _ _
  refine ⟨?_, ?_, ?_, ?_⟩
  · intro e he
    rw [hreg]; exact a1 e he
  · intro e he n inst hr
    rw [hreg] at hr
    rw [h3]; exact a2 e he n inst hr
  · intro n hn
    obtain ⟨e, he, inst, hr⟩ := a3 n hn
    exact ⟨e, he, inst, by rw [hreg]; exact hr⟩
  · intro n inst hr hn
    rw [h3] at hr
    have := a4 n inst hr hn
    simpa [syncInstances.owns, h1] using this

theorem service_with_set (svc : service) (set : instanceSet)
    (h : svc.localInstances = some set) :
    ({ svc with localInstances := some set } : service) = svc := by
  obtain ⟨info, s⟩ := svc
  simp only at h
  subst h
  rfl

/-- A recompute of one service, when no store call fails, leaves the state
`recomputed` for that service and touches the records of no other service. -/
theorem syncInstances_recomputed (lib : GoLib) (si : Flux.syncInstances) (svc : service)
    (cache : AList (fun _ : String => Option Container))
    (hc : si.containers = some cache) (hk : keyedByID cache.entries)
    (hf : ∀ k call, si.store.failing k call = false)
    (si1 : Flux.syncInstances) (svc1 : service) (err : Option StoreError)
    (h : si.syncInstances lib svc = .ok (si1, svc1, err)) :
    sameButStore si si1 ∧ si1.store.failing = si.store.failing ∧
    ∃ set1, svc1 = { svc with localInstances := some set1 } ∧
      recomputed lib si1 svc.ServiceInfo set1 cache.entries ∧
      (∀ s n, s ≠ svc.Name → si1.store.record s n = si.store.record s n) := by
  have hsame := syncInstances_same lib si svc si1 svc1 err h
  unfold syncInstances.syncInstances at h
  simp only [hc] at h
  rcases hx : evaluateAll lib si { svc with localInstances := some ∅ } cache.entries with
    f | ⟨sia, svca, erra⟩
  · simp [hx] at h
  · obtain ⟨a1, a2, a3, a4, set1, a5, a6, a7, a8⟩ :=
      evaluateAll_registrations lib cache.entries si { svc with localInstances := some ∅ } ∅ rfl
        hf sia svca erra hx
    subst a1
    simp only [hx] at h
    have hfa : ∀ k call, sia.store.failing k call = false := by
      intro k call; rw [a3]; exact hf k call
    have hreg : ∀ c, registrationOf lib si1 svc.ServiceInfo.Service c
        svc.ServiceInfo.ContainerRules =
        registrationOf lib si svc.ServiceInfo.Service c svc.ServiceInfo.ContainerRules :=
      fun c => registrationOf_congr lib si si1 hsame.1 hsame.2.1 _ _ _
    have hnamea : svca.Name = svc.Name := by rw [a5]; rfl
    have hmem : ∀ n, n ∈ set1 ↔ ∃ e ∈ cache.entries, ∃ inst,
        registrationOf lib si svc.ServiceInfo.Service e.2 svc.ServiceInfo.ContainerRules
          = .ok (some (n, inst)) := by
      intro n
      rw [a6 n]
      simp
    rcases Store.GetService_cases sia.store svca.Name hfa with
      ⟨tbl, htbl, hget⟩ | ⟨hnone, hget⟩
    · rw [hget] at h
      simp only at h
      obtain ⟨si2, hp, hpf⟩ := pruneLoop_total lib svca (Store.instanceInfos tbl)
        ({ sia with store := { sia.store with calls := sia.store.calls ++
            [StoreCall.GetService svca.Name] } } : Flux.syncInstances)
        (fun k call => hfa k call)
      rw [hp] at h
      simp only [Except.ok.injEq, Prod.mk.injEq] at h
      obtain ⟨h1, h2, -⟩ := h
      subst h1 h2
      obtain ⟨-, p2, p3⟩ := pruneLoop_facts lib svca (Store.instanceInfos tbl) _ si2 hp
      have hinc : ∀ n, svca.includes n = decide (n ∈ set1) := by
        intro n; rw [a5]; rfl
      have hrecg : ∀ s n, ({ sia with store := { sia.store with calls := sia.store.calls ++
            [StoreCall.GetService svca.Name] } } : Flux.syncInstances).store.record s n
            = sia.store.record s n := fun _ _ => rfl
      refine ⟨hsame, ?_, set1, a5, ⟨?_, ?_, ?_, ?_⟩, ?_⟩
      · rw [hpf]; exact a3
      · intro e he
        rw [hreg]; exact a4 e he
      · intro e he n inst hr
        rw [hreg] at hr
        have hin : n ∈ set1 := (hmem n).2 ⟨e, he, inst, hr⟩
        refine ⟨?_, hin⟩
        show si2.store.record svc.Name n = some inst
        rw [p3 svc.Name n, hrecg]
        · exact a8 cache.nodupKeys hk e he n inst hr
        · rintro ⟨-, i, -, hi, hno, -⟩
          rw [hinc] at hno
          simp [hin] at hno
      · intro n hn
        obtain ⟨e, he, inst, hr⟩ := (hmem n).1 hn
        exact ⟨e, he, inst, by rw [hreg]; exact hr⟩
      · intro n inst hr0 hn
        have hr : si2.store.record svc.Name n = some inst := hr0
        by_cases hcond : svc.Name = svca.Name ∧ ∃ i ∈ Store.instanceInfos tbl, i.Name = n ∧
            svca.includes n = false ∧
            ({ sia with store := { sia.store with calls := sia.store.calls ++
              [StoreCall.GetService svca.Name] } } : Flux.syncInstances).owns lib i.Instance = true
        · rw [p2 svc.Name n hcond] at hr
          cases hr
        · rw [p3 svc.Name n hcond, hrecg] at hr
          have hl : tbl.lookup n = some inst := by
            have : sia.store.record svca.Name n = some inst := by rw [hnamea]; exact hr
            simpa [Store.record, htbl] using this
          have hi : (⟨n, inst⟩ : InstanceInfo) ∈ Store.instanceInfos tbl :=
            (Store.mem_instanceInfos tbl ⟨n, inst⟩).2 hl
          have hinc0 : svca.includes n = false := by rw [hinc]; simp [hn]
          cases hown : si2.owns lib inst with
          | false => rfl
          | true =>
            exfalso
            apply hcond
            refine ⟨hnamea.symm, ⟨n, inst⟩, hi, rfl, hinc0, ?_⟩
            have : si2.hostIP = sia.hostIP := hsame.1.trans a2.1.symm
            simpa [syncInstances.owns, this] using hown
      · intro s n hs
        rw [p3 s n (fun hcnd => hs (hcnd.1.trans hnamea)), hrecg]
        exact a7 s n (fun hcnd => hs hcnd.1)
    · rw [hget] at h
      simp only [Except.ok.injEq, Prod.mk.injEq] at h
      obtain ⟨h1, h2, -⟩ := h
      subst h1 h2
      have hrecn : ∀ n, sia.store.record svc.Name n = none := by
        intro n
        rw [← hnamea]
        simp [Store.record, hnone]
      refine ⟨hsame, a3, set1, a5, ⟨?_, ?_, ?_, ?_⟩, ?_⟩
      · intro e he
        rw [hreg]; exact a4 e he
      · intro e he n inst hr
        rw [hreg] at hr
        have h8 : sia.store.record svc.Name n = some inst :=
          a8 cache.nodupKeys hk e he n inst hr
        rw [hrecn] at h8
        cases h8
      · intro n hn
        obtain ⟨e, he, inst, hr⟩ := (hmem n).1 hn
        exact ⟨e, he, inst, by rw [hreg]; exact hr⟩
      · intro n inst hr
        have : sia.store.record svc.Name n = some inst := hr
        rw [hrecn] at this
        cases this
      · intro s n hs
        exact a7 s n (fun hcnd => hs hcnd.1)

/-- A recompute of a service in a state that is already `recomputed` for it returns
the same matched set and leaves every record as it is. -/
theorem syncInstances_of_recomputed (lib : GoLib) (si : Flux.syncInstances) (svc : service)
    (cache : AList (fun _ : String => Option Container)) (set : instanceSet)
    (hc : si.containers = some cache) (hk : keyedByID cache.entries)
    (hf : ∀ k call, si.store.failing k call = false)
    (hrec : recomputed lib si svc.ServiceInfo set cache.entries) :
    ∃ si2 err, si.syncInstances lib svc = .ok (si2, { svc with localInstances := some set }, err) ∧
      sameButStore si si2 ∧ si2.store.failing = si.store.failing ∧
      ∀ s n, si2.store.record s n = si.store.record s n := by
  obtain ⟨r1, r2, r3, r4⟩ := hrec
  obtain ⟨sia, svca, hx⟩ := evaluateAll_total lib cache.entries si
    { svc with localInstances := some ∅ } ∅ rfl hf r1
  obtain ⟨-, a2, a3, -, set1, a5, a6, a7, a8⟩ :=
    evaluateAll_registrations lib cache.entries si { svc with localInstances := some ∅ } ∅ rfl
      hf sia svca none hx
  have hset : set1 = set := by
    apply Finset.ext
    intro n
    rw [a6 n]
    constructor
    · rintro (h0 | ⟨e, he, inst, hr⟩)
      · simp at h0
      · exact (r2 e he n inst hr).2
    · intro hn
      exact Or.inr (r3 n hn)
  subst hset
  have hfa : ∀ k call, sia.store.failing k call = false := by
    intro k call; rw [a3]; exact hf k call
  have hnamea : svca.Name = svc.Name := by rw [a5]; rfl
  have hreca : ∀ s n, sia.store.record s n = si.store.record s n := by
    intro s n
    by_cases hw : s = svc.Name ∧ ∃ e ∈ cache.entries, ∃ inst,
        registrationOf lib si svc.ServiceInfo.Service e.2 svc.ServiceInfo.ContainerRules
          = .ok (some (n, inst))
    · obtain ⟨hs, e, he, inst, hr⟩ := hw
      subst hs
      have h8 : sia.store.record svc.Name n = some inst := a8 cache.nodupKeys hk e he n inst hr
      rw [h8]
      exact (r2 e he n inst hr).1.symm
    · exact a7 s n hw
  have hsync : si.syncInstances lib svc =
      match sia.store.GetService svca.Name with
      | (st, .error err) => .ok ({ sia with store := st }, svca, some err)
      | (st, .ok storeSvc) =>
        match pruneLoop lib { sia with store := st } svca storeSvc.Instances with
        | (si2, err) => .ok (si2, svca, err) := by
    unfold syncInstances.syncInstances
    simp only [hc, hx]
  rw [hsync]
  rcases Store.GetService_cases sia.store svca.Name hfa with
    ⟨tbl, htbl, hget⟩ | ⟨hnone, hget⟩
  · rw [hget]
    simp only
    obtain ⟨si2, hp, hpf⟩ := pruneLoop_total lib svca (Store.instanceInfos tbl)
      ({ sia with store := { sia.store with calls := sia.store.calls ++
          [StoreCall.GetService svca.Name] } } : Flux.syncInstances)
      (fun k call => hfa k call)
    rw [hp]
    obtain ⟨p1, -, p3⟩ := pruneLoop_facts lib svca (Store.instanceInfos tbl) _ si2 hp
    refine ⟨si2, none, by rw [a5], ?_, by rw [hpf]; exact a3, ?_⟩
    · exact sameButStore_compose a2
        (sameButStore_compose (show sameButStore sia
          ({ sia with store := { sia.store with calls := sia.store.calls ++
            [StoreCall.GetService svca.Name] } } : Flux.syncInstances) from
          ⟨rfl, rfl, rfl, rfl, rfl⟩) p1)
    · intro s n
      rw [p3 s n]
      · exact hreca s n
      · rintro ⟨hs, i, hi, hin, hinc, hown⟩
        have hl : tbl.lookup i.Name = some i.Instance := (Store.mem_instanceInfos tbl i).1 hi
        have hrec0 : si.store.record svc.Name n = some i.Instance := by
          rw [← hreca, ← hnamea, ← hin]
          simp [Store.record, htbl, hl]
        have hnot : n ∉ set1 := by
          rw [a5] at hinc
          simpa [service.includes] using hinc
        have hno := r4 n i.Instance hrec0 hnot
        have hh : sia.hostIP = si.hostIP := a2.1
        have : si.owns lib i.Instance = true := by
          simpa [syncInstances.owns, hh] using hown
        rw [hno] at this
        cases this
  · rw [hget]
    simp only
    refine ⟨({ sia with store := { sia.store with calls := sia.store.calls ++
        [StoreCall.GetService svca.Name] } } : Flux.syncInstances),
      some (StoreError.notFound svca.Name), by rw [a5], ?_, a3, fun s n => hreca s n⟩
    exact sameButStore_compose a2 ⟨rfl, rfl, rfl, rfl, rfl⟩

theorem sameState_refl (a : Flux.syncInstances) : sameState a a :=
  ⟨rfl, rfl, rfl, rfl, rfl, fun _ _ => rfl⟩

theorem sameState_compose {a b c : Flux.syncInstances} (h1 : sameState a b)
    (h2 : sameState b c) : sameState a c :=
  ⟨h2.1.trans h1.1, h2.2.1.trans h1.2.1, h2.2.2.1.trans h1.2.2.1,
    h2.2.2.2.1.trans h1.2.2.2.1, h2.2.2.2.2.1.trans h1.2.2.2.2.1,
    fun s n => (h2.2.2.2.2.2 s n).trans (h1.2.2.2.2.2 s n)⟩

theorem sameContents_of_sameState {a b : Flux.syncInstances} (h : sameState a b) :
    sameContents a b := by
  obtain ⟨-, -, h3, h4, -, h6⟩ := h
  refine ⟨h6, ?_, by rw [h4], ?_, by rw [h3]⟩
  · intro k; simp only [syncInstances.containerAt, h4]
  · intro name; simp only [syncInstances.serviceAt, h3]

theorem putService_self (si : Flux.syncInstances) (name : String) (svc : service)
    (h : si.serviceAt name = some svc) : si.putService name svc = si := by
  obtain ⟨hostIP, network, store, errs, services, containers⟩ := si
  cases services with
  | none => simp [syncInstances.serviceAt] at h
  | some tbl =>
    have hl : tbl.lookup name = some svc := by simpa [syncInstances.serviceAt] using h
    have hmem : Sigma.mk name svc ∈ tbl.entries := AList.mem_lookup_iff.1 hl
    have hrep : tbl.replace name svc = tbl := by
      apply AList.ext
      exact List.kreplace_self tbl.nodupKeys hmem
    simp only [syncInstances.putService, Option.map_some', hrep]

theorem resetLoop_of_nil_cache (lib : GoLib) (l : List (Sigma (fun _ : String => service)))
    (si : Flux.syncInstances) (hc : si.containers = none)
    (hag : ∀ e ∈ l, si.serviceAt e.1 = some e.2) :
    resetLoop lib si l = .ok si := by
  induction l with
  | nil => rfl
  | cons e rest ih =>
    rw [resetLoop, syncInstances_of_nil_cache lib si e.2 hc]
    simp only
    rw [putService_self si e.1 e.2 (hag e (by simp))]
    exact ih (fun x hx => hag x (by simp [hx]))

/-- A Reset pass over services that are all `recomputed` changes nothing but the
error sink and the call log. -/
theorem resetLoop_of_recomputed (lib : GoLib) (l : List (Sigma (fun _ : String => service)))
    (si : Flux.syncInstances) (cache : AList (fun _ : String => Option Container))
    (hc : si.containers = some cache) (hk : keyedByID cache.entries)
    (hf : ∀ k call, si.store.failing k call = false)
    (hag : ∀ e ∈ l, si.serviceAt e.1 = some e.2)
    (hrec : ∀ e ∈ l, ∃ set, e.2.localInstances = some set ∧
      recomputed lib si e.2.ServiceInfo set cache.entries) :
    ∃ si2, resetLoop lib si l = .ok si2 ∧ sameState si si2 := by
  induction l generalizing si with
  | nil => exact ⟨si, rfl, sameState_refl si⟩
  | cons e rest ih =>
    obtain ⟨set, hset, hr⟩ := hrec e (by simp)
    obtain ⟨sia, err, hx, ⟨s1, s2, -, s4, s5⟩, hfa, hra⟩ :=
      syncInstances_of_recomputed lib si e.2 cache set hc hk hf hr
    rw [service_with_set e.2 set hset] at hx
    rw [resetLoop, hx]
    simp only
    have hat : sia.serviceAt e.1 = some e.2 := by
      have := hag e (by simp)
      simpa [syncInstances.serviceAt, s4] using this
    rw [putService_self sia e.1 e.2 hat]
    have hstep : sameState si ({ sia with errs := Post sia.errs err } : Flux.syncInstances) :=
      ⟨s1, s2, s4, s5, hfa, hra⟩
    obtain ⟨si2, h2, hs2⟩ := ih ({ sia with errs := Post sia.errs err } : Flux.syncInstances)
      (by simp only [s5, hc])
      (fun k call => by simp only [hfa]; exact hf k call)
      (fun x hx => by
        have := hag x (by simp [hx])
        simpa [syncInstances.serviceAt, s4] using this)
      (fun x hx => by
        obtain ⟨setx, hsx, hrx⟩ := hrec x (by simp [hx])
        exact ⟨setx, hsx, recomputed_congr lib si _ _ _ _ s1 s2 (fun n => hra _ n) hrx⟩)
    exact ⟨si2, h2, sameState_compose hstep hs2⟩

/-- A Reset pass, when no store call fails, leaves every service of the table
`recomputed` against the cache. -/
theorem resetLoop_recomputed (lib : GoLib) (l : List (Sigma (fun _ : String => service)))
    (si : Flux.syncInstances) (cache : AList (fun _ : String => Option Container))
    (hc : si.containers = some cache) (hk : keyedByID cache.entries)
    (hf : ∀ k call, si.store.failing k call = false)
    (nd : l.NodupKeys)
    (hag : ∀ e ∈ l, si.serviceAt e.1 = some e.2)
    (hnames : ∀ e ∈ l, e.2.Name = e.1)
    (si1 : Flux.syncInstances) (h : resetLoop lib si l = .ok si1) :
    si1.containers = some cache ∧ si1.hostIP = si.hostIP ∧ si1.network = si.network ∧
    si1.store.failing = si.store.failing ∧
    (∀ e ∈ l, ∃ set, si1.serviceAt e.1 = some { e.2 with localInstances := some set } ∧
      recomputed lib si1 e.2.ServiceInfo set cache.entries) ∧
    (∀ name, name ∉ l.keys → si1.serviceAt name = si.serviceAt name) ∧
    (∀ s n, s ∉ l.keys → si1.store.record s n = si.store.record s n) ∧
    si1.services.isSome = si.services.isSome := by
  induction l generalizing si with
  | nil =>
    simp only [resetLoop, Except.ok.injEq] at h
    subst h
    exact ⟨hc, rfl, rfl, rfl, by simp, fun _ _ => rfl, fun _ _ _ => rfl, rfl⟩
  | cons e rest ih =>
    obtain ⟨hnotin, ndrest⟩ := List.nodupKeys_cons.1 nd
    rw [resetLoop] at h
    rcases hx : si.syncInstances lib e.2 with f | ⟨sia, svca, err⟩
    · simp [hx] at h
    · simp only [hx] at h
      obtain ⟨⟨s1, s2, -, s4, s5⟩, hfa, set1, hsvca, hreca, hframe⟩ :=
        syncInstances_recomputed lib si e.2 cache hc hk hf sia svca err hx
      have hname : e.2.Name = e.1 := hnames e (by simp)
      have hat : sia.serviceAt e.1 = some e.2 := by
        have := hag e (by simp)
        simpa [syncInstances.serviceAt, s4] using this
      have hput : (sia.putService e.1 svca).serviceAt e.1 = some svca := by
        rw [serviceAt_putService_self, hat]; rfl
      have hputne : ∀ name, name ≠ e.1 →
          (sia.putService e.1 svca).serviceAt name = si.serviceAt name := by
        intro name hne
        rw [serviceAt_putService_ne _ _ _ _ hne]
        simp only [syncInstances.serviceAt, s4]
      obtain ⟨b1, b2, b3, b4, b5, b6, b7, b8⟩ :=
        ih ({ sia.putService e.1 svca with errs := Post sia.errs err } : Flux.syncInstances)
          (by show sia.containers = some cache; rw [s5]; exact hc)
          (fun k call => by
            show sia.store.failing k call = false
            rw [hfa]; exact hf k call)
          ndrest
          (fun x hx => by
            show (sia.putService e.1 svca).serviceAt x.1 = some x.2
            rw [hputne x.1 (fun heq => hnotin (heq ▸ List.mem_keys_of_mem hx))]
            exact hag x (by simp [hx]))
          (fun x hx => hnames x (by simp [hx])) h
      have hkeys : ∀ name, name ∉ (e :: rest).keys → name ≠ e.1 ∧ name ∉ rest.keys := by
        intro name hn
        have hn2 : name ∉ e.1 :: rest.keys := hn
        exact ⟨fun heq => hn2 (by simp [heq]), fun hm => hn2 (List.mem_cons_of_mem _ hm)⟩
      refine ⟨b1, b2.trans s1, b3.trans s2, b4.trans hfa, ?_, ?_, ?_, ?_⟩
      · intro x hx
        rcases List.mem_cons.1 hx with h0 | h0
        · subst h0
          refine ⟨set1, ?_, ?_⟩
          · rw [b6 x.1 hnotin, ← hsvca]
            exact hput
          · apply recomputed_congr lib sia si1 _ _ _ (b2.trans rfl) (b3.trans rfl) _ hreca
            intro n
            have : x.2.ServiceInfo.Name = x.1 := hname
            rw [this]
            exact b7 x.1 n hnotin
        · exact b5 x h0
      · intro name hn
        obtain ⟨h1, h2⟩ := hkeys name hn
        rw [b6 name h2]
        exact hputne name h1
      · intro s n hs
        obtain ⟨h1, h2⟩ := hkeys s hs
        rw [b7 s n h2]
        exact hframe s n (by rw [hname]; exact h1)
      · rw [b8]
        show (sia.services.map _).isSome = _
        rw [s4]; simp

theorem state_with_containers (si : Flux.syncInstances)
    (c : Option (AList (fun _ : String => Option Container))) (h : si.containers = c) :
    ({ si with containers := c } : Flux.syncInstances) = si := by
  obtain ⟨hostIP, network, store, errs, services, containers⟩ := si
  simp only at h
  subst h
  rfl

/-- Idempotence of a Reset container update. -/
theorem processContainerUpdate_reset_twice (lib : GoLib) (si si1 : Flux.syncInstances)
    (update : ContainerUpdate) (hreset : update.Reset = true)
    (hf : ∀ k call, si.store.failing k call = false)
    (hnames : ∀ name svc, si.serviceAt name = some svc → svc.Name = name)
    (hk : ∀ upd, update.Containers = some upd → keyedByID upd.entries)
    (h : si.processContainerUpdate lib update = .ok si1) :
    ∃ si2, si1.processContainerUpdate lib update = .ok si2 ∧ sameState si1 si2 := by
  obtain ⟨hostIP, network, store, errs, services, containers⟩ := si
  unfold syncInstances.processContainerUpdate at h ⊢
  simp only [hreset, if_true] at h ⊢
  cases services with
  | none =>
    simp only [Except.ok.injEq] at h
    subst h
    exact ⟨_, rfl, sameState_refl _⟩
  | some tbl =>
    simp only at h
    have hag : ∀ e ∈ tbl.entries,
        (⟨hostIP, network, store, errs, some tbl, update.Containers⟩ :
          Flux.syncInstances).serviceAt e.1 = some e.2 :=
      fun e he => entries_serviceAt _ tbl rfl e he
    cases hu : update.Containers with
    | none =>
      rw [hu] at h hag
      rw [resetLoop_of_nil_cache lib tbl.entries _ rfl hag] at h
      simp only [Except.ok.injEq] at h
      subst h
      exact ⟨_, resetLoop_of_nil_cache lib tbl.entries _ rfl hag, sameState_refl _⟩
    | some upd =>
      rw [hu] at h hag
      have hku := hk upd hu
      obtain ⟨b1, b2, b3, b4, b5, b6, -, b8⟩ := resetLoop_recomputed lib tbl.entries
        (⟨hostIP, network, store, errs, some tbl, some upd⟩ : Flux.syncInstances) upd rfl hku
        (fun k call => hf k call) tbl.nodupKeys hag
        (fun e he => hnames e.1 e.2 (entries_serviceAt _ tbl rfl e he)) si1 h
      have hst : (⟨si1.hostIP, si1.network, si1.store, si1.errs, si1.services, some upd⟩ :
          Flux.syncInstances) = si1 := state_with_containers si1 (some upd) b1
      rw [hst]
      cases hs1 : si1.services with
      | none =>
        rw [hs1] at b8
        cases b8
      | some tbl1 =>
        simp only
        apply resetLoop_of_recomputed lib tbl1.entries si1 upd b1 hku
          (fun k call => by rw [b4]; exact hf k call)
          (fun e he => entries_serviceAt si1 tbl1 hs1 e he)
        intro e1 he1
        have hat1 := entries_serviceAt si1 tbl1 hs1 e1 he1
        by_cases hmem : e1.1 ∈ tbl.entries.keys
        · obtain ⟨v, hv⟩ := List.exists_of_mem_keys hmem
          obtain ⟨set, hsv, hrec⟩ := b5 ⟨e1.1, v⟩ hv
          simp only at hsv hrec
          rw [hat1] at hsv
          simp only [Option.some.injEq] at hsv
          refine ⟨set, by rw [hsv], ?_⟩
          rw [hsv]
          exact hrec
        · have := b6 e1.1 hmem
          rw [hat1] at this
          have hnone : (⟨hostIP, network, store, errs, some tbl, some upd⟩ :
              Flux.syncInstances).serviceAt e1.1 = none := by
            show tbl.lookup e1.1 = none
            exact AList.lookup_eq_none.2 hmem
          rw [hnone] at this
          cases this

theorem redefineService_total (si : Flux.syncInstances) (svcInfo : ServiceInfo)
    (hs : si.services ≠ none) : ∃ si1 svc, si.redefineService svcInfo = .ok (si1, svc) := by
  unfold syncInstances.redefineService
  cases htbl : si.services with
  | none => exact absurd htbl hs
  | some tbl =>
    simp only
    cases tbl.lookup svcInfo.Name with
    | none => exact ⟨_, _, rfl⟩
    | some svc => exact ⟨_, _, rfl⟩

theorem serviceAt_erase_self (si : Flux.syncInstances) (key : String) :
    ({ si with services := si.services.map (fun tbl => tbl.erase key) } :
      Flux.syncInstances).serviceAt key = none := by
  unfold syncInstances.serviceAt
  cases hs : si.services with
  | none => rfl
  | some tbl =>
    show (AList.erase key tbl).lookup key = none
    exact AList.lookup_erase key tbl

theorem serviceAt_erase_ne (si : Flux.syncInstances) (key name : String) (h : name ≠ key) :
    ({ si with services := si.services.map (fun tbl => tbl.erase key) } :
      Flux.syncInstances).serviceAt name = si.serviceAt name := by
  unfold syncInstances.serviceAt
  cases hs : si.services with
  | none => rfl
  | some tbl =>
    show (AList.erase key tbl).lookup name = tbl.lookup name
    exact AList.lookup_erase_ne h

/-- A pass over the entries of a service update, when no store call fails, leaves
every defined service `recomputed` and every name whose removal took effect absent. -/
theorem serviceLoop_recomputed (lib : GoLib)
    (l : List (Sigma (fun _ : String => Option ServiceInfo)))
    (si : Flux.syncInstances) (cache : AList (fun _ : String => Option Container))
    (hc : si.containers = some cache) (hk : keyedByID cache.entries)
    (hf : ∀ k call, si.store.failing k call = false)
    (nd : l.NodupKeys)
    (hkeys : ∀ e ∈ l, ∀ info, e.2 = some info → info.Name = e.1)
    (si1 : Flux.syncInstances) (h : serviceLoop lib si l = .ok si1) :
    si1.containers = some cache ∧ si1.hostIP = si.hostIP ∧ si1.network = si.network ∧
    si1.store.failing = si.store.failing ∧
    (si.services ≠ none → si1.services ≠ none) ∧
    (∀ e ∈ l, ∀ info, e.2 = some info → ∃ set,
      si1.serviceAt e.1 = some { ServiceInfo := info, localInstances := some set } ∧
      recomputed lib si1 info set cache.entries) ∧
    (∀ e ∈ l, e.2 = none → (cache.lookup e.1).join ≠ none → si1.serviceAt e.1 = none) ∧
    (∀ e ∈ l, e.2 = none → (cache.lookup e.1).join = none →
      si1.serviceAt e.1 = si.serviceAt e.1) ∧
    (∀ name, name ∉ l.keys → si1.serviceAt name = si.serviceAt name) ∧
    (∀ s n, s ∉ l.keys → si1.store.record s n = si.store.record s n) := by
  induction l generalizing si with
  | nil =>
    simp only [serviceLoop, Except.ok.injEq] at h
    subst h
    exact ⟨hc, rfl, rfl, rfl, id, by simp, by simp, by simp, fun _ _ => rfl, fun _ _ _ => rfl⟩
  | cons e rest ih =>
    obtain ⟨key, val⟩ := e
    obtain ⟨hnotin, ndrest⟩ := List.nodupKeys_cons.1 nd
    simp only at hnotin
    have hkeysrest : ∀ x ∈ rest, ∀ info, x.2 = some info → info.Name = x.1 :=
      fun x hx => hkeys x (by simp [hx])
    have hsplit : ∀ name, name ∉ (⟨key, val⟩ :: rest : List (Sigma _)).keys →
        name ≠ key ∧ name ∉ rest.keys := by
      intro name hn
      have hn2 : name ∉ key :: rest.keys := hn
      exact ⟨fun heq => hn2 (by simp [heq]), fun hm => hn2 (List.mem_cons_of_mem _ hm)⟩
    have hne : ∀ x ∈ rest, x.1 ≠ key :=
      fun x hx heq => hnotin (heq ▸ List.mem_keys_of_mem hx)
    rw [serviceLoop] at h
    cases val with
    | some svcInfo =>
      have hkey : svcInfo.Name = key := hkeys ⟨key, some svcInfo⟩ (by simp) svcInfo rfl
      simp only at h
      rcases hred : si.redefineService svcInfo with f | ⟨sia, svc⟩
      · simp [hred] at h
      · simp only [hred] at h
        obtain ⟨r1, -, r3, r4, r5, r6, r7, r8, r9, -, r11⟩ :=
          redefineService_facts si sia svcInfo svc hred
        rcases hx : sia.syncInstances lib svc with f | ⟨sib, svcb, err⟩
        · simp [hx] at h
        · simp only [hx] at h
          obtain ⟨⟨s1, s2, -, s4, s5⟩, hfb, set1, hsvcb, hrecb, hframe⟩ :=
            syncInstances_recomputed lib sia svc cache (by rw [r3]; exact hc) hk
              (fun k call => by rw [r1]; exact hf k call) sib svcb err hx
          have hsvcb2 : svcb = { ServiceInfo := svcInfo, localInstances := some set1 } := by
            rw [hsvcb, r9]
          have hput : (sib.putService svcInfo.Name svcb).serviceAt key = some svcb := by
            rw [hkey, serviceAt_putService_self]
            have : sib.serviceAt key = some svc := by
              rw [← hkey, ← r8]
              simp only [syncInstances.serviceAt, s4]
            rw [this]; rfl
          have hputne : ∀ name, name ≠ key →
              (sib.putService svcInfo.Name svcb).serviceAt name = si.serviceAt name := by
            intro name hn
            rw [hkey, serviceAt_putService_ne _ _ _ _ hn, ← r11 name (by rw [hkey]; exact hn)]
            simp only [syncInstances.serviceAt, s4]
          obtain ⟨b1, b2, b3, b4, b5, b6, b7, b8, b9, b10⟩ :=
            ih ({ sib.putService svcInfo.Name svcb with errs := Post sib.errs err } :
                Flux.syncInstances)
              (by show sib.containers = some cache; rw [s5, r3]; exact hc)
              (fun k call => by
                show sib.store.failing k call = false
                rw [hfb, r1]; exact hf k call)
              ndrest hkeysrest h
          have hcfg1 : si1.hostIP = si.hostIP := b2.trans (s1.trans r4)
          have hcfg2 : si1.network = si.network := b3.trans (s2.trans r5)
          refine ⟨b1, hcfg1, hcfg2, (b4.trans hfb).trans (by rw [r1]), ?_, ?_, ?_, ?_, ?_, ?_⟩
          · intro _
            apply b5
            show sib.services.map _ ≠ none
            rw [s4]
            cases hq : sia.services with
            | none => exact absurd hq r7
            | some tbl => simp
          · intro x hx info hinfo
            rcases List.mem_cons.1 hx with h0 | h0
            · subst h0
              simp only [Option.some.injEq] at hinfo
              subst hinfo
              refine ⟨set1, ?_, ?_⟩
              · show si1.serviceAt key = _
                rw [b9 key hnotin, ← hsvcb2]
                exact hput
              · have hrecb2 : recomputed lib sib svcInfo set1 cache.entries := by
                  rw [← r9]; exact hrecb
                apply recomputed_congr lib sib si1 _ _ _ (b2.trans rfl) (b3.trans rfl) _ hrecb2
                intro n
                rw [hkey]
                exact b10 key n hnotin
            · exact b6 x h0 info hinfo
          · intro x hx hnil hcached
            rcases List.mem_cons.1 hx with h0 | h0
            · subst h0; cases hnil
            · exact b7 x h0 hnil hcached
          · intro x hx hnil hcached
            rcases List.mem_cons.1 hx with h0 | h0
            · subst h0; cases hnil
            · rw [b8 x h0 hnil hcached]
              exact hputne x.1 (hne x h0)
          · intro name hn
            obtain ⟨h1, h2⟩ := hsplit name hn
            rw [b9 name h2]
            exact hputne name h1
          · intro s n hs
            obtain ⟨h1, h2⟩ := hsplit s hs
            rw [b10 s n h2]
            show sib.store.record s n = _
            rw [hframe s n (by
              show s ≠ svc.ServiceInfo.Name
              rw [r9, hkey]; exact h1), r1]
    | none =>
      simp only at h
      cases hfound : (si.containers.bind (fun tbl => tbl.lookup key)).join with
      | none =>
        simp only [hfound] at h
        have hfound2 : (cache.lookup key).join = none := by
          rw [hc] at hfound; exact hfound
        obtain ⟨b1, b2, b3, b4, b5, b6, b7, b8, b9, b10⟩ := ih si hc hf ndrest hkeysrest h
        refine ⟨b1, b2, b3, b4, b5, ?_, ?_, ?_, ?_, ?_⟩
        · intro x hx info hinfo
          rcases List.mem_cons.1 hx with h0 | h0
          · subst h0; cases hinfo
          · exact b6 x h0 info hinfo
        · intro x hx hnil hcached
          rcases List.mem_cons.1 hx with h0 | h0
          · subst h0; exact absurd hfound2 hcached
          · exact b7 x h0 hnil hcached
        · intro x hx hnil hcached
          rcases List.mem_cons.1 hx with h0 | h0
          · subst h0; exact b9 key hnotin
          · exact b8 x h0 hnil hcached
        · intro name hn
          exact b9 name (hsplit name hn).2
        · intro s n hs
          exact b10 s n (hsplit s hs).2
      | some cont =>
        simp only [hfound] at h
        obtain ⟨b1, b2, b3, b4, b5, b6, b7, b8, b9, b10⟩ :=
          ih ({ si with services := si.services.map (fun tbl => tbl.erase key) } :
              Flux.syncInstances) hc hf ndrest hkeysrest h
        refine ⟨b1, b2, b3, b4, ?_, ?_, ?_, ?_, ?_, ?_⟩
        · intro hsn
          apply b5
          show si.services.map _ ≠ none
          cases hq : si.services with
          | none => exact absurd hq hsn
          | some tbl => simp
        · intro x hx info hinfo
          rcases List.mem_cons.1 hx with h0 | h0
          · subst h0; cases hinfo
          · exact b6 x h0 info hinfo
        · intro x hx hnil hcached
          rcases List.mem_cons.1 hx with h0 | h0
          · subst h0
            show si1.serviceAt key = none
            rw [b9 key hnotin]
            exact serviceAt_erase_self si key
          · exact b7 x h0 hnil hcached
        · intro x hx hnil hcached
          rcases List.mem_cons.1 hx with h0 | h0
          · subst h0
            have hfound2 : (cache.lookup key).join = some cont := by
              rw [hc] at hfound; exact hfound
            simp only at hcached
            rw [hfound2] at hcached
            cases hcached
          · rw [b8 x h0 hnil hcached]
            exact serviceAt_erase_ne si key x.1 (hne x h0)
        · intro name hn
          obtain ⟨h1, h2⟩ := hsplit name hn
          rw [b9 name h2]
          exact serviceAt_erase_ne si key name h1
        · intro s n hs
          exact b10 s n (hsplit s hs).2

/-- A pass over the entries of a service update in a state whose store is already
`recomputed` for every defined service rebuilds the table `refAt` and leaves every
record as it is. -/
theorem serviceLoop_of_recomputed (lib : GoLib)
    (l : List (Sigma (fun _ : String => Option ServiceInfo)))
    (si : Flux.syncInstances) (cache : AList (fun _ : String => Option Container))
    (refAt : String → Option service)
    (hc : si.containers = some cache) (hk : keyedByID cache.entries)
    (hf : ∀ k call, si.store.failing k call = false)
    (hs : si.services ≠ none) (nd : l.NodupKeys)
    (hkeys : ∀ e ∈ l, ∀ info, e.2 = some info → info.Name = e.1)
    (ha : ∀ name, (¬ ∃ e ∈ l, e.1 = name ∧ e.2.isSome = true) → si.serviceAt name = refAt name)
    (hb : ∀ e ∈ l, ∀ info, e.2 = some info → ∃ set,
      refAt e.1 = some { ServiceInfo := info, localInstances := some set } ∧
      recomputed lib si info set cache.entries)
    (hn : ∀ e ∈ l, e.2 = none → (cache.lookup e.1).join ≠ none → si.serviceAt e.1 = none) :
    ∃ si2, serviceLoop lib si l = .ok si2 ∧ (∀ name, si2.serviceAt name = refAt name) ∧
      si2.containers = si.containers ∧ si2.services ≠ none ∧
      ∀ s n, si2.store.record s n = si.store.record s n := by
  induction l generalizing si with
  | nil =>
    exact ⟨si, rfl, fun name => ha name (by simp), rfl, hs, fun _ _ => rfl⟩
  | cons e rest ih =>
    obtain ⟨key, val⟩ := e
    obtain ⟨hnotin, ndrest⟩ := List.nodupKeys_cons.1 nd
    simp only at hnotin
    have hne : ∀ x ∈ rest, x.1 ≠ key :=
      fun x hx heq => hnotin (heq ▸ List.mem_keys_of_mem hx)
    have hkeysrest : ∀ x ∈ rest, ∀ info, x.2 = some info → info.Name = x.1 :=
      fun x hx => hkeys x (by simp [hx])
    rw [serviceLoop]
    cases val with
    | some svcInfo =>
      have hkey : svcInfo.Name = key := hkeys ⟨key, some svcInfo⟩ (by simp) svcInfo rfl
      obtain ⟨set, href, hrec⟩ := hb ⟨key, some svcInfo⟩ (by simp) svcInfo rfl
      simp only at href
      obtain ⟨sia, svc, hred⟩ := redefineService_total si svcInfo hs
      obtain ⟨r1, -, r3, r4, r5, r6, r7, r8, r9, -, r11⟩ :=
        redefineService_facts si sia svcInfo svc hred
      have hreca : recomputed lib sia svc.ServiceInfo set cache.entries := by
        rw [r9]
        exact recomputed_congr lib si sia _ _ _ r4 r5 (fun n => by rw [r1]) hrec
      obtain ⟨sib, err, hx, ⟨s1, s2, -, s4, s5⟩, hfb, hrb⟩ :=
        syncInstances_of_recomputed lib sia svc cache set (by rw [r3]; exact hc) hk
          (fun k call => by rw [r1]; exact hf k call) hreca
      simp only [hred, hx]
      have hput : (sib.putService svcInfo.Name { svc with localInstances := some set }).serviceAt
          key = some { ServiceInfo := svcInfo, localInstances := some set } := by
        rw [hkey, serviceAt_putService_self]
        have : sib.serviceAt key = some svc := by
          rw [← hkey, ← r8]
          simp only [syncInstances.serviceAt, s4]
        rw [this, r9]; rfl
      have hputne : ∀ name, name ≠ key →
          (sib.putService svcInfo.Name { svc with localInstances := some set }).serviceAt name
            = si.serviceAt name := by
        intro name hne
        rw [hkey, serviceAt_putService_ne _ _ _ _ hne, ← r11 name (by rw [hkey]; exact hne)]
        simp only [syncInstances.serviceAt, s4]
      have hrecs : ∀ s n, sib.store.record s n = si.store.record s n := by
        intro s n; rw [hrb s n, r1]
      obtain ⟨si2, h2, c1, c2, c3, c4⟩ :=
        ih ({ sib.putService svcInfo.Name { svc with localInstances := some set } with
              errs := Post sib.errs err } : Flux.syncInstances)
          (by show sib.containers = some cache; rw [s5, r3]; exact hc)
          (fun k call => by
            show sib.store.failing k call = false
            rw [hfb, r1]; exact hf k call)
          (by
            show sib.services.map _ ≠ none
            rw [s4]
            cases hq : sia.services with
            | none => exact absurd hq r7
            | some tbl => simp)
          ndrest hkeysrest
          (by
            intro name hno
            show (sib.putService svcInfo.Name { svc with localInstances := some set }).serviceAt
              name = refAt name
            by_cases hnk : name = key
            · subst hnk
              rw [hput, href]
            · rw [hputne name hnk]
              apply ha name
              rintro ⟨x, hx, hx1, hx2⟩
              rcases List.mem_cons.1 hx with h0 | h0
              · subst h0; exact hnk hx1.symm
              · exact hno ⟨x, h0, hx1, hx2⟩)
          (by
            intro x hx info hinfo
            obtain ⟨setx, h1, h2⟩ := hb x (by simp [hx]) info hinfo
            refine ⟨setx, h1, ?_⟩
            exact recomputed_congr lib si _ _ _ _ (s1.trans r4) (s2.trans r5)
              (fun n => hrecs _ n) h2)
          (by
            intro x hx hnil hcached
            show (sib.putService svcInfo.Name { svc with localInstances := some set }).serviceAt
              x.1 = none
            have hnk : x.1 ≠ key := hne x hx
            rw [hputne x.1 hnk]
            exact hn x (by simp [hx]) hnil hcached)
      exact ⟨si2, h2, c1, c2.trans (s5.trans r3), c3, fun s n => (c4 s n).trans (hrecs s n)⟩
    | none =>
      simp only
      cases hfound : (si.containers.bind (fun tbl => tbl.lookup key)).join with
      | none =>
        simp only
        apply ih si hc hf hs ndrest hkeysrest
        · intro name hno
          apply ha name
          rintro ⟨x, hx, hx1, hx2⟩
          rcases List.mem_cons.1 hx with h0 | h0
          · subst h0; cases hx2
          · exact hno ⟨x, h0, hx1, hx2⟩
        · exact fun x hx => hb x (by simp [hx])
        · exact fun x hx => hn x (by simp [hx])
      | some cont =>
        simp only
        have hcached : (cache.lookup key).join ≠ none := by
          rw [hc] at hfound
          intro h0
          have : (cache.lookup key).join = some cont := hfound
          rw [h0] at this
          cases this
        have hnone : si.serviceAt key = none := hn ⟨key, none⟩ (by simp) rfl hcached
        have hsame : ∀ name, ({ si with services := si.services.map (fun tbl => tbl.erase key) } :
            Flux.syncInstances).serviceAt name = si.serviceAt name := by
          intro name
          by_cases hnk : name = key
          · subst hnk
            rw [serviceAt_erase_self, hnone]
          · exact serviceAt_erase_ne si key name hnk
        obtain ⟨si2, h2, c1, c2, c3, c4⟩ :=
          ih ({ si with services := si.services.map (fun tbl => tbl.erase key) } :
              Flux.syncInstances) hc hf
            (by
              show si.services.map _ ≠ none
              cases hq : si.services with
              | none => exact absurd hq hs
              | some tbl => simp)
            ndrest hkeysrest
            (by
              intro name hno
              rw [hsame name]
              apply ha name
              rintro ⟨x, hx, hx1, hx2⟩
              rcases List.mem_cons.1 hx with h0 | h0
              · subst h0; cases hx2
              · exact hno ⟨x, h0, hx1, hx2⟩)
            (fun x hx info hinfo => by
              obtain ⟨setx, h1, h2⟩ := hb x (by simp [hx]) info hinfo
              exact ⟨setx, h1, recomputed_congr lib si _ _ _ _ rfl rfl (fun _ => rfl) h2⟩)
            (fun x hx hnil hcx => by
              rw [hsame x.1]
              exact hn x (by simp [hx]) hnil hcx)
        exact ⟨si2, h2, c1, c2, c3, c4⟩

/-- Idempotence of a service update, Reset or incremental. -/
theorem processServiceUpdate_twice (lib : GoLib) (si si1 : Flux.syncInstances)
    (update : ServiceUpdate) (cache : AList (fun _ : String => Option Container))
    (hc : si.containers = some cache) (hk : keyedByID cache.entries)
    (hs : si.services ≠ none)
    (hf : ∀ k call, si.store.failing k call = false)
    (hkeys : ∀ e ∈ update.Services.entries, ∀ info, e.2 = some info → info.Name = e.1)
    (h : si.processServiceUpdate lib update = .ok si1) :
    ∃ si2, si1.processServiceUpdate lib update = .ok si2 ∧ sameContents si1 si2 := by
  unfold syncInstances.processServiceUpdate at h ⊢
  have hpost : ∀ si0 : Flux.syncInstances, si0.containers = some cache →
      (∀ k call, si0.store.failing k call = false) → si0.services ≠ none →
      serviceLoop lib si0 update.Services.entries = .ok si1 →
      ∀ si1a : Flux.syncInstances, si1a.containers = si1.containers →
        si1a.hostIP = si1.hostIP → si1a.network = si1.network → si1a.store = si1.store →
        si1a.services ≠ none →
        (∀ name, (¬ ∃ e ∈ update.Services.entries, e.1 = name ∧ e.2.isSome = true) →
          si1a.serviceAt name = si1.serviceAt name) →
        (∀ e ∈ update.Services.entries, e.2 = none → (cache.lookup e.1).join ≠ none →
          si1a.serviceAt e.1 = none) →
        ∃ si2, serviceLoop lib si1a update.Services.entries = .ok si2 ∧
          sameContents si1 si2 := by
    intro si0 hc0 hf0 hs0 h0 si1a e1 e2 e3 e4 e5 ha hn
    obtain ⟨b1, b2, b3, b4, b5, b6, b7, b8, b9, b10⟩ :=
      serviceLoop_recomputed lib update.Services.entries si0 cache hc0 hk hf0
        update.Services.nodupKeys hkeys si1 h0
    obtain ⟨si2, h2, c1, c2, c3, c4⟩ :=
      serviceLoop_of_recomputed lib update.Services.entries si1a cache si1.serviceAt
        (by rw [e1]; exact b1) hk
        (fun k call => by rw [e4, b4]; exact hf0 k call) e5 update.Services.nodupKeys hkeys ha
        (fun e he info hinfo => by
          obtain ⟨set, k1, k2⟩ := b6 e he info hinfo
          exact ⟨set, k1, recomputed_congr lib si1 si1a _ _ _ e2 e3 (fun n => by rw [e4]) k2⟩)
        hn
    refine ⟨si2, h2, ?_, ?_, ?_, c1, ?_⟩
    · intro s n; rw [c4 s n, e4]
    · intro k; simp only [syncInstances.containerAt, c2, e1]
    · rw [c2, e1]
    · cases hq : si2.services with
      | none => exact absurd hq c3
      | some t =>
        cases hq1 : si1.services with
        | none => exact absurd hq1 (b5 hs0)
        | some t1 => rfl
  by_cases hr : update.Reset = true
  · simp only [hr, if_true] at h ⊢
    obtain ⟨b1, b2, b3, b4, b5, b6, b7, b8, b9, b10⟩ :=
      serviceLoop_recomputed lib update.Services.entries
        ({ si with services := some ∅ } : Flux.syncInstances) cache hc hk (fun k call => hf k call)
        update.Services.nodupKeys hkeys si1 h
    have hempty : ∀ (x : Flux.syncInstances) name,
        ({ x with services := some ∅ } : Flux.syncInstances).serviceAt name = none :=
      fun _ _ => rfl
    apply hpost ({ si with services := some ∅ } : Flux.syncInstances) hc
      (fun k call => hf k call) (by simp) h
      ({ si1 with services := some ∅ } : Flux.syncInstances) rfl rfl rfl rfl (by simp)
    · intro name hno
      rw [hempty]
      by_cases hmem : name ∈ update.Services.entries.keys
      · obtain ⟨v, hv⟩ := List.exists_of_mem_keys hmem
        cases v with
        | some info => exact absurd ⟨⟨name, some info⟩, hv, rfl, rfl⟩ hno
        | none =>
          by_cases hcached : (cache.lookup name).join = none
          · rw [b8 ⟨name, none⟩ hv rfl hcached, hempty]
          · rw [b7 ⟨name, none⟩ hv rfl hcached]
      · rw [b9 name hmem, hempty]
    · intro e _ _ _
      exact hempty si1 e.1
  · simp only [hr] at h ⊢
    obtain ⟨b1, b2, b3, b4, b5, b6, b7, b8, b9, b10⟩ :=
      serviceLoop_recomputed lib update.Services.entries si cache hc hk hf
        update.Services.nodupKeys hkeys si1 h
    exact hpost si hc hf hs h si1 rfl rfl rfl rfl (b5 hs) (fun _ _ => rfl)
      (fun e he hnil hcached => b7 e he hnil hcached)

/-- What `addContainer` has done when no store call fails: each service whose rules
register the container got the record and the name; nothing but records and set
members named by the container's ID changed. -/
theorem addContainerLoop_registered (lib : GoLib) (cont : Container)
    (l : List (Sigma (fun _ : String => service))) (si : Flux.syncInstances)
    (hf : ∀ k call, si.store.failing k call = false)
    (nd : l.NodupKeys)
    (hag : ∀ e ∈ l, si.serviceAt e.1 = some e.2)
    (hnames : ∀ e ∈ l, e.2.Name = e.1)
    (si1 : Flux.syncInstances) (err : Option StoreError)
    (h : addContainerLoop lib si cont l = .ok (si1, err)) :
    si1.containers = si.containers ∧ si1.hostIP = si.hostIP ∧ si1.network = si.network ∧
    si1.store.failing = si.store.failing ∧ si1.services.isSome = si.services.isSome ∧
    (∀ e ∈ l, ∃ svc1, si1.serviceAt e.1 = some svc1 ∧ svc1.ServiceInfo = e.2.ServiceInfo ∧
      (∃ r, registrationOf lib si e.2.ServiceInfo.Service (some cont)
        e.2.ServiceInfo.ContainerRules = .ok r) ∧
      (∀ n inst, registrationOf lib si e.2.ServiceInfo.Service (some cont)
          e.2.ServiceInfo.ContainerRules = .ok (some (n, inst)) →
        si1.store.record e.2.Name n = some inst ∧
        ∃ set, svc1.localInstances = some set ∧ n ∈ set) ∧
      (∀ set, e.2.localInstances = some set → ∃ set1, svc1.localInstances = some set1 ∧
        ∀ n, n ≠ cont.ID → (n ∈ set1 ↔ n ∈ set))) ∧
    (∀ name, name ∉ l.keys → si1.serviceAt name = si.serviceAt name) ∧
    (∀ s n, n ≠ cont.ID → si1.store.record s n = si.store.record s n) ∧
    (∀ s n, s ∉ l.keys → si1.store.record s n = si.store.record s n) := by
  induction l generalizing si with
  | nil =>
    simp only [addContainerLoop, Except.ok.injEq, Prod.mk.injEq] at h
    obtain ⟨h1, -⟩ := h
    subst h1
    exact ⟨rfl, rfl, rfl, rfl, rfl, by simp, fun _ _ => rfl, fun _ _ _ => rfl, fun _ _ _ => rfl⟩
  | cons e rest ih =>
    obtain ⟨hnotin, ndrest⟩ := List.nodupKeys_cons.1 nd
    have hname : e.2.Name = e.1 := hnames e (by simp)
    have hsplit : ∀ name, name ∉ (e :: rest).keys → name ≠ e.1 ∧ name ∉ rest.keys := by
      intro name hn
      have hn2 : name ∉ e.1 :: rest.keys := hn
      exact ⟨fun heq => hn2 (by simp [heq]), fun hm => hn2 (List.mem_cons_of_mem _ hm)⟩
    rw [addContainerLoop] at h
    rcases hx : si.evaluate lib (some cont) e.2 with f | ⟨sia, svca, erra⟩
    · simp [hx] at h
    · have hcases := evaluate_cases lib si (some cont) e.2 sia svca erra hf hx
      have herra : erra = none := by
        rcases hcases with ⟨-, -, -, h3⟩ | ⟨_, _, _, -, -, -, -, h3⟩ <;> exact h3
      subst herra
      simp only [hx] at h
      obtain ⟨s1, s2, -, s4, s5⟩ := evaluate_same lib si (some cont) e.2 sia svca none hx
      have hfa : sia.store.failing = si.store.failing := by
        rcases hcases with ⟨-, h1, -, -⟩ | ⟨n, inst, set, -, -, h1, -, -⟩
        · rw [h1]
        · rw [h1]; exact Store.failing_AddInstance _ _ _ _
      have hat : sia.serviceAt e.1 = some e.2 := by
        have := hag e (by simp)
        simpa [syncInstances.serviceAt, s4] using this
      have hput : (sia.putService e.1 svca).serviceAt e.1 = some svca := by
        rw [serviceAt_putService_self, hat]; rfl
      have hputne : ∀ name, name ≠ e.1 →
          (sia.putService e.1 svca).serviceAt name = si.serviceAt name := by
        intro name hne
        rw [serviceAt_putService_ne _ _ _ _ hne]
        simp only [syncInstances.serviceAt, s4]
      obtain ⟨b1, b2, b3, b4, b5, b6, b7, b8, b9⟩ :=
        ih (sia.putService e.1 svca)
          (fun k call => by
            show sia.store.failing k call = false
            rw [hfa]; exact hf k call)
          ndrest
          (fun x hx => by
            rw [hputne x.1 (fun heq => hnotin (heq ▸ List.mem_keys_of_mem hx))]
            exact hag x (by simp [hx]))
          (fun x hx => hnames x (by simp [hx])) h
      have hreg : ∀ (info : ServiceInfo),
          registrationOf lib (sia.putService e.1 svca) info.Service (some cont)
            info.ContainerRules =
          registrationOf lib si info.Service (some cont) info.ContainerRules :=
        fun info => registrationOf_congr lib si (sia.putService e.1 svca) s1 s2 _ _ _
      have hreca : ∀ s n, n ≠ cont.ID → sia.store.record s n = si.store.record s n := by
        intro s n hn
        rcases hcases with ⟨-, h1, -, -⟩ | ⟨m, inst, set, hr, -, h1, -, -⟩
        · rw [h1]
        · obtain ⟨c, hc, hid⟩ := registrationOf_name lib si _ _ _ _ _ hr
          cases hc
          rw [h1]
          exact Store.record_AddInstance_ne si.store _ _ _ s n (fun hh => hn (hh.2.trans hid.symm))
      have hrecs : ∀ s n, s ≠ e.1 → sia.store.record s n = si.store.record s n := by
        intro s n hs
        rcases hcases with ⟨-, h1, -, -⟩ | ⟨m, inst, set, hr, -, h1, -, -⟩
        · rw [h1]
        · rw [h1]
          exact Store.record_AddInstance_ne si.store _ _ _ s n
            (fun hh => hs (hh.1.trans hname))
      refine ⟨b1.trans s5, b2.trans s1, b3.trans s2, b4.trans hfa, ?_, ?_, ?_, ?_, ?_⟩
      · rw [b5]
        show (sia.services.map _).isSome = _
        rw [s4]; simp
      · intro x hx
        rcases List.mem_cons.1 hx with h0 | h0
        · subst h0
          refine ⟨svca, by rw [b7 x.1 hnotin]; exact hput, ?_, ?_, ?_, ?_⟩
          · rcases hcases with ⟨-, -, h2, -⟩ | ⟨n, inst, set, -, -, -, h2, -⟩ <;> rw [h2]
          · rcases hcases with ⟨hr, -, -, -⟩ | ⟨n, inst, set, hr, -, -, -, -⟩
            · exact ⟨_, hr⟩
            · exact ⟨_, hr⟩
          · intro n inst hr
            rcases hcases with ⟨hr0, -, -, -⟩ | ⟨m, inst0, set, hr0, hs0, h1, h2, -⟩
            · rw [hr0] at hr; cases hr
            · rw [hr0] at hr
              simp only [Except.ok.injEq, Option.some.injEq, Prod.mk.injEq] at hr
              obtain ⟨hm, hi⟩ := hr
              subst hm hi
              refine ⟨?_, insert m set, by rw [h2], Finset.mem_insert_self _ _⟩
              rw [hname, b9 x.1 m hnotin]
              show sia.store.record x.1 m = some inst0
              rw [h1, ← hname]
              exact Store.record_AddInstance_ok si.store _ _ _ (hf _ _)
          · intro set hset
            rcases hcases with ⟨-, -, h2, -⟩ | ⟨m, inst0, set0, hr0, hs0, -, h2, -⟩
            · exact ⟨set, by rw [h2]; exact hset, fun _ _ => Iff.rfl⟩
            · rw [hset] at hs0
              cases hs0
              obtain ⟨c, hc, hid⟩ := registrationOf_name lib si _ _ _ _ _ hr0
              cases hc
              refine ⟨insert m set, by rw [h2], ?_⟩
              intro n hn
              rw [Finset.mem_insert]
              constructor
              · rintro (h0 | h0)
                · exact absurd (h0.trans hid.symm) hn
                · exact h0
              · exact fun h0 => Or.inr h0
        · obtain ⟨svc1, c1, c2, c3, c4, c5⟩ := b6 x h0
          refine ⟨svc1, c1, c2, ?_, ?_, c5⟩
          · rw [← hreg]; exact c3
          · intro n inst hr
            rw [← hreg] at hr
            exact c4 n inst hr
      · intro name hn
        obtain ⟨h1, h2⟩ := hsplit name hn
        rw [b7 name h2]
        exact hputne name h1
      · intro s n hn
        rw [b8 s n hn]
        exact hreca s n hn
      · intro s n hs
        obtain ⟨h1, h2⟩ := hsplit s hs
        rw [b9 s n h2]
        exact hrecs s n h1

theorem registered_congr (lib : GoLib) (a b : Flux.syncInstances) (cont : Container)
    (h1 : b.hostIP = a.hostIP) (h2 : b.network = a.network)
    (h3 : ∀ name, b.serviceAt name = a.serviceAt name)
    (h4 : ∀ s n, b.store.record s n = a.store.record s n)
    (h : registered lib a cont) : registered lib b cont := by
  intro name svc hsvc
  rw [h3] at hsvc
  obtain ⟨r1, r2⟩ := h name svc hsvc
  have hreg := registrationOf_congr lib a b h1 h2 svc.ServiceInfo.Service (some cont)
    svc.ServiceInfo.ContainerRules
  refine ⟨by rw [hreg]; exact r1, ?_⟩
  intro n inst hr
  rw [hreg] at hr
  rw [h4]
  exact r2 n inst hr

theorem absorbed_congr (lib : GoLib) (a b : Flux.syncInstances) (key : String)
    (val : Option Container) (h : sameView a b) (ha : absorbed lib a key val) :
    absorbed lib b key val := by
  obtain ⟨h1, h2, -, h4, -, h6, h7⟩ := h
  cases val with
  | none =>
    show (b.containerAt key).join = none
    rw [h6]; exact ha
  | some cont =>
    obtain ⟨a1, a2⟩ := ha
    refine ⟨by rw [h6]; exact a1, ?_⟩
    exact registered_congr lib a b cont h1 h2
      (fun name => by simp only [syncInstances.serviceAt, h4]) h7 a2

theorem sameView_refl (a : Flux.syncInstances) : sameView a a :=
  ⟨rfl, rfl, rfl, rfl, rfl, fun _ => rfl, fun _ _ => rfl⟩

theorem sameView_compose {a b c : Flux.syncInstances} (h1 : sameView a b) (h2 : sameView b c) :
    sameView a c :=
  ⟨h2.1.trans h1.1, h2.2.1.trans h1.2.1, h2.2.2.1.trans h1.2.2.1,
    h2.2.2.2.1.trans h1.2.2.2.1, h2.2.2.2.2.1.trans h1.2.2.2.2.1,
    fun k => (h2.2.2.2.2.2.1 k).trans (h1.2.2.2.2.2.1 k),
    fun s n => (h2.2.2.2.2.2.2 s n).trans (h1.2.2.2.2.2.2 s n)⟩

theorem sameView_of_sameState {a b : Flux.syncInstances} (h : sameState a b) : sameView a b := by
  obtain ⟨h1, h2, h3, h4, h5, h6⟩ := h
  exact ⟨h1, h2, h5, h3, by rw [h4], fun k => by simp only [syncInstances.containerAt, h4], h6⟩

theorem sameContents_of_sameView {a b : Flux.syncInstances} (h : sameView a b) :
    sameContents a b := by
  obtain ⟨-, -, -, h4, h5, h6, h7⟩ := h
  exact ⟨h7, h6, h5, fun name => by simp only [syncInstances.serviceAt, h4], by rw [h4]⟩

/-- Evaluating a container that is already registered everywhere changes nothing but
the call log. -/
theorem addContainerLoop_of_registered (lib : GoLib) (cont : Container)
    (l : List (Sigma (fun _ : String => service))) (si : Flux.syncInstances)
    (hf : ∀ k call, si.store.failing k call = false)
    (hag : ∀ e ∈ l, si.serviceAt e.1 = some e.2)
    (hreg : registered lib si cont) :
    ∃ si2, addContainerLoop lib si cont l = .ok (si2, none) ∧ sameState si si2 := by
  induction l generalizing si with
  | nil => exact ⟨si, rfl, sameState_refl si⟩
  | cons e rest ih =>
    have hat := hag e (by simp)
    obtain ⟨⟨r, hr⟩, hrec⟩ := hreg e.1 e.2 hat
    rw [addContainerLoop]
    rcases r with _ | ⟨n, inst⟩
    · rw [evaluate_of_no_registration lib si (some cont) e.2 hr]
      simp only
      rw [putService_self si e.1 e.2 hat]
      exact ih si hf (fun x hx => hag x (by simp [hx])) hreg
    · obtain ⟨hrecord, set, hset, hin⟩ := hrec n inst hr
      rw [evaluate_of_registration lib si (some cont) e.2 n inst set hf hset hr]
      simp only
      rw [Finset.insert_eq_of_mem hin, service_with_set e.2 set hset]
      have hstep : sameState si
          ({ si with store := (si.store.AddInstance e.2.Name n inst).1 } : Flux.syncInstances) := by
        refine ⟨rfl, rfl, rfl, rfl, Store.failing_AddInstance _ _ _ _, ?_⟩
        intro s m
        by_cases hsm : s = e.2.Name ∧ m = n
        · obtain ⟨h1, h2⟩ := hsm
          subst h1 h2
          show (si.store.AddInstance e.2.Name m inst).1.record e.2.Name m = _
          rw [Store.record_AddInstance_ok si.store _ _ _ (hf _ _), hrecord]
        · exact Store.record_AddInstance_ne si.store _ _ _ s m hsm
      rw [putService_self _ e.1 e.2 (by
        show si.serviceAt e.1 = some e.2
        exact hat)]
      obtain ⟨si2, h2, hs2⟩ := ih
        ({ si with store := (si.store.AddInstance e.2.Name n inst).1 } : Flux.syncInstances)
        (fun k call => by
          show (si.store.AddInstance e.2.Name n inst).1.failing k call = false
          rw [Store.failing_AddInstance]; exact hf k call)
        (fun x hx => hag x (by simp [hx]))
        (registered_congr lib si _ cont rfl rfl (fun _ => rfl) hstep.2.2.2.2.2 hreg)
      exact ⟨si2, h2, sameState_compose hstep hs2⟩

theorem absorbed_of_columnChange (lib : GoLib) (a b : Flux.syncInstances) (cid key : String)
    (val : Option Container) (hch : columnChange cid a b) (hne : key ≠ cid)
    (hkey : ∀ cont, val = some cont → cont.ID = key)
    (h : absorbed lib a key val) : absorbed lib b key val := by
  obtain ⟨c1, c2, -, -, -, c6, c7, c8, c9⟩ := hch
  cases val with
  | none =>
    show (b.containerAt key).join = none
    rw [c6 key hne]; exact h
  | some cont =>
    obtain ⟨a1, a2⟩ := h
    refine ⟨by rw [c6 key hne]; exact a1, ?_⟩
    intro name svc1 hsvc1
    cases hs : a.serviceAt name with
    | none =>
      rw [c8 name hs] at hsvc1
      cases hsvc1
    | some svc =>
      obtain ⟨svc1a, k1, k2, k3⟩ := c9 name svc hs
      rw [hsvc1] at k1
      cases k1
      obtain ⟨r1, r2⟩ := a2 name svc hs
      have hreg : registrationOf lib b svc1.ServiceInfo.Service (some cont)
          svc1.ServiceInfo.ContainerRules =
          registrationOf lib a svc.ServiceInfo.Service (some cont)
            svc.ServiceInfo.ContainerRules := by
        rw [k2]
        exact registrationOf_congr lib a b c1 c2 _ _ _
      refine ⟨by rw [hreg]; exact r1, ?_⟩
      intro n inst hr
      rw [hreg] at hr
      obtain ⟨q1, set, q2, q3⟩ := r2 n inst hr
      obtain ⟨c, hc, hid⟩ := registrationOf_name lib a _ _ _ _ _ hr
      cases hc
      have hn : n ≠ cid := by
        rw [← hid, hkey cont rfl]; exact hne
      have hname : svc1.Name = svc.Name := by
        show svc1.ServiceInfo.Name = svc.ServiceInfo.Name
        rw [k2]
      obtain ⟨set1, q4, q5⟩ := k3 set q2
      exact ⟨by rw [hname, c7 _ _ hn]; exact q1, set1, q4, (q5 n hn).2 q3⟩

theorem containerAt_insert_self (si : Flux.syncInstances)
    (cache : AList (fun _ : String => Option Container)) (key : String) (v : Option Container) :
    ({ si with containers := some (cache.insert key v) } : Flux.syncInstances).containerAt key
      = some v := by
  show (cache.insert key v).lookup key = some v
  exact AList.lookup_insert cache

theorem containerAt_insert_ne (si : Flux.syncInstances)
    (cache : AList (fun _ : String => Option Container)) (key k : String) (v : Option Container)
    (hc : si.containers = some cache) (hne : k ≠ key) :
    ({ si with containers := some (cache.insert key v) } : Flux.syncInstances).containerAt k
      = si.containerAt k := by
  show (cache.insert key v).lookup k = si.containers.bind (fun tbl => tbl.lookup k)
  rw [hc]
  exact AList.lookup_insert_ne hne

/-- One present entry of an incremental container update: afterwards the entry is
`absorbed` and only the column of its ID has changed. -/
theorem containerLoop_step_present (lib : GoLib) (si : Flux.syncInstances)
    (key : String) (cont : Container)
    (rest : List (Sigma (fun _ : String => Option Container)))
    (hf : ∀ k call, si.store.failing k call = false)
    (hid : cont.ID = key)
    (hnames : ∀ name svc, si.serviceAt name = some svc → svc.Name = name)
    (si1 : Flux.syncInstances)
    (h : containerLoop lib si (⟨key, some cont⟩ :: rest) = .ok si1) :
    ∃ sia, containerLoop lib sia rest = .ok si1 ∧ absorbed lib sia key (some cont) ∧
      columnChange key si sia := by
  obtain ⟨hostIP, network, store, errs, services, containers⟩ := si
  rw [containerLoop] at h
  simp only at h
  cases containers with
  | none => simp at h
  | some cache =>
    simp only at h
    rcases hadd : (⟨hostIP, network, store, errs, services,
        some (cache.insert key (some cont))⟩ : Flux.syncInstances).addContainer lib cont with
      f | ⟨sia, err⟩
    · simp [hadd] at h
    · simp only [hadd] at h
      refine ⟨_, h, ?_⟩
      unfold syncInstances.addContainer at hadd
      cases services with
      | none =>
        simp only [Except.ok.injEq, Prod.mk.injEq] at hadd
        obtain ⟨h1, h2⟩ := hadd
        subst h1 h2
        refine ⟨⟨AList.lookup_insert cache, ?_⟩, rfl, rfl, rfl, rfl, rfl,
          fun k hk => AList.lookup_insert_ne hk,
          fun _ _ _ => rfl, fun name _ => rfl, fun name svc hsvc => ?_⟩
        · intro name svc hsvc
          cases hsvc
        · cases hsvc
      | some tbl =>
        simp only at hadd
        have hsi : ∀ e ∈ tbl.entries,
            (⟨hostIP, network, store, errs, some tbl, some cache⟩ :
              Flux.syncInstances).serviceAt e.1 = some e.2 :=
          fun e he => entries_serviceAt _ tbl rfl e he
        have hag : ∀ e ∈ tbl.entries,
            (⟨hostIP, network, store, errs, some tbl, some (cache.insert key (some cont))⟩ :
              Flux.syncInstances).serviceAt e.1 = some e.2 :=
          fun e he => entries_serviceAt _ tbl rfl e he
        obtain ⟨b1, b2, b3, b4, b5, b6, b7, b8, -⟩ :=
          addContainerLoop_registered lib cont tbl.entries
            (⟨hostIP, network, store, errs, some tbl, some (cache.insert key (some cont))⟩ :
              Flux.syncInstances)
            (fun k call => hf k call) tbl.nodupKeys hag
            (fun e he => hnames e.1 e.2 (hsi e he)) sia err hadd
        have hreg : ∀ (info : ServiceInfo),
            registrationOf lib ({ sia with errs := Post sia.errs err } : Flux.syncInstances)
              info.Service (some cont) info.ContainerRules =
            registrationOf lib
              (⟨hostIP, network, store, errs, some tbl, some (cache.insert key (some cont))⟩ :
                Flux.syncInstances) info.Service (some cont) info.ContainerRules :=
          fun info => registrationOf_congr lib _
            ({ sia with errs := Post sia.errs err } : Flux.syncInstances) b2 b3 _ _ _
        have hlook : ∀ name svc1, sia.serviceAt name = some svc1 →
            ∃ v, (⟨name, v⟩ : Sigma (fun _ : String => service)) ∈ tbl.entries := by
          intro name svc1 hsvc1
          by_cases hmem : name ∈ tbl.entries.keys
          · exact List.exists_of_mem_keys hmem
          · rw [b7 name hmem] at hsvc1
            have : tbl.lookup name = some svc1 := hsvc1
            rw [AList.lookup_eq_none.2 hmem] at this
            cases this
        refine ⟨⟨?_, ?_⟩, b2, b3, b4, ?_, ?_, ?_, ?_, ?_, ?_⟩
        · show sia.containerAt key = some (some cont)
          simp only [syncInstances.containerAt, b1]
          exact AList.lookup_insert cache
        · intro name svc1 hsvc1
          have hsvc1a : sia.serviceAt name = some svc1 := hsvc1
          obtain ⟨v, hv⟩ := hlook name svc1 hsvc1a
          obtain ⟨svc1b, c1, c2, c3, c4, -⟩ := b6 ⟨name, v⟩ hv
          simp only at c1 c2 c3 c4
          rw [hsvc1a] at c1
          cases c1
          have hname : svc1.Name = v.Name := by
            show svc1.ServiceInfo.Name = v.ServiceInfo.Name
            rw [c2]
          refine ⟨?_, ?_⟩
          · rw [hreg, c2]; exact c3
          · intro n inst hr
            rw [hreg, c2] at hr
            rw [hname]
            exact c4 n inst hr
        · show sia.containers.isSome = _
          rw [b1]; rfl
        · show sia.services.isSome = _
          rw [b5]
        · intro k hk
          show sia.containerAt k = _
          simp only [syncInstances.containerAt, b1]
          exact AList.lookup_insert_ne hk
        · intro s n hn
          exact b8 s n (by rw [hid]; exact hn)
        · intro name hnone
          show sia.serviceAt name = none
          cases hq : sia.serviceAt name with
          | none => rfl
          | some svc1 =>
            obtain ⟨v, hv⟩ := hlook name svc1 hq
            have := hsi ⟨name, v⟩ hv
            simp only at this
            rw [hnone] at this
            cases this
        · intro name svc hsvc
          have hv : (⟨name, svc⟩ : Sigma (fun _ : String => service)) ∈ tbl.entries := by
            have : tbl.lookup name = some svc := hsvc
            exact AList.mem_lookup_iff.1 this
          obtain ⟨svc1, c1, c2, -, -, c5⟩ := b6 ⟨name, svc⟩ hv
          refine ⟨svc1, c1, c2, ?_⟩
          intro set hset
          obtain ⟨set1, d1, d2⟩ := c5 set hset
          exact ⟨set1, d1, fun n hn => d2 n (by rw [hid]; exact hn)⟩

theorem columnChange_refl (cid : String) (si : Flux.syncInstances) : columnChange cid si si :=
  ⟨rfl, rfl, rfl, rfl, rfl, fun _ _ => rfl, fun _ _ _ => rfl, fun _ h => h,
    fun _ svc h => ⟨svc, h, rfl, fun set hset => ⟨set, hset, fun _ _ => Iff.rfl⟩⟩⟩

theorem removeContainerLoop_services (instName : String)
    (l : List (Sigma (fun _ : String => service))) (si si1 : Flux.syncInstances)
    (err : Option StoreError) (h : removeContainerLoop si instName l = (si1, err)) :
    si1.services.isSome = si.services.isSome := by
  induction l generalizing si with
  | nil =>
    simp only [removeContainerLoop, Prod.mk.injEq] at h
    rw [← h.1]
  | cons e rest ih =>
    rw [removeContainerLoop] at h
    by_cases hi : e.2.includes instName = true
    · simp only [hi, if_true] at h
      rcases hrem : si.store.RemoveInstance e.1 instName with ⟨st, _ | e1⟩
      · simp only [hrem] at h
        rw [ih _ h]
        show (si.services.map _).isSome = _
        simp
      · simp only [hrem, Prod.mk.injEq] at h
        rw [← h.1]
    · simp only [hi] at h
      exact ih si h

/-- One removal entry of an incremental container update: afterwards the entry is
`absorbed` and only the column of its ID has changed. -/
theorem containerLoop_step_removed (lib : GoLib) (si : Flux.syncInstances)
    (key : String) (rest : List (Sigma (fun _ : String => Option Container)))
    (hf : ∀ k call, si.store.failing k call = false)
    (hkc : ∀ k cont, si.containerAt k = some (some cont) → cont.ID = k)
    (si1 : Flux.syncInstances)
    (h : containerLoop lib si (⟨key, none⟩ :: rest) = .ok si1) :
    ∃ sia, containerLoop lib sia rest = .ok si1 ∧ absorbed lib sia key none ∧
      columnChange key si sia := by
  obtain ⟨hostIP, network, store, errs, services, containers⟩ := si
  rw [containerLoop] at h
  simp only at h
  cases hfound : (containers.bind (fun tbl => tbl.lookup key)).join with
  | none =>
    simp only [hfound] at h
    exact ⟨_, h, hfound, columnChange_refl key _⟩
  | some cont =>
    simp only [hfound] at h
    cases containers with
    | none => simp at hfound
    | some cache =>
      have hlook : cache.lookup key = some (some cont) := by
        have : (cache.lookup key).join = some cont := hfound
        cases hq : cache.lookup key with
        | none => rw [hq] at this; cases this
        | some v =>
          rw [hq] at this
          cases v with
          | none => cases this
          | some c => simp only [Option.join] at this; cases this; rfl
      have hid : cont.ID = key := hkc key cont hlook
      simp only [Option.map_some'] at h
      rcases hrem : (⟨hostIP, network, store, errs, services, some (cache.erase key)⟩ :
          Flux.syncInstances).removeContainer cont with ⟨sia, err⟩
      simp only [hrem] at h
      refine ⟨_, h, ?_⟩
      unfold syncInstances.removeContainer at hrem
      cases services with
      | none =>
        simp only [Prod.mk.injEq] at hrem
        obtain ⟨h1, h2⟩ := hrem
        subst h1 h2
        refine ⟨?_, rfl, rfl, rfl, rfl, rfl, fun k hk => AList.lookup_erase_ne hk,
          fun _ _ _ => rfl, fun _ _ => rfl, fun name svc hsvc => by cases hsvc⟩
        show ((cache.erase key).lookup key).join = none
        rw [AList.lookup_erase]; rfl
      | some tbl =>
        simp only at hrem
        have hisSome := removeContainerLoop_services cont.ID tbl.entries _ sia err hrem
        have hag : ∀ e ∈ tbl.entries,
            (⟨hostIP, network, store, errs, some tbl, some (cache.erase key)⟩ :
              Flux.syncInstances).serviceAt e.1 = some e.2 :=
          fun e he => entries_serviceAt _ tbl rfl e he
        obtain ⟨sib, hb, b1, -, b3, b4, b5, b6, b7, -, -, b10⟩ :=
          removeContainerLoop_facts cont.ID tbl.entries tbl.nodupKeys
            (⟨hostIP, network, store, errs, some tbl, some (cache.erase key)⟩ :
              Flux.syncInstances) hag (fun k call => hf k call)
        rw [hrem] at hb
        simp only [Prod.mk.injEq] at hb
        obtain ⟨h1, h2⟩ := hb
        subst h1 h2
        refine ⟨?_, b3, b4, b5, ?_, hisSome, ?_, ?_, ?_, ?_⟩
        · show (sia.containerAt key).join = none
          simp only [syncInstances.containerAt, b1]
          show ((cache.erase key).lookup key).join = none
          rw [AList.lookup_erase]; rfl
        · show sia.containers.isSome = _
          rw [b1]; rfl
        · intro k hk
          show sia.containerAt k = _
          simp only [syncInstances.containerAt, b1]
          exact AList.lookup_erase_ne hk
        · intro s n hn
          exact b10 s n (fun hh => hn (hh.1.trans hid))
        · intro name hnone
          show sia.serviceAt name = none
          have hmem : name ∉ tbl.entries.keys := by
            have : tbl.lookup name = none := hnone
            exact AList.lookup_eq_none.1 this
          rw [b7 name hmem]
          exact hnone
        · intro name svc hsvc
          have hv : (⟨name, svc⟩ : Sigma (fun _ : String => service)) ∈ tbl.entries := by
            have : tbl.lookup name = some svc := hsvc
            exact AList.mem_lookup_iff.1 this
          refine ⟨_, b6 ⟨name, svc⟩ hv, rfl, ?_⟩
          intro set hset
          refine ⟨set.erase cont.ID, by simp [hset], ?_⟩
          intro n hn
          rw [Finset.mem_erase]
          constructor
          · exact fun hh => hh.2
          · exact fun hh => ⟨by rw [hid]; exact hn, hh⟩

/-- After an incremental container update, when no store call fails, every entry of
the update is `absorbed`; entries under other keys that were absorbed stay so. -/
theorem containerLoop_absorbed (lib : GoLib)
    (l : List (Sigma (fun _ : String => Option Container))) (si : Flux.syncInstances)
    (hf : ∀ k call, si.store.failing k call = false)
    (nd : l.NodupKeys) (hku : keyedByID l)
    (hkc : ∀ k cont, si.containerAt k = some (some cont) → cont.ID = k)
    (hnames : ∀ name svc, si.serviceAt name = some svc → svc.Name = name)
    (si1 : Flux.syncInstances) (h : containerLoop lib si l = .ok si1) :
    (∀ e ∈ l, absorbed lib si1 e.1 e.2) ∧
    (∀ key val, key ∉ l.keys → (∀ cont, val = some cont → cont.ID = key) →
      absorbed lib si key val → absorbed lib si1 key val) ∧
    si1.store.failing = si.store.failing := by
  induction l generalizing si with
  | nil =>
    simp only [containerLoop, Except.ok.injEq] at h
    subst h
    exact ⟨by simp, fun _ _ _ _ h => h, rfl⟩
  | cons e rest ih =>
    obtain ⟨key, val⟩ := e
    obtain ⟨hnotin, ndrest⟩ := List.nodupKeys_cons.1 nd
    simp only at hnotin
    have hkey : ∀ cont, val = some cont → cont.ID = key :=
      fun cont hv => hku ⟨key, val⟩ (by simp) cont hv
    have hstep : ∃ sia, containerLoop lib sia rest = .ok si1 ∧ absorbed lib sia key val ∧
        columnChange key si sia := by
      cases val with
      | some cont =>
        exact containerLoop_step_present lib si key cont rest hf (hkey cont rfl) hnames si1 h
      | none => exact containerLoop_step_removed lib si key rest hf hkc si1 h
    obtain ⟨sia, ha, habs, hch⟩ := hstep
    obtain ⟨c1, c2, c3, c4, c5, c6, c7, c8, c9⟩ := hch
    have hfa : ∀ k call, sia.store.failing k call = false := by
      intro k call; rw [c3]; exact hf k call
    have hkca : ∀ k cont, sia.containerAt k = some (some cont) → cont.ID = k := by
      intro k cont hk
      by_cases hkk : k = key
      · subst hkk
        cases val with
        | some c =>
          obtain ⟨a1, -⟩ := habs
          rw [hk] at a1
          simp only [Option.some.injEq] at a1
          subst a1
          exact hkey cont rfl
        | none =>
          have : (sia.containerAt k).join = none := habs
          rw [hk] at this
          cases this
      · rw [c6 k hkk] at hk
        exact hkc k cont hk
    have hnamesa : ∀ name svc, sia.serviceAt name = some svc → svc.Name = name := by
      intro name svc1 hsvc1
      cases hs : si.serviceAt name with
      | none =>
        rw [c8 name hs] at hsvc1
        cases hsvc1
      | some svc =>
        obtain ⟨svc1a, k1, k2, -⟩ := c9 name svc hs
        rw [hsvc1] at k1
        cases k1
        show svc1.ServiceInfo.Name = name
        rw [k2]
        exact hnames name svc hs
    obtain ⟨b1, b2, b3⟩ := ih sia hfa ndrest (fun x hx => hku x (by simp [hx])) hkca hnamesa ha
    refine ⟨?_, ?_, b3.trans c3⟩
    · intro x hx
      rcases List.mem_cons.1 hx with h0 | h0
      · subst h0
        exact b2 key val hnotin hkey habs
      · exact b1 x h0
    · intro k v hk hkv hab
      have hk2 : k ∉ key :: rest.keys := hk
      have hne : k ≠ key := fun heq => hk2 (by simp [heq])
      have hnr : k ∉ rest.keys := fun hm => hk2 (List.mem_cons_of_mem _ hm)
      exact b2 k v hnr hkv
        (absorbed_of_columnChange lib si sia key k v ⟨c1, c2, c3, c4, c5, c6, c7, c8, c9⟩
          hne hkv hab)

/-- An incremental container update whose entries are all `absorbed` changes nothing
but the error sink, the call log and the order of map entries. -/
theorem containerLoop_of_absorbed (lib : GoLib)
    (l : List (Sigma (fun _ : String => Option Container))) (si : Flux.syncInstances)
    (hf : ∀ k call, si.store.failing k call = false)
    (hab : ∀ e ∈ l, absorbed lib si e.1 e.2) :
    ∃ si2, containerLoop lib si l = .ok si2 ∧ sameView si si2 := by
  induction l generalizing si with
  | nil => exact ⟨si, rfl, sameView_refl si⟩
  | cons e rest ih =>
    obtain ⟨key, val⟩ := e
    have habs := hab ⟨key, val⟩ (by simp)
    have hcont : ∀ sia : Flux.syncInstances, sameView si sia →
        ∃ si2, containerLoop lib sia rest = .ok si2 ∧ sameView si si2 := by
      intro sia hv
      obtain ⟨si2, h2, hv2⟩ := ih sia
        (fun k call => by rw [hv.2.2.1]; exact hf k call)
        (fun x hx => absorbed_congr lib si sia x.1 x.2 hv (hab x (by simp [hx])))
      exact ⟨si2, h2, sameView_compose hv hv2⟩
    obtain ⟨hostIP, network, store, errs, services, containers⟩ := si
    rw [containerLoop]
    cases val with
    | none =>
      have hnone : (containers.bind (fun tbl => tbl.lookup key)).join = none := habs
      simp only [hnone]
      exact hcont _ (sameView_refl _)
    | some cont =>
      obtain ⟨a1, a2⟩ := habs
      cases containers with
      | none => cases a1
      | some cache =>
        have hlook : cache.lookup key = some (some cont) := a1
        simp only
        have hv0 : sameView (⟨hostIP, network, store, errs, services, some cache⟩ :
              Flux.syncInstances)
            (⟨hostIP, network, store, errs, services, some (cache.insert key (some cont))⟩ :
              Flux.syncInstances) := by
          refine ⟨rfl, rfl, rfl, rfl, rfl, ?_, fun _ _ => rfl⟩
          intro k
          show (cache.insert key (some cont)).lookup k = cache.lookup k
          by_cases hk : k = key
          · subst hk
            rw [AList.lookup_insert, hlook]
          · exact AList.lookup_insert_ne hk
        have hreg0 : registered lib
            (⟨hostIP, network, store, errs, services, some (cache.insert key (some cont))⟩ :
              Flux.syncInstances) cont :=
          registered_congr lib
            (⟨hostIP, network, store, errs, services, some cache⟩ : Flux.syncInstances)
            _ cont rfl rfl (fun _ => rfl) (fun _ _ => rfl) a2
        have hadd : ∃ sia, (⟨hostIP, network, store, errs, services,
              some (cache.insert key (some cont))⟩ : Flux.syncInstances).addContainer lib cont
              = .ok (sia, none) ∧
            sameState (⟨hostIP, network, store, errs, services,
              some (cache.insert key (some cont))⟩ : Flux.syncInstances) sia := by
          unfold syncInstances.addContainer
          cases services with
          | none => exact ⟨_, rfl, sameState_refl _⟩
          | some tbl =>
            simp only
            exact addContainerLoop_of_registered lib cont tbl.entries _
              (fun k call => hf k call)
              (fun x hx => entries_serviceAt _ tbl rfl x hx) hreg0
        obtain ⟨sia, hadd1, hadd2⟩ := hadd
        rw [hadd1]
        simp only
        apply hcont
        exact sameView_compose hv0
          (sameView_compose (sameView_of_sameState hadd2)
            (show sameView sia ({ sia with errs := Post sia.errs none } : Flux.syncInstances)
              from sameView_refl sia))

theorem sameContents_refl (a : Flux.syncInstances) : sameContents a a :=
  ⟨fun _ _ => rfl, fun _ => rfl, rfl, fun _ => rfl, rfl⟩

/-- Idempotence of an incremental container update. -/
theorem processContainerUpdate_incremental_twice (lib : GoLib) (si si1 : Flux.syncInstances)
    (update : ContainerUpdate) (hreset : update.Reset = false)
    (hf : ∀ k call, si.store.failing k call = false)
    (hkc : ∀ k cont, si.containerAt k = some (some cont) → cont.ID = k)
    (hnames : ∀ name svc, si.serviceAt name = some svc → svc.Name = name)
    (hku : ∀ upd, update.Containers = some upd → keyedByID upd.entries)
    (h : si.processContainerUpdate lib update = .ok si1) :
    ∃ si2, si1.processContainerUpdate lib update = .ok si2 ∧ sameContents si1 si2 := by
  unfold syncInstances.processContainerUpdate at h ⊢
  simp only [hreset, Bool.false_eq_true, if_false] at h ⊢
  cases hu : update.Containers with
  | none =>
    simp only [hu, Except.ok.injEq] at h
    subst h
    exact ⟨_, rfl, sameContents_refl _⟩
  | some upd =>
    simp only [hu] at h
    obtain ⟨b1, -, b3⟩ := containerLoop_absorbed lib upd.entries si hf upd.nodupKeys
      (hku upd hu) hkc hnames si1 h
    obtain ⟨si2, h2, hv⟩ := containerLoop_of_absorbed lib upd.entries si1
      (fun k call => by rw [b3]; exact hf k call) b1
    exact ⟨si2, h2, sameContents_of_sameView hv⟩

/-- C15. Idempotence of update processing: from an initialised reconciler state that
follows the data model (cache keyed by container ID, table keyed by service name),
with no store call failing, for every update that follows the data model (a
ContainerUpdate or a ServiceUpdate, Reset or incremental): if processing the update
returns, processing the same update again returns too, with the same store records,
the same container cache and the same service table with the same cached matched
sets. -/
theorem update_processing_idempotent (lib : GoLib) (si si1 : Flux.syncInstances) (u : Update)
    (hcache : si.containers ≠ none) (htable : si.services ≠ none)
    (hf : ∀ k call, si.store.failing k call = false)
    (hstate : keyedState si) (hupd : keyedUpdate u)
    (h : si.processOne lib u = .ok si1) :
    ∃ si2, si1.processOne lib u = .ok si2 ∧ sameContents si1 si2 := by
  obtain ⟨hkc, hnames⟩ := hstate
  cases u with
  | container cu =>
    simp only [syncInstances.processOne] at h ⊢
    by_cases hr : cu.Reset = true
    · obtain ⟨si2, h2, hs⟩ := processContainerUpdate_reset_twice lib si si1 cu hr hf hnames
        hupd h
      exact ⟨si2, h2, sameContents_of_sameState hs⟩
    · have hr2 : cu.Reset = false := by
        cases hq : cu.Reset with
        | true => exact absurd hq hr
        | false => rfl
      apply processContainerUpdate_incremental_twice lib si si1 cu hr2 hf _ hnames hupd h
      intro k cont hk
      cases hc : si.containers with
      | none => exact absurd hc hcache
      | some cache =>
        have hl : cache.lookup k = some (some cont) := by
          simpa [syncInstances.containerAt, hc] using hk
        exact hkc cache hc ⟨k, some cont⟩ (AList.mem_lookup_iff.1 hl) cont rfl
  | service su =>
    simp only [syncInstances.processOne] at h ⊢
    cases hc : si.containers with
    | none => exact absurd hc hcache
    | some cache =>
      exact processServiceUpdate_twice lib si si1 su cache hc (hkc cache hc) htable hf hupd h

theorem update_processing_idempotent_witness :
    ∃ si1 si2, cachedAgent.processOne GoLib.sample bringC2 = .ok si1 ∧
      si1.processOne GoLib.sample bringC2 = .ok si2 ∧ sameContents si1 si2 ∧
      (si1.store.record "svcA" "c2").isSome = true ∧
      (si1.serviceAt "svcA").bind (fun svc => svc.localInstances) = some {"c2"} := by
  have h1 : ∃ si1, cachedAgent.processOne GoLib.sample bringC2 = .ok si1 ∧
      (si1.store.record "svcA" "c2").isSome = true ∧
      (si1.serviceAt "svcA").bind (fun svc => svc.localInstances) = some {"c2"} :=
    ⟨_, rfl, rfl, rfl⟩
  obtain ⟨si1, h1, h1a, h1b⟩ := h1
  have hstate : keyedState cachedAgent := by
    constructor
    · intro cache hc e he cont hcont
      simp only [cachedAgent, twoServiceAgent, Option.some.injEq] at hc
      subst hc
      simp only [AList.insert_entries, AList.empty_entries, List.kerase_nil,
        List.mem_singleton] at he
      subst he
      cases hcont
      rfl
    · intro name svc hsvc
      have hl : ((AList.insert "svcA"
          { ServiceInfo := sampleInfo "svcA" [⟨"r1", ruleAny⟩], localInstances := some ∅ }
          (AList.insert "svcB"
            { ServiceInfo := sampleInfo "svcB" [⟨"r1", ruleAny⟩], localInstances := some ∅ }
            ∅) : AList (fun _ : String => service))).lookup name = some svc := hsvc
      by_cases hA : name = "svcA"
      · subst hA
        rw [AList.lookup_insert] at hl
        cases hl
        rfl
      · rw [AList.lookup_insert_ne hA] at hl
        by_cases hB : name = "svcB"
        · subst hB
          rw [AList.lookup_insert] at hl
          cases hl
          rfl
        · rw [AList.lookup_insert_ne hB] at hl
          cases hl
  have hupd : keyedUpdate bringC2 := by
    intro upd hu e he cont hcont
    simp only [Option.some.injEq] at hu
    subst hu
    simp only [AList.insert_entries, AList.empty_entries, List.kerase_nil,
      List.mem_singleton] at he
    subst he
    cases hcont
    rfl
  obtain ⟨si2, h2, h3⟩ := update_processing_idempotent GoLib.sample cachedAgent si1 bringC2
    (by simp [cachedAgent, twoServiceAgent]) (by simp [cachedAgent, twoServiceAgent])
    (fun _ _ => rfl) hstate hupd h1
  exact ⟨si1, si2, h1, h2, h3, h1a, h1b⟩

/-! ## Rule evaluation on an environment entry without `=` -/

/-- C1 (the code at the failing input). The rules are `r1` (never satisfied), `r2`
and `r5` (both satisfied by every container); the container has the environment list
`["FOO"]`. A rule is satisfied, yet `evaluate` ends in the index-out-of-range panic
of `extractInstance` at `kv[1]`, before any `AddInstance`: no store call is issued
and no instance names `r2`. With the entry `FOO=bar` in its place `evaluate` returns
having issued the one `AddInstance` for (`svc`, `c1`), which names `r2`. -/
theorem evaluate_panics_before_AddInstance :
    ruleAny.Includes (containerLabels.Label (some (containerWithEnv ["FOO"]))) = .ok true ∧
    (sampleAgent LOCAL).evaluate GoLib.sample (some (containerWithEnv ["FOO"]))
        (sampleService 80 [⟨"r1", ruleNone⟩, ⟨"r2", ruleAny⟩, ⟨"r5", ruleAny⟩])
      = .error .indexOutOfRange ∧
    (∃ si1 svc1 inst,
      (sampleAgent LOCAL).evaluate GoLib.sample (some (containerWithEnv ["FOO=bar"]))
          (sampleService 80 [⟨"r1", ruleNone⟩, ⟨"r2", ruleAny⟩, ⟨"r5", ruleAny⟩])
        = .ok (si1, svc1, none) ∧
      si1.store.calls = [StoreCall.AddInstance "svc" "c1" inst] ∧
      inst.ContainerRule = "r2") :=
  ⟨rfl, rfl, _, _, _, rfl, rfl, rfl⟩

/-- C8 (the code at the failing input). The service has instance port 0 and one rule,
satisfied by every container; the container has the environment list `["FOO"]`.
`getAddress` returns no address, but `extractInstance` does not return an instance:
it ends in the index-out-of-range panic at `kv[1]`, and so does `evaluate`, which
writes nothing to the store and records nothing in the matched set. With the entry
`FOO=bar` in its place the instance is returned without address, owned by this host,
written and recorded. -/
theorem unaddressable_instance_panics_on_bare_entry :
    (sampleAgent LOCAL).getAddress GoLib.sample ruleAny ⟨0⟩ (containerWithEnv ["FOO"]) = none ∧
    ruleAny.Includes (containerLabels.Label (some (containerWithEnv ["FOO"]))) = .ok true ∧
    (sampleAgent LOCAL).extractInstance GoLib.sample ruleAny ⟨0⟩
        (some (containerWithEnv ["FOO"])) = .error .indexOutOfRange ∧
    (sampleAgent LOCAL).evaluate GoLib.sample (some (containerWithEnv ["FOO"]))
        (sampleService 0 [⟨"r1", ruleAny⟩]) = .error .indexOutOfRange ∧
    (∃ inst, (sampleAgent LOCAL).extractInstance GoLib.sample ruleAny ⟨0⟩
        (some (containerWithEnv ["FOO=bar"])) = .ok (inst, true) ∧
      inst.Address = none ∧ inst.Host = ⟨[10, 0, 0, 1]⟩) ∧
    (∃ si1 svc1 inst,
      (sampleAgent LOCAL).evaluate GoLib.sample (some (containerWithEnv ["FOO=bar"]))
          (sampleService 0 [⟨"r1", ruleAny⟩]) = .ok (si1, svc1, none) ∧
      si1.store.record "svc" "c1" = some inst ∧ inst.Address = none ∧
      svc1.includes "c1" = true) :=
  ⟨rfl, rfl, rfl, rfl, ⟨_, rfl, rfl, rfl⟩, ⟨_, _, _, rfl, rfl, rfl, rfl⟩⟩

end Flux
